import Mathlib

/-!
# Brand website collector: a shallow embedding of `naver-brand-website-collector.js`

The JavaScript class `NaverBrandWebsiteCollector` is embedded as pure Lean
functions.  Strings are lists of characters.  The mutable fields of the class
(`requestCount`, `cache`, `results`, `failed`) form an explicit state record that
is threaded through every method; the two network collaborators (the domain
prober and the search service) are functions on an abstract world state, so a
theorem quantified over the world and over these functions covers every
possible behaviour of the network.  Pacing delays (`sleep`) and console output
have no effect on any value and are left out; writing the batch and checkpoint
files is recorded as a step and taken to succeed.
-/

namespace BrandCollector

/-! ## Strings -/

/-- A JavaScript string, as the list of its characters. -/
abbrev Str := List Char

/-- `s.includes(needle)`: the needle occurs as a contiguous run of `s`. -/
def includes : Str → Str → Bool
  | [], needle => needle.isEmpty
  | c :: s, needle => needle.isPrefixOf (c :: s) || includes s needle

/-- `s.startsWith(needle)`. -/
def startsWith (s needle : Str) : Bool := needle.isPrefixOf s

/-- `s.endsWith(needle)`. -/
def endsWith (s needle : Str) : Bool := needle.reverse.isPrefixOf s.reverse

/-- The characters matched by the regular expression class `\s` (and removed by `trim`). -/
def isJsSpace (c : Char) : Bool :=
  let n := c.toNat
  (9 ≤ n && n ≤ 13) || n == 32 || n == 160 || n == 5760 || (8192 ≤ n && n ≤ 8202) ||
    n == 8232 || n == 8233 || n == 8239 || n == 8287 || n == 12288 || n == 65279

/-- The characters matched by the class `[a-z0-9]`. -/
def isLowerAlnum (c : Char) : Bool :=
  let n := c.toNat
  (97 ≤ n && n ≤ 122) || (48 ≤ n && n ≤ 57)

/-- `s.replace(/[^a-z0-9]/g, '')`. -/
def stripNonAlnum (s : Str) : Str := s.filter isLowerAlnum

/-- `s.replace(/\s+/g, '')`. -/
def removeWhitespace (s : Str) : Str := s.filter (fun c => !isJsSpace c)

/-- Worker of `replaceSpaceRuns`; the flag says that the previous character was whitespace. -/
def replaceSpaceRunsAux (rep : Str) : Bool → Str → Str
  | _, [] => []
  | inRun, c :: s =>
    if isJsSpace c then
      if inRun then replaceSpaceRunsAux rep true s else rep ++ replaceSpaceRunsAux rep true s
    else c :: replaceSpaceRunsAux rep false s

/-- `s.replace(/\s+/g, rep)`: every maximal run of whitespace becomes `rep`. -/
def replaceSpaceRuns (rep : Str) (s : Str) : Str := replaceSpaceRunsAux rep false s

/-- `s.trim()`. -/
def trim (s : Str) : Str := ((s.dropWhile isJsSpace).reverse.dropWhile isJsSpace).reverse

/-- Worker of `stripTags`: the stripped text together with the stripped text that follows the
first `>` (when there is one). -/
def stripTagsAux : Str → Str × Option Str
  | [] => ([], none)
  | c :: s =>
    let (r, afterClose) := stripTagsAux s
    let here : Str :=
      if c = '<' then
        match afterClose with
        | some t => t
        | none => c :: r
      else c :: r
    (here, if c = '>' then some r else afterClose)

/-- `s.replace(/<[^>]*>/g, '')`. -/
def stripTags (s : Str) : Str := (stripTagsAux s).1

/-- Worker of `replaceEntities`: the rewritten text together with the rewritten text that follows
the first `;` (when there is one). -/
def replaceEntitiesAux : Str → Str × Option Str
  | [] => ([], none)
  | c :: s =>
    let (r, afterSemi) := replaceEntitiesAux s
    let here : Str :=
      if c = '&' then
        match s, afterSemi with
        | d :: _, some t => if d = ';' then c :: r else ' ' :: t
        | _, _ => c :: r
      else c :: r
    (here, if c = ';' then some r else afterSemi)

/-- `s.replace(/&[^;]+;/g, ' ')`. -/
def replaceEntities (s : Str) : Str := (replaceEntitiesAux s).1

/-- `cleanText(text)`: an absent or empty text gives the empty string; otherwise tags are removed,
entities become a blank, whitespace runs collapse to one blank and the ends are trimmed. -/
def cleanText (text : Option Str) : Str :=
  match text with
  | none => []
  | some t =>
    if t = [] then []
    else trim (replaceSpaceRuns [' '] (replaceEntities (stripTags t)))

/-- The two library functions whose full definition lies outside the program: Unicode
lower-casing (`String.prototype.toLowerCase`) and the host name of a parsed URL
(`new URL(url).hostname`, `none` when the constructor throws).  The one law kept of lower-casing
is that the empty string stays empty. -/
structure Platform where
  toLowerCase : Str → Str
  urlHostname : Str → Option Str
  toLowerCase_nil : toLowerCase [] = []

/-- Lower-casing of the letters `A`..`Z`, every other character unchanged. -/
def asciiLower (s : Str) : Str := s.map Char.toLower

/-- Host name of a plain `http://host/...` or `https://host/...` address: the text between the
scheme and the first of `/`, `?`, `#`, `:`; any other text does not parse. -/
def simpleHostname (url : Str) : Option Str :=
  let host (rest : Str) : Option Str :=
    let h := rest.takeWhile (fun c => !(c == '/' || c == '?' || c == '#' || c == ':'))
    if h = [] then none else some h
  if "https://".toList.isPrefixOf url then host (url.drop 8)
  else if "http://".toList.isPrefixOf url then host (url.drop 7)
  else none

/-- A concrete platform for plain ASCII host names and addresses. -/
def asciiPlatform : Platform where
  toLowerCase := asciiLower
  urlHostname := fun url => (simpleHostname url).map asciiLower
  toLowerCase_nil := rfl

/-- JavaScript truthiness of an optional string: absent and empty both count as false. -/
def truthy (s : Option Str) : Option Str :=
  match s with
  | some (c :: cs) => some (c :: cs)
  | _ => none

/-! ## Data model -/

/-- One brand of the work list, as produced by `loadBrandsFromFile`, whose English name is absent
or a string. -/
structure Brand where
  brandName : Str
  brandNameEnglish : Option Str
  category : Str
  isBest : Bool
  deriving DecidableEq, Repr

/-- The value of the `brandNameEnglish` property of a work-list entry or of a result.  The work
list is parsed from a JSON file and the property is copied unchecked (`loadBrandsFromFile`), so
besides nothing or a string it may hold a truthy value of another type (a number, `true`, an
array, an object); `other` carries the JSON text of such a value. -/
inductive EnglishName
  | text (name : Option Str)
  | other (json : Str)
  deriving DecidableEq, Repr

/-- One item returned by the search service. -/
structure SearchItem where
  link : Str
  title : Option Str
  description : Option Str
  deriving DecidableEq, Repr

/-- A candidate built by `extractOfficialWebsites` from one search item. -/
structure WebsiteCandidate where
  url : Str
  title : Str
  description : Str
  hostname : Str
  isDomainMatch : Bool
  score : Int
  deriving DecidableEq, Repr

/-- The object returned by `guessBrandDomainFromEnglishName` on success. -/
structure GuessedWebsite where
  originalDomain : Str
  url : Str
  statusCode : Nat
  redirected : Bool
  score : Int
  deriving DecidableEq, Repr

/-- The values of the `searchMethod` field (`null` is `none` of the option type). -/
inductive SearchMethod
  | domainGuessed
  | naverSearch
  | error
  deriving DecidableEq, Repr

/-- The values of the `status` field. -/
inductive Status
  | searching
  | found
  | notFound
  | error
  deriving DecidableEq, Repr

/-- The result object of one brand.  The error record built by `processBrandsBatch` leaves
`category` and `isBest` absent. -/
structure BrandResult where
  brandName : Str
  brandNameEnglish : EnglishName
  category : Option Str
  isBest : Option Bool
  websites : List Str
  searchQueries : List Str
  guessedDomains : List GuessedWebsite
  searchMethod : Option SearchMethod
  status : Status
  primaryWebsite : Option Str
  error : Option Str
  fromCache : Bool
  deriving DecidableEq, Repr

/-- A checkpoint file, as read back by `loadIntermediateResults`. -/
structure Checkpoint where
  successResults : Option (List BrandResult)
  failedResults : Option (List BrandResult)
  deriving DecidableEq, Repr

/-- What `checkDomainExists` hands back to its caller: a live site, no site, or a fault. -/
inductive ProbeOutcome
  | found (finalUrl : Str) (statusCode : Nat) (redirected : Bool)
  | absent
  | fault (message : Str)
  deriving DecidableEq, Repr

/-- What one `axios.head` request does: it answers with a status and possibly a final address,
or it fails (time-out, connection failure). -/
inductive HeadOutcome
  | response (status : Nat) (responseUrl : Option Str)
  | failed
  deriving DecidableEq, Repr

/-- What one `axios.get` request to the search service does: it resolves with a status and the
`items` of the body, it is rejected with a response (status, `errorMessage` of the body, message
of the error), or it is rejected without a response. -/
inductive HttpOutcome
  | response (status : Nat) (items : Option (List SearchItem))
  | rejectedWithResponse (status : Nat) (errorMessage : Option Str) (message : Str)
  | rejected (message : Str)
  deriving DecidableEq, Repr

deriving instance DecidableEq for Except

/-- The network, over a world state `ω`: the domain prober and the search service. -/
structure Collab (ω : Type) where
  probe : ω → Str → ProbeOutcome × ω
  search : ω → Str → Nat → HttpOutcome × ω

/-- An observable step of a run, recorded in order. -/
inductive Event
  | findCall (brandName : Str)
  | probe (domain : Str)
  | searchCall (query : Str)
  | httpGet (query : Str)
  | saveBatch (batchIndex : Nat)
  | saveIntermediate (completedBatches : Nat)
  deriving DecidableEq, Repr

/-- The mutable fields of the collector, the world, and the record of the steps taken so far. -/
structure Collector (ω : Type) where
  dailyLimit : Nat
  requestCount : Nat
  cache : List (Str × BrandResult)
  results : List BrandResult
  failed : List BrandResult
  world : ω
  events : List Event

/-- The state built by the constructor: 25,000 requests a day, nothing counted or stored yet. -/
def Collector.fresh {ω : Type} (w : ω) : Collector ω where
  dailyLimit := 25000
  requestCount := 0
  cache := []
  results := []
  failed := []
  world := w
  events := []

/-- `this.koreanDomains`. -/
def koreanDomains : List Str :=
  [".co.kr".toList, ".com".toList, ".kr".toList, ".net".toList]

/-- `this.excludeDomains`. -/
def excludeDomains : List Str :=
  ["naver.com".toList, "daum.net".toList, "google.com".toList, "youtube.com".toList,
   "instagram.com".toList, "facebook.com".toList, "twitter.com".toList,
   "musinsa.com".toList, "ably.co.kr".toList, "29cm.co.kr".toList, "zigzag.kr".toList,
   "brandi.co.kr".toList, "styleshare.kr".toList, "wconcept.co.kr".toList]

/-- `cache.has(key)` and `cache.get(key)` in one. -/
def cacheGet (cache : List (Str × BrandResult)) (key : Str) : Option BrandResult :=
  (cache.find? (fun e => e.1 = key)).map Prod.snd

/-- `cache.set(key, value)`. -/
def cacheSet (cache : List (Str × BrandResult)) (key : Str) (value : BrandResult) :
    List (Str × BrandResult) :=
  (key, value) :: cache.filter (fun e => e.1 ≠ key)

/-- `[...new Set(xs)]`: the first occurrence of every element, in order. -/
def uniqueInOrder : List Str → List Str
  | [] => []
  | x :: xs => x :: (uniqueInOrder xs).filter (fun y => y ≠ x)

/-! ## Resuming: `filterUnprocessedBrands` -/

/-- The key under which a brand name is compared: `name.toLowerCase().trim()`. -/
def normalizeName (rt : Platform) (name : Str) : Str := trim (rt.toLowerCase name)

/-- The set `processedBrandNames` built by `filterUnprocessedBrands`: the keys of the success and
failed results that have a (non-empty) brand name. -/
def processedBrandNames (rt : Platform) (cp : Checkpoint) : List Str :=
  ((cp.successResults.getD []) ++ (cp.failedResults.getD [])).filterMap
    (fun result => if result.brandName ≠ [] then some (normalizeName rt result.brandName) else none)

/-- `filterUnprocessedBrands(brands, processedResults)`. -/
def filterUnprocessedBrands (rt : Platform) (brands : List Brand)
    (processedResults : Option Checkpoint) : List Brand :=
  match processedResults with
  | none => brands
  | some cp =>
    brands.filter (fun brand =>
      !decide (normalizeName rt brand.brandName ∈ processedBrandNames rt cp))

/-! ## Scoring and extraction of search candidates -/

/-- `isLikelyOfficialWebsite(url, hostname, title, description, brandKeywords)`. -/
def isLikelyOfficialWebsite (rt : Platform) (hostname title description : Str)
    (brandKeywords : List Str) : Bool :=
  if brandKeywords.any (fun keyword => includes hostname (removeWhitespace keyword)) then true
  else
    let officialKeywords : List Str :=
      ["공식".toList, "브랜드".toList, "홈페이지".toList, "official".toList, "brand".toList,
       "homepage".toList]
    let textContent := rt.toLowerCase (title ++ " ".toList ++ description)
    let hasOfficialKeyword := officialKeywords.any (fun keyword => includes textContent keyword)
    let hasBrandKeyword := brandKeywords.any (fun keyword => includes textContent keyword)
    let isKoreanDomain := koreanDomains.any (fun suffix => endsWith hostname suffix)
    hasOfficialKeyword && hasBrandKeyword && isKoreanDomain

/-- `calculateWebsiteScore(hostname, title, description, brandKeywords, cleanEnglishName,
isDomainMatch)`.  The loop over the keywords adds 60 once, at the first keyword found in the host
name. -/
def calculateWebsiteScore (rt : Platform) (hostname title description : Str)
    (brandKeywords : List Str) (_cleanEnglishName : Option Str) (isDomainMatch : Bool) : Int :=
  let textContent := rt.toLowerCase (title ++ " ".toList ++ description)
  let score : Int := 0
  let score := if isDomainMatch then score + 100 else score
  let score :=
    if brandKeywords.any (fun keyword => includes hostname (removeWhitespace keyword))
    then score + 60 else score
  let score :=
    if includes textContent "공식".toList || includes textContent "official".toList
    then score + 40 else score
  let score :=
    if includes textContent "브랜드".toList || includes textContent "brand".toList
    then score + 30 else score
  let score :=
    if endsWith hostname ".co.kr".toList then score + 25
    else if endsWith hostname ".kr".toList then score + 20
    else if endsWith hostname ".com".toList then score + 10
    else score
  let score :=
    if includes textContent "홈페이지".toList || includes textContent "homepage".toList ||
        includes textContent "메인".toList || includes textContent "main".toList
    then score + 20 else score
  let score :=
    if includes textContent "쇼핑몰".toList || includes textContent "쇼핑".toList ||
        includes textContent "shop".toList || includes textContent "store".toList ||
        includes hostname "shop".toList || includes hostname "store".toList
    then score - 10 else score
  let score :=
    if includes hostname "blog".toList || includes hostname "instagram".toList ||
        includes hostname "facebook".toList || includes hostname "naver.com".toList ||
        includes textContent "블로그".toList || includes textContent "인스타".toList
    then score - 20 else score
  let score := if !startsWith hostname "www.".toList then score + 5 else score
  max 0 score

/-- The list `brandKeywords` of `extractOfficialWebsites`: the lower-cased names, without the
absent and the empty ones. -/
def brandKeywordsOf (rt : Platform) (brandName : Str) (brandNameEnglish : Option Str) :
    List Str :=
  ([some (rt.toLowerCase brandName), brandNameEnglish.map rt.toLowerCase].filterMap truthy)

/-- The value `cleanEnglishName` of `extractOfficialWebsites`. -/
def cleanEnglishNameOf (rt : Platform) (brandNameEnglish : Option Str) : Option Str :=
  (truthy brandNameEnglish).map (fun e => stripNonAlnum (rt.toLowerCase e))

/-- The test `isDomainMatch` of `extractOfficialWebsites`; an absent or empty cleaned English name
never matches. -/
def isDomainMatchOf (cleanEnglishName : Option Str) (hostname : Str) : Bool :=
  match truthy cleanEnglishName with
  | none => false
  | some name =>
    includes hostname name || startsWith hostname (name ++ ".".toList) ||
      includes hostname (".".toList ++ name ++ ".".toList) ||
      endsWith hostname (".".toList ++ name)

/-- The exclusion test: some entry of `excludeDomains` occurs in the host name. -/
def isExcludedHost (hostname : Str) : Bool :=
  excludeDomains.any (fun domain => includes hostname domain)

/-- The body of the loop of `extractOfficialWebsites` for one item: the candidate it pushes, if
any.  An address that does not parse, an excluded host and a host that is neither a domain match
nor likely official push nothing. -/
def candidateOf (rt : Platform) (brandName : Str) (brandNameEnglish : Option Str)
    (item : SearchItem) : Option WebsiteCandidate :=
  let brandKeywords := brandKeywordsOf rt brandName brandNameEnglish
  let cleanEnglishName := cleanEnglishNameOf rt brandNameEnglish
  let url := item.link
  let title := cleanText item.title
  let description := cleanText item.description
  match rt.urlHostname url with
  | none => none
  | some rawHost =>
    let hostname := rt.toLowerCase rawHost
    if isExcludedHost hostname then none
    else
      let isDomainMatch := isDomainMatchOf cleanEnglishName hostname
      let isOfficial :=
        isDomainMatch || isLikelyOfficialWebsite rt hostname title description brandKeywords
      if isOfficial then
        some {
          url := url, title := title, description := description, hostname := hostname,
          isDomainMatch := isDomainMatch,
          score := calculateWebsiteScore rt hostname title description brandKeywords
            cleanEnglishName isDomainMatch }
      else none

/-- The comparison function handed to `sort` in `extractOfficialWebsites`. -/
def compareCandidates (a b : WebsiteCandidate) : Int :=
  if a.isDomainMatch && !b.isDomainMatch then -1
  else if !a.isDomainMatch && b.isDomainMatch then 1
  else if b.score ≠ a.score then b.score - a.score
  else
    let aIsKorean := includes a.hostname ".co.kr".toList || includes a.hostname ".kr".toList
    let bIsKorean := includes b.hostname ".co.kr".toList || includes b.hostname ".kr".toList
    if aIsKorean && !bIsKorean then -1
    else if !aIsKorean && bIsKorean then 1
    else 0

/-- The order induced by the comparison function: `a` may stand before `b`. -/
def rankedBefore (a b : WebsiteCandidate) : Prop := compareCandidates a b ≤ 0

instance rankedBeforeDecidable : DecidableRel rankedBefore :=
  fun a b => inferInstanceAs (Decidable (compareCandidates a b ≤ 0))

/-- The array `websites` of `extractOfficialWebsites` after the call of `sort`: the candidates of
the items, in the stable order of the comparison function. -/
def rankedCandidates (rt : Platform) (searchResults : List SearchItem) (brandName : Str)
    (brandNameEnglish : Option Str) : List WebsiteCandidate :=
  List.insertionSort rankedBefore
    (searchResults.filterMap (candidateOf rt brandName brandNameEnglish))

/-- `extractOfficialWebsites(searchResults, brandName, brandNameEnglish)`: the addresses of the
first three ranked candidates. -/
def extractOfficialWebsites (rt : Platform) (searchResults : List SearchItem) (brandName : Str)
    (brandNameEnglish : Option Str) : List Str :=
  ((rankedCandidates rt searchResults brandName brandNameEnglish).take 3).map
    WebsiteCandidate.url

/-! ## Domain guessing -/

/-- The value `cleanName` of `guessBrandDomainFromEnglishName`. -/
def cleanNameOf (rt : Platform) (brandNameEnglish : Str) : Str :=
  removeWhitespace (stripNonAlnum (rt.toLowerCase brandNameEnglish))

/-- The array `domainPatterns` of `guessBrandDomainFromEnglishName`, in its order. -/
def domainPatterns (rt : Platform) (brandNameEnglish : Str) : List Str :=
  let cleanName := cleanNameOf rt brandNameEnglish
  let hyphenated := replaceSpaceRuns ['-'] (rt.toLowerCase brandNameEnglish)
  [ cleanName ++ ".co.kr".toList,
    "www.".toList ++ cleanName ++ ".co.kr".toList,
    cleanName ++ ".kr".toList,
    cleanName ++ ".com".toList,
    "www.".toList ++ cleanName ++ ".com".toList,
    "shop.".toList ++ cleanName ++ ".com".toList,
    "store.".toList ++ cleanName ++ ".com".toList,
    cleanName ++ "shop.co.kr".toList,
    cleanName ++ "store.co.kr".toList,
    cleanName ++ ".net".toList,
    cleanName ++ "korea.com".toList,
    cleanName ++ ".co.kr".toList ] ++
  (if includes brandNameEnglish " ".toList then
    [ hyphenated ++ ".com".toList, hyphenated ++ ".co.kr".toList ]
   else [])

/-- `calculateDomainScore(domain, brandNameEnglish, patternIndex)`. -/
def calculateDomainScore (rt : Platform) (domain brandNameEnglish : Str) (patternIndex : Nat) :
    Int :=
  let score : Int := 100 - (patternIndex : Int)
  let score :=
    if includes domain ".co.kr".toList then score + 30
    else if includes domain ".kr".toList then score + 20
    else if includes domain ".com".toList then score + 10
    else score
  let score := if !startsWith domain "www.".toList then score + 5 else score
  let cleanBrandName := stripNonAlnum (rt.toLowerCase brandNameEnglish)
  let score :=
    if startsWith domain (cleanBrandName ++ ".".toList) ||
        includes domain (".".toList ++ cleanBrandName ++ ".".toList)
    then score + 50 else score
  score

/-- The `for` loop of `guessBrandDomainFromEnglishName` from index `i` on, over the patterns that
are left.  A site that exists ends the loop; no site and a fault both go on to the next
pattern. -/
def guessLoop {ω : Type} (rt : Platform) (C : Collab ω) (brandNameEnglish : Str) :
    List Str → Nat → Collector ω → Option GuessedWebsite × Collector ω
  | [], _, s => (none, s)
  | domain :: rest, i, s =>
    let (outcome, w) := C.probe s.world domain
    let s1 := { s with world := w, events := s.events ++ [Event.probe domain] }
    match outcome with
    | ProbeOutcome.found finalUrl statusCode redirected =>
      (some {
          originalDomain := domain, url := finalUrl, statusCode := statusCode,
          redirected := redirected,
          score := calculateDomainScore rt domain brandNameEnglish i },
        s1)
    | ProbeOutcome.absent => guessLoop rt C brandNameEnglish rest (i + 1) s1
    | ProbeOutcome.fault _ => guessLoop rt C brandNameEnglish rest (i + 1) s1

/-- `guessBrandDomainFromEnglishName(brandNameEnglish)`. -/
def guessBrandDomainFromEnglishName {ω : Type} (rt : Platform) (C : Collab ω)
    (brandNameEnglish : Option Str) (s : Collector ω) : Option GuessedWebsite × Collector ω :=
  match truthy brandNameEnglish with
  | none => (none, s)
  | some name =>
    if (cleanNameOf rt name).length < 2 then (none, s)
    else guessLoop rt C name (domainPatterns rt name) 0 s

/-- The loop of `checkDomainExists` over the protocols that are left.  The result carries the
addresses requested, in order.  A status outside 200..499 is rejected by `validateStatus` and is
handled like a failed request. -/
def checkDomainLoop {ω : Type} (head : ω → Str → HeadOutcome × ω) (domain : Str) :
    List Str → ω → ProbeOutcome × List Str × ω
  | [], w => (ProbeOutcome.absent, [], w)
  | protocol :: rest, w =>
    let url := protocol ++ domain
    let (outcome, w1) := head w url
    let next := checkDomainLoop head domain rest w1
    match outcome with
    | HeadOutcome.response status responseUrl =>
      if 200 ≤ status ∧ status < 500 then
        if 200 ≤ status ∧ status < 400 then
          (ProbeOutcome.found ((truthy responseUrl).getD url) status
            (decide (responseUrl ≠ some url)), [url], w1)
        else if status = 401 ∨ status = 403 then
          (ProbeOutcome.found url status false, [url], w1)
        else (next.1, url :: next.2.1, next.2.2)
      else (next.1, url :: next.2.1, next.2.2)
    | HeadOutcome.failed => (next.1, url :: next.2.1, next.2.2)

/-- `checkDomainExists(domain)`: first `https://`, then `http://`. -/
def checkDomainExists {ω : Type} (head : ω → Str → HeadOutcome × ω) (domain : Str) (w : ω) :
    ProbeOutcome × List Str × ω :=
  checkDomainLoop head domain ["https://".toList, "http://".toList] w

/-! ## Search -/

/-- `generateSearchQueries(brandName, brandNameEnglish)`. -/
def generateSearchQueries (brandName : Str) (brandNameEnglish : Option Str) : List Str :=
  let hasOtherEnglish : Option Str :=
    match truthy brandNameEnglish with
    | some e => if e ≠ brandName then some e else none
    | none => none
  [ brandName ++ " 공식홈페이지".toList, brandName ++ " 브랜드 홈페이지".toList ] ++
  (match hasOtherEnglish with
   | some e => [ e ++ " 공식홈페이지".toList, e ++ " brand homepage".toList ]
   | none => []) ++
  (match hasOtherEnglish with
   | some e => [ brandName ++ " ".toList ++ e ++ " 홈페이지".toList ]
   | none => []) ++
  [ brandName ]

/-- An error object in flight inside `searchNaver`: its message and, for a request rejected with
a response, the status and the `errorMessage` of that response. -/
structure Thrown where
  message : Str
  response : Option (Nat × Option Str)
  deriving DecidableEq, Repr

/-- The message of the error thrown when the daily limit is passed. -/
def quotaMessage : Str := "일일 API 요청 제한 초과".toList

/-- The message of the error thrown after a 429 response. -/
def rateLimitMessage : Str := "API 요청 제한".toList

/-- The `try` block of `searchNaver`: count the request, check the daily limit, send the request,
read the answer. -/
def searchNaverTry {ω : Type} (C : Collab ω) (query : Str) (display : Nat) (s : Collector ω) :
    Except Thrown (List SearchItem) × Collector ω :=
  let s1 := { s with requestCount := s.requestCount + 1,
                     events := s.events ++ [Event.searchCall query] }
  if s1.requestCount > s1.dailyLimit then
    (Except.error { message := quotaMessage, response := none }, s1)
  else
    let (outcome, w) := C.search s1.world query display
    let s2 := { s1 with world := w, events := s1.events ++ [Event.httpGet query] }
    match outcome with
    | HttpOutcome.response status items =>
      if status = 200 then (Except.ok (items.getD []), s2)
      else (Except.error { message := "HTTP ".toList ++ (toString status).toList,
                           response := none }, s2)
    | HttpOutcome.rejectedWithResponse status errorMessage message =>
      (Except.error { message := message, response := some (status, errorMessage) }, s2)
    | HttpOutcome.rejected message =>
      (Except.error { message := message, response := none }, s2)

/-- The `catch` block of `searchNaver`: the message of the error it throws in place of the one it
caught. -/
def searchNaverCatch (error : Thrown) : Str :=
  match error.response with
  | some (status, errorMessage) =>
    let errorMsg := (truthy errorMessage).getD error.message
    if status = 429 then rateLimitMessage
    else if status = 400 then "잘못된 검색어: ".toList ++ errorMsg
    else "API 오류 ".toList ++ (toString status).toList ++ ": ".toList ++ errorMsg
  | none => "네트워크 오류: ".toList ++ error.message

/-- `searchNaver(query, display)`: the items, or the message of the error that leaves the
function. -/
def searchNaver {ω : Type} (C : Collab ω) (query : Str) (display : Nat) (s : Collector ω) :
    Except Str (List SearchItem) × Collector ω :=
  match searchNaverTry C query display s with
  | (Except.ok items, s1) => (Except.ok items, s1)
  | (Except.error error, s1) => (Except.error (searchNaverCatch error), s1)

/-! ## One brand: `findBrandWebsite` -/

/-- The loop of `findBrandWebsite` over the queries that are left.  A query with at least one
extracted address ends the loop; a query without one goes on to the next; a failed search call is
caught inside the loop and, with or without the rate-limit pause, goes on to the next query. -/
def searchLoop {ω : Type} (rt : Platform) (C : Collab ω) (brandName : Str)
    (brandNameEnglish : Option Str) :
    List Str → BrandResult → Collector ω → BrandResult × Collector ω
  | [], result, s => (result, s)
  | query :: rest, result, s =>
    let result1 := { result with searchQueries := result.searchQueries ++ [query] }
    match searchNaver C query 20 s with
    | (Except.ok searchResults, s1) =>
      let websites := extractOfficialWebsites rt searchResults brandName brandNameEnglish
      if websites.length > 0 then
        ({ result1 with
            websites := result1.websites ++ websites,
            searchMethod :=
              match result1.searchMethod with
              | some m => some m
              | none => some SearchMethod.naverSearch },
          s1)
      else searchLoop rt C brandName brandNameEnglish rest result1 s1
    | (Except.error message, s1) =>
      if includes message rateLimitMessage then
        searchLoop rt C brandName brandNameEnglish rest result1 s1
      else searchLoop rt C brandName brandNameEnglish rest result1 s1

/-- The state after `findBrandWebsite` is entered for a brand. -/
def enterBrand {ω : Type} (brandName : Str) (s : Collector ω) : Collector ω :=
  { s with events := s.events ++ [Event.findCall brandName] }

/-- The object `result` as `findBrandWebsite` first builds it. -/
def initialResult (brand : Brand) : BrandResult where
  brandName := brand.brandName
  brandNameEnglish := EnglishName.text brand.brandNameEnglish
  category := some brand.category
  isBest := some brand.isBest
  websites := []
  searchQueries := []
  guessedDomains := []
  searchMethod := none
  status := Status.searching
  primaryWebsite := none
  error := none
  fromCache := false

/-- The object `result` after a successful guess: the guessed address is pushed and becomes the
primary website. -/
def guessedResult (brand : Brand) (guessedWebsite : GuessedWebsite) : BrandResult :=
  { initialResult brand with
    websites := (initialResult brand).websites ++ [guessedWebsite.url],
    guessedDomains := (initialResult brand).guessedDomains ++ [guessedWebsite],
    searchMethod := some SearchMethod.domainGuessed,
    status := Status.found,
    primaryWebsite := some guessedWebsite.url }

/-- The tidying of `result` after the query loop: duplicates are removed, the status is set and
the first address, if any, becomes the primary website. -/
def finishSearch (searched : BrandResult) : BrandResult :=
  { searched with
    websites := uniqueInOrder searched.websites,
    status :=
      if (uniqueInOrder searched.websites).length > 0 then Status.found else Status.notFound,
    primaryWebsite :=
      if (uniqueInOrder searched.websites).length > 0
      then (uniqueInOrder searched.websites).head? else searched.primaryWebsite }

/-- `findBrandWebsite(brand)` for a brand whose English name is absent or a string.  For such a
brand nothing reaches the outer `catch` block: inside the outer `try`, domain guessing and query
generation throw nothing, and an error of a search call is caught by the `catch` inside the loop.
The outer `catch` block is in `findBrandWebsiteEntry` below, which takes any entry of the work
list. -/
def findBrandWebsite {ω : Type} (rt : Platform) (C : Collab ω) (brand : Brand)
    (s : Collector ω) : BrandResult × Collector ω :=
  let s0 := enterBrand brand.brandName s
  let cacheKey := rt.toLowerCase brand.brandName
  match cacheGet s0.cache cacheKey with
  | some cached => ({ cached with fromCache := true }, s0)
  | none =>
    let guess := guessBrandDomainFromEnglishName rt C brand.brandNameEnglish s0
    match guess.1 with
    | some guessedWebsite =>
      (guessedResult brand guessedWebsite,
        { guess.2 with
          cache := cacheSet guess.2.cache cacheKey (guessedResult brand guessedWebsite) })
    | none =>
      let search := searchLoop rt C brand.brandName brand.brandNameEnglish
        (generateSearchQueries brand.brandName brand.brandNameEnglish) (initialResult brand)
        guess.2
      (finishSearch search.1,
        { search.2 with cache := cacheSet search.2.cache cacheKey (finishSearch search.1) })

/-- An entry of the work list whose English name may be of any type. -/
structure BrandEntry where
  brandName : Str
  brandNameEnglish : EnglishName
  category : Str
  isBest : Bool
  deriving DecidableEq, Repr

/-- The brand of an entry whose English name is absent or the string `name`. -/
def BrandEntry.withText (entry : BrandEntry) (name : Option Str) : Brand where
  brandName := entry.brandName
  brandNameEnglish := name
  category := entry.category
  isBest := entry.isBest

/-- The message of the `TypeError` thrown by line 314, where `guessBrandDomainFromEnglishName`
calls `.toLowerCase()` on a truthy value that is not a string. -/
def notAFunctionMessage : Str := "brandNameEnglish.toLowerCase is not a function".toList

/-- The object `result` as the outer `catch` block of `findBrandWebsite` returns it when the
error is thrown before anything was pushed to it: the object first built, with status `error` and
the message of the error. -/
def caughtResult (entry : BrandEntry) (message : Str) : BrandResult where
  brandName := entry.brandName
  brandNameEnglish := entry.brandNameEnglish
  category := some entry.category
  isBest := some entry.isBest
  websites := []
  searchQueries := []
  guessedDomains := []
  searchMethod := none
  status := Status.error
  primaryWebsite := none
  error := some message
  fromCache := false

/-- `findBrandWebsite(brand)` for any entry of the work list.  For an English name that is absent
or a string this is `findBrandWebsite` above.  For a truthy value of another type the cache is
looked up in the same way (lines 212-216); on a miss `guessBrandDomainFromEnglishName` is entered
(line 234), its call of `.toLowerCase()` throws (line 314) before any domain is probed, and the
outer `catch` block (lines 298-303) sets the status `error` and the message and returns `result`
without writing it to the cache. -/
def findBrandWebsiteEntry {ω : Type} (rt : Platform) (C : Collab ω) (entry : BrandEntry)
    (s : Collector ω) : BrandResult × Collector ω :=
  match entry.brandNameEnglish with
  | EnglishName.text name => findBrandWebsite rt C (entry.withText name) s
  | EnglishName.other _ =>
    let s0 := enterBrand entry.brandName s
    let cacheKey := rt.toLowerCase entry.brandName
    match cacheGet s0.cache cacheKey with
    | some cached => ({ cached with fromCache := true }, s0)
    | none => (caughtResult entry notAFunctionMessage, s0)

/-! ## The batch scheduler -/

/-- The loop of `chunkArray` from index `i` on; `none` when the steps allowed run out before the
loop ends. -/
def chunkArrayLoop {α : Type} (array : List α) (chunkSize : Nat) :
    Nat → Nat → List (List α) → Option (List (List α))
  | 0, i, chunks => if i < array.length then none else some chunks
  | fuel + 1, i, chunks =>
    if i < array.length then
      chunkArrayLoop array chunkSize fuel (i + chunkSize)
        (chunks ++ [(array.drop i).take chunkSize])
    else some chunks

/-- `chunkArray(array, chunkSize)`.  With a chunk size of at least 1 the loop ends within
`array.length` steps; with chunk size 0 and a non-empty array it never ends (`none`). -/
def chunkArray {α : Type} (array : List α) (chunkSize : Nat) : Option (List (List α)) :=
  chunkArrayLoop array chunkSize array.length 0 []

/-- The record pushed by the `catch` block of `processBrandsBatch` for a brand whose processing
threw. -/
def errorResult (brand : Brand) (message : Str) : BrandResult where
  brandName := brand.brandName
  brandNameEnglish := EnglishName.text brand.brandNameEnglish
  category := none
  isBest := none
  websites := []
  searchQueries := []
  guessedDomains := []
  searchMethod := some SearchMethod.error
  status := Status.error
  primaryWebsite := none
  error := some message
  fromCache := false

/-- The body of the inner loop of `processBrandsBatch` for one brand, for any per-brand procedure
`find` that returns a result or throws a message. -/
def processBrand {ω : Type} (find : Brand → Collector ω → Except Str BrandResult × Collector ω)
    (brand : Brand) (s : Collector ω) : BrandResult × Collector ω :=
  match find brand s with
  | (Except.ok result, s1) =>
    if result.status = Status.found then (result, { s1 with results := s1.results ++ [result] })
    else (result, { s1 with failed := s1.failed ++ [result] })
  | (Except.error message, s1) =>
    let failure := errorResult brand message
    (failure, { s1 with failed := s1.failed ++ [failure] })

/-- The inner loop of `processBrandsBatch` over the brands of one batch. -/
def processBatch {ω : Type} (find : Brand → Collector ω → Except Str BrandResult × Collector ω) :
    List Brand → List BrandResult → Collector ω → List BrandResult × Collector ω
  | [], batchResults, s => (batchResults, s)
  | brand :: rest, batchResults, s =>
    let (result, s1) := processBrand find brand s
    processBatch find rest (batchResults ++ [result]) s1

/-- The outer loop of `processBrandsBatch` over the batches from index `i` on: each batch is
processed and saved, and every tenth batch is followed by an intermediate save. -/
def processBatches {ω : Type}
    (find : Brand → Collector ω → Except Str BrandResult × Collector ω) :
    List (List Brand) → Nat → List BrandResult → Collector ω → List BrandResult × Collector ω
  | [], _, allResults, s => (allResults, s)
  | batch :: rest, i, allResults, s =>
    let (batchResults, s1) := processBatch find batch [] s
    let s2 := { s1 with events := s1.events ++ [Event.saveBatch i] }
    let s3 :=
      if (i + 1) % 10 = 0 then { s2 with events := s2.events ++ [Event.saveIntermediate (i + 1)] }
      else s2
    processBatches find rest (i + 1) (allResults ++ batchResults) s3

/-- `processBrandsBatch(brands, batchSize)` over any per-brand procedure; `none` when `chunkArray`
does not end. -/
def processBrandsBatchWith {ω : Type}
    (find : Brand → Collector ω → Except Str BrandResult × Collector ω)
    (brands : List Brand) (batchSize : Nat) (s : Collector ω) :
    Option (List BrandResult) × Collector ω :=
  match chunkArray brands batchSize with
  | none => (none, s)
  | some batches =>
    let (allResults, s1) := processBatches find batches 0 [] s
    (some allResults, s1)

/-- The per-brand procedure that `processBrandsBatch` runs: `findBrandWebsite`, which throws
nothing. -/
def findProcedure {ω : Type} (rt : Platform) (C : Collab ω) (brand : Brand) (s : Collector ω) :
    Except Str BrandResult × Collector ω :=
  (Except.ok (findBrandWebsite rt C brand s).1, (findBrandWebsite rt C brand s).2)

/-- `processBrandsBatch(brands, batchSize)` with `findBrandWebsite` as the per-brand procedure. -/
def processBrandsBatch {ω : Type} (rt : Platform) (C : Collab ω) (brands : List Brand)
    (batchSize : Nat) (s : Collector ω) : Option (List BrandResult) × Collector ω :=
  processBrandsBatchWith (findProcedure rt C) brands batchSize s

/-! ## Vocabulary of the statements -/

/-- The prober reported a live site. -/
def ProbeOutcome.isFound : ProbeOutcome → Bool
  | ProbeOutcome.found _ _ _ => true
  | _ => false

/-- What the prober reports for each domain of a list when the domains are probed one after the
other, starting in world `w`. -/
def probeOutcomes {ω : Type} (C : Collab ω) : List Str → ω → List ProbeOutcome
  | [], _ => []
  | domain :: rest, w => (C.probe w domain).1 :: probeOutcomes C rest (C.probe w domain).2

/-- The host name of an address as `extractOfficialWebsites` computes it: parsed, then
lower-cased. -/
def hostnameOf (rt : Platform) (url : Str) : Option Str :=
  (rt.urlHostname url).map rt.toLowerCase

/-- The domain-match flag that `extractOfficialWebsites` gives to an address. -/
def domainMatchOfUrl (rt : Platform) (brandNameEnglish : Option Str) (url : Str) : Bool :=
  match hostnameOf rt url with
  | some hostname => isDomainMatchOf (cleanEnglishNameOf rt brandNameEnglish) hostname
  | none => false

/-- The brand names passed to `findBrandWebsite`, in order. -/
def findCalls (events : List Event) : List Str :=
  events.filterMap (fun e => match e with
    | Event.findCall brandName => some brandName
    | _ => none)

/-- The queries sent to the search service over HTTP, in order. -/
def httpGets (events : List Event) : List Str :=
  events.filterMap (fun e => match e with
    | Event.httpGet query => some query
    | _ => none)

/-- The queries handed to `searchNaver`, in order. -/
def searchCalls (events : List Event) : List Str :=
  events.filterMap (fun e => match e with
    | Event.searchCall query => some query
    | _ => none)

/-- The state `s1` continues the state `s` within one brand: the daily limit is the same, the
request counter has not gone down, no further brand has been entered, and, when the limit was
already used up in `s`, no HTTP request has been sent to the search service. -/
def Continues {ω : Type} (s s1 : Collector ω) : Prop :=
  s1.dailyLimit = s.dailyLimit ∧ s.requestCount ≤ s1.requestCount ∧
    findCalls s1.events = findCalls s.events ∧
    (s.dailyLimit ≤ s.requestCount → httpGets s1.events = httpGets s.events)

/-- The state `s1` is reached from `s` by entering exactly the brands `names`, in order: the
daily limit is the same, the request counter has not gone down, and, when the limit was already
used up in `s`, no HTTP request has been sent to the search service. -/
def Processes {ω : Type} (s s1 : Collector ω) (names : List Str) : Prop :=
  s1.dailyLimit = s.dailyLimit ∧ s.requestCount ≤ s1.requestCount ∧
    findCalls s1.events = findCalls s.events ++ names ∧
    (s.dailyLimit ≤ s.requestCount → httpGets s1.events = httpGets s.events)

/-! ## Concrete inputs -/

/-- A stub prober for the pattern list of the name `abc`: the sites `abc.kr` (rank 2) and
`www.abc.com` (rank 4) exist, `abc.co.kr` faults, every other domain does not exist. -/
def stubRanks2And4 : Collab Unit where
  probe := fun w domain =>
    if domain = "abc.kr".toList then (ProbeOutcome.found "https://abc.kr".toList 200 false, w)
    else if domain = "www.abc.com".toList then
      (ProbeOutcome.found "https://www.abc.com".toList 200 false, w)
    else if domain = "abc.co.kr".toList then (ProbeOutcome.fault "timeout".toList, w)
    else (ProbeOutcome.absent, w)
  search := fun w _ _ => (HttpOutcome.rejected "offline".toList, w)

/-- The brand of the first end-to-end scenario. -/
def testBrand : Brand where
  brandName := "테스트브랜드".toList
  brandNameEnglish := some "testbrand".toList
  category := "unknown".toList
  isBest := false

/-- A stub network in which `testbrand.co.kr` exists and answers at `https://testbrand.co.kr`;
no other domain exists and the search service is unreachable. -/
def stubTestbrand : Collab Unit where
  probe := fun w domain =>
    if domain = "testbrand.co.kr".toList then
      (ProbeOutcome.found "https://testbrand.co.kr".toList 200 false, w)
    else (ProbeOutcome.absent, w)
  search := fun w _ _ => (HttpOutcome.rejected "offline".toList, w)

/-- A brand whose name is a single blank. -/
def blankBrand : Brand where
  brandName := " ".toList
  brandNameEnglish := none
  category := "unknown".toList
  isBest := false

/-- A failed result with the given brand name and nothing else. -/
def failedRecord (brandName : Str) : BrandResult where
  brandName := brandName
  brandNameEnglish := EnglishName.text none
  category := none
  isBest := none
  websites := []
  searchQueries := []
  guessedDomains := []
  searchMethod := none
  status := Status.notFound
  primaryWebsite := none
  error := none
  fromCache := false

/-- A checkpoint whose only result has the empty string as brand name. -/
def emptyNameCheckpoint : Checkpoint where
  successResults := some []
  failedResults := some [failedRecord []]

/-- A brand with the given name and no English name. -/
def plainBrand (brandName : Str) : Brand where
  brandName := brandName
  brandNameEnglish := none
  category := "unknown".toList
  isBest := false

/-- A checkpoint whose only result is a failed one for the brand `b`. -/
def checkpointB : Checkpoint where
  successResults := some []
  failedResults := some [failedRecord "b".toList]

/-- Two search items for the brand testbrand: a page on an excluded portal whose title and
description match the brand perfectly, and the brand's own site. -/
def sampleItems : List SearchItem :=
  [ { link := "https://www.naver.com/testbrand".toList,
      title := some "테스트브랜드 testbrand 공식 홈페이지".toList,
      description := some "테스트브랜드 공식 브랜드 홈페이지".toList },
    { link := "https://testbrand.co.kr".toList,
      title := some "테스트브랜드".toList,
      description := some "공식 온라인 스토어".toList } ]

/-- A collector that has used up its daily limit: 25,000 requests counted out of 25,000. -/
def exhaustedCollector : Collector Unit :=
  { Collector.fresh () with requestCount := 25000 }

/-- A stub network in which no guessed domain exists and the search service, if it were asked,
would answer with the brand's own site. -/
def stubSearchable : Collab Unit where
  probe := fun w _ => (ProbeOutcome.absent, w)
  search := fun w _ _ => (HttpOutcome.response 200 (some sampleItems), w)

/-- A brand whose English name is that of a marketplace on the exclusion list. -/
def ablyBrand : Brand where
  brandName := "에이블리".toList
  brandNameEnglish := some "ably".toList
  category := "unknown".toList
  isBest := false

/-- A stub network in which `ably.co.kr` exists and answers at `https://ably.co.kr`. -/
def stubAbly : Collab Unit where
  probe := fun w domain =>
    if domain = "ably.co.kr".toList then
      (ProbeOutcome.found "https://ably.co.kr".toList 200 false, w)
    else (ProbeOutcome.absent, w)
  search := fun w _ _ => (HttpOutcome.rejected "offline".toList, w)

/-! ## Further vocabulary and concrete inputs -/

/-- The shape that ties a result obtained by domain guessing: one address, one guessed domain and
no query. -/
def GuessShaped (r : BrandResult) : Prop :=
  r.searchMethod = some SearchMethod.domainGuessed →
    r.websites.length = 1 ∧ r.guessedDomains.length = 1 ∧ r.searchQueries = []

/-- A search item whose address is on an excluded portal although its title and description match
the brand testbrand perfectly. -/
def portalItem : SearchItem where
  link := "https://www.naver.com/testbrand".toList
  title := some "testbrand 공식 홈페이지".toList
  description := some "testbrand 공식 브랜드 홈페이지".toList

/-- A stub network in which no guessed domain exists and every search answers with the one item
on the excluded portal. -/
def stubExcludedOnly : Collab Unit where
  probe := fun w _ => (ProbeOutcome.absent, w)
  search := fun w _ _ => (HttpOutcome.response 200 (some [portalItem]), w)

/-- The text that the scoring reads: title, a blank and description, lower-cased. -/
def visibleText (rt : Platform) (title description : Str) : Str :=
  rt.toLowerCase (title ++ " ".toList ++ description)

/-- Some brand keyword, with its whitespace removed, occurs in the host name. -/
def hostKeyword (hostname : Str) (brandKeywords : List Str) : Bool :=
  brandKeywords.any (fun keyword => includes hostname (removeWhitespace keyword))

/-- The text has an official marker. -/
def officialMarker (text : Str) : Bool :=
  includes text "공식".toList || includes text "official".toList

/-- The text has a brand marker. -/
def brandMarker (text : Str) : Bool :=
  includes text "브랜드".toList || includes text "brand".toList

/-- The text has a homepage or main-page marker. -/
def homepageMarker (text : Str) : Bool :=
  includes text "홈페이지".toList || includes text "homepage".toList ||
    includes text "메인".toList || includes text "main".toList

/-- The text or the host name has a shopping marker. -/
def commerceMarker (text hostname : Str) : Bool :=
  includes text "쇼핑몰".toList || includes text "쇼핑".toList ||
    includes text "shop".toList || includes text "store".toList ||
    includes hostname "shop".toList || includes hostname "store".toList

/-- The host name or the text has a social-media or blog marker. -/
def socialMarker (text hostname : Str) : Bool :=
  includes hostname "blog".toList || includes hostname "instagram".toList ||
    includes hostname "facebook".toList || includes hostname "naver.com".toList ||
    includes text "블로그".toList || includes text "인스타".toList

/-- The bonus for the ending of the host name: 25, 20 or 10. -/
def suffixBonus (hostname : Str) : Int :=
  if endsWith hostname ".co.kr".toList then 25
  else if endsWith hostname ".kr".toList then 20
  else if endsWith hostname ".com".toList then 10
  else 0

/-- The terms of the score that depend on the markers other than the official one and on the
`www.` start of the host name. -/
def markerTerms (text hostname : Str) : Int :=
  (if brandMarker text then 30 else 0) + (if homepageMarker text then 20 else 0) -
    (if commerceMarker text hostname then 10 else 0) -
    (if socialMarker text hostname then 20 else 0) +
    (if startsWith hostname "www.".toList then 0 else 5)

/-- The text has one of the markers that `isLikelyOfficialWebsite` looks for. -/
def likelyMarker (text : Str) : Bool :=
  ["공식".toList, "브랜드".toList, "홈페이지".toList, "official".toList, "brand".toList,
    "homepage".toList].any (fun keyword => includes text keyword)

/-- Some brand keyword occurs in the text. -/
def textKeyword (text : Str) (brandKeywords : List Str) : Bool :=
  brandKeywords.any (fun keyword => includes text keyword)

/-- The host name ends in one of `koreanDomains`. -/
def recognisedSuffix (hostname : Str) : Bool :=
  koreanDomains.any (fun suffix => endsWith hostname suffix)

/-- A search item whose host name holds the identifier `abc` inside a longer label. -/
def innerLabelItem : SearchItem where
  link := "https://xabcy.com".toList
  title := none
  description := none

/-- A search item on a host that holds the brand name testbrand, with no title, no description
and an ending that is not among `koreanDomains`. -/
def bareHostItem : SearchItem where
  link := "https://testbrand.io".toList
  title := none
  description := none

/-- The official site of the brand acme, as a search item. -/
def acmeItem : SearchItem where
  link := "https://acme.co.kr".toList
  title := some "acme".toList
  description := some "acme 공식 사이트".toList

/-- A stub network in which no guessed domain exists and every search answers with the official
site of acme. -/
def stubAcme : Collab Unit where
  probe := fun w _ => (ProbeOutcome.absent, w)
  search := fun w _ _ => (HttpOutcome.response 200 (some [acmeItem]), w)

/-- The candidate that `extractOfficialWebsites` builds from `innerLabelItem` for the English
name abc. -/
def innerLabelCandidate : WebsiteCandidate where
  url := "https://xabcy.com".toList
  title := []
  description := []
  hostname := "xabcy.com".toList
  isDomainMatch := true
  score := 175

/-- The candidate that `extractOfficialWebsites` builds from `bareHostItem` for the brand
testbrand. -/
def bareHostCandidate : WebsiteCandidate where
  url := "https://testbrand.io".toList
  title := []
  description := []
  hostname := "testbrand.io".toList
  isDomainMatch := false
  score := 65

/-- The candidate that `extractOfficialWebsites` builds from `acmeItem` for the brand acme. -/
def acmeCandidate : WebsiteCandidate where
  url := "https://acme.co.kr".toList
  title := "acme".toList
  description := "acme 공식 사이트".toList
  hostname := "acme.co.kr".toList
  isDomainMatch := false
  score := 130

/-! ## Vocabulary and concrete inputs of the statements on queries, probes and batches -/

/-- The search call for `query` made in state `s` succeeds and at least one address is extracted
from its items. -/
def queryYields {ω : Type} (rt : Platform) (C : Collab ω) (brandName : Str)
    (brandNameEnglish : Option Str) (query : Str) (s : Collector ω) : Bool :=
  match (searchNaver C query 20 s).1 with
  | Except.ok items =>
    decide ((extractOfficialWebsites rt items brandName brandNameEnglish).length > 0)
  | Except.error _ => false

/-- What each query of a list does when the queries are sent one after the other, starting in
state `s`: whether its search call succeeds with at least one extracted address. -/
def queryYieldsSeq {ω : Type} (rt : Platform) (C : Collab ω) (brandName : Str)
    (brandNameEnglish : Option Str) : List Str → Collector ω → List Bool
  | [], _ => []
  | query :: rest, s =>
    queryYields rt C brandName brandNameEnglish query s ::
      queryYieldsSeq rt C brandName brandNameEnglish rest (searchNaver C query 20 s).2

/-- What each search call returns, the items or the message of the error, when the queries of a
list are sent one after the other, starting in state `s`. -/
def searchOutcomes {ω : Type} (C : Collab ω) :
    List Str → Collector ω → List (Except Str (List SearchItem))
  | [], _ => []
  | query :: rest, s =>
    (searchNaver C query 20 s).1 :: searchOutcomes C rest (searchNaver C query 20 s).2

/-- The property of a result that was not obtained by domain guessing: every address of its
`websites` list parses to a host name that contains no entry of the exclusion list. -/
def SearchedAllowed (rt : Platform) (r : BrandResult) : Prop :=
  r.searchMethod ≠ some SearchMethod.domainGuessed →
    ∀ u ∈ r.websites, ∃ hostname, hostnameOf rt u = some hostname ∧
      ∀ d ∈ excludeDomains, ¬ d <:+: hostname

/-- An entry of the work list named `x` whose English name is the number 12. -/
def numberEntry : BrandEntry where
  brandName := "x".toList
  brandNameEnglish := EnglishName.other "12".toList
  category := "unknown".toList
  isBest := false

/-- An entry of the work list named `a` without an English name. -/
def plainEntry : BrandEntry where
  brandName := "a".toList
  brandNameEnglish := EnglishName.text none
  category := "unknown".toList
  isBest := false

/-- The shape of every `websites` list: no address twice and at most three addresses. -/
def WebsitesShaped (r : BrandResult) : Prop :=
  r.websites.Nodup ∧ r.websites.length ≤ 3

/-- The answer to one `axios.head` request counts as "the site exists": a status in 200..399, or
401 or 403. -/
def HeadOutcome.qualifies : HeadOutcome → Bool
  | HeadOutcome.response status _ =>
    decide ((200 ≤ status ∧ status < 400) ∨ status = 401 ∨ status = 403)
  | HeadOutcome.failed => false

/-- A sequence of `searchNaver` calls, one after the other, each with its query and its
`display`; the results of the calls are dropped, the state is kept. -/
def searchMany {ω : Type} (C : Collab ω) : List (Str × Nat) → Collector ω → Collector ω
  | [], s => s
  | call :: rest, s => searchMany C rest (searchNaver C call.1 call.2 s).2

/-- The record `result` is what the scheduler keeps for `brand`: what the per-brand procedure
returned for it in some state, or the error record built from the message it threw. -/
def ResultFor {ω : Type} (find : Brand → Collector ω → Except Str BrandResult × Collector ω)
    (brand : Brand) (result : BrandResult) : Prop :=
  ∃ s, (find brand s).1 = Except.ok result ∨
    ∃ message, (find brand s).1 = Except.error message ∧ result = errorResult brand message

/-- A stub web in which every `https://` request fails and every `http://` request is answered
with status 403. -/
def headHttpOnly : Unit → Str → HeadOutcome × Unit :=
  fun w url =>
    if startsWith url "https://".toList then (HeadOutcome.failed, w)
    else (HeadOutcome.response 403 none, w)

/-- A per-brand procedure that throws for the brand named `b` and runs `findBrandWebsite` on the
stub network of testbrand for every other brand. -/
def faultyFind (brand : Brand) (s : Collector Unit) : Except Str BrandResult × Collector Unit :=
  if brand.brandName = "b".toList then (Except.error "fault".toList, s)
  else findProcedure asciiPlatform stubTestbrand brand s

/-! ## Strings: `includes` is the substring relation -/

theorem includes_iff (s needle : Str) : includes s needle = true ↔ needle <:+: s := by
  induction s with
  | nil =>
    cases needle <;> simp [includes]
  | cons c s ih =>
    rw [includes, Bool.or_eq_true, ih, List.isPrefixOf_iff_prefix, List.infix_cons_iff]

theorem includes_eq_false_iff (s needle : Str) : includes s needle = false ↔ ¬ needle <:+: s := by
  rw [← includes_iff]; simp

/-! ## Domain guessing -/

theorem guessLoop_spec {ω : Type} (rt : Platform) (C : Collab ω) (eng : Str) :
    ∀ (patterns : List Str) (i : Nat) (s : Collector ω),
      (∀ g, (guessLoop rt C eng patterns i s).1 = some g →
        ∃ k, patterns[k]? = some g.originalDomain ∧
          (probeOutcomes C patterns s.world)[k]? =
            some (ProbeOutcome.found g.url g.statusCode g.redirected) ∧
          (∀ j, j < k → ∀ o, (probeOutcomes C patterns s.world)[j]? = some o →
            o.isFound = false) ∧
          g.score = calculateDomainScore rt g.originalDomain eng (i + k) ∧
          (guessLoop rt C eng patterns i s).2.events =
            s.events ++ (patterns.take (k + 1)).map Event.probe) ∧
      ((guessLoop rt C eng patterns i s).1 = none →
        (∀ o ∈ probeOutcomes C patterns s.world, o.isFound = false) ∧
        (guessLoop rt C eng patterns i s).2.events = s.events ++ patterns.map Event.probe) := by
  intro patterns
  induction patterns with
  | nil =>
    intro i s
    simp [guessLoop, probeOutcomes]
  | cons d rest ih =>
    intro i s
    have step := ih (i + 1)
      { s with world := (C.probe s.world d).2, events := s.events ++ [Event.probe d] }
    cases hp : (C.probe s.world d).1 with
    | found url code redir =>
      have hg : guessLoop rt C eng (d :: rest) i s =
          (some { originalDomain := d, url := url, statusCode := code, redirected := redir,
                  score := calculateDomainScore rt d eng i },
            { s with world := (C.probe s.world d).2, events := s.events ++ [Event.probe d] }) := by
        simp only [guessLoop]
        rw [hp]
      rw [hg]
      refine ⟨?_, by simp⟩
      intro g hgs
      simp only [Option.some.injEq] at hgs
      subst hgs
      refine ⟨0, ?_⟩
      simp [probeOutcomes, hp]
    | absent =>
      have hg : guessLoop rt C eng (d :: rest) i s = guessLoop rt C eng rest (i + 1)
            { s with world := (C.probe s.world d).2, events := s.events ++ [Event.probe d] } := by
        simp only [guessLoop]
        rw [hp]
      rw [hg]
      refine ⟨?_, ?_⟩
      · intro g hgs
        obtain ⟨k, h1, h2, h3, h4, h5⟩ := step.1 g hgs
        refine ⟨k + 1, by simpa using h1, by simpa [probeOutcomes] using h2, ?_, ?_, ?_⟩
        · intro j hj o ho
          cases j with
          | zero =>
            simp [probeOutcomes, hp] at ho
            subst ho
            rfl
          | succ j =>
            exact h3 j (by omega) o (by simpa [probeOutcomes] using ho)
        · rw [h4]; congr 1; omega
        · rw [h5]; simp
      · intro hn
        obtain ⟨h1, h2⟩ := step.2 hn
        refine ⟨?_, by rw [h2]; simp⟩
        intro o ho
        simp only [probeOutcomes, List.mem_cons] at ho
        rcases ho with ho | ho
        · rw [ho, hp]; rfl
        · exact h1 o ho
    | fault msg =>
      have hg : guessLoop rt C eng (d :: rest) i s = guessLoop rt C eng rest (i + 1)
            { s with world := (C.probe s.world d).2, events := s.events ++ [Event.probe d] } := by
        simp only [guessLoop]
        rw [hp]
      rw [hg]
      refine ⟨?_, ?_⟩
      · intro g hgs
        obtain ⟨k, h1, h2, h3, h4, h5⟩ := step.1 g hgs
        refine ⟨k + 1, by simpa using h1, by simpa [probeOutcomes] using h2, ?_, ?_, ?_⟩
        · intro j hj o ho
          cases j with
          | zero =>
            simp [probeOutcomes, hp] at ho
            subst ho
            rfl
          | succ j =>
            exact h3 j (by omega) o (by simpa [probeOutcomes] using ho)
        · rw [h4]; congr 1; omega
        · rw [h5]; simp
      · intro hn
        obtain ⟨h1, h2⟩ := step.2 hn
        refine ⟨?_, by rw [h2]; simp⟩
        intro o ho
        simp only [probeOutcomes, List.mem_cons] at ho
        rcases ho with ho | ho
        · rw [ho, hp]; rfl
        · exact h1 o ho

theorem truthy_some_of_ne_nil (e : Str) (h : e ≠ []) : truthy (some e) = some e := by
  cases e with
  | nil => exact absurd rfl h
  | cons c cs => rfl

theorem ne_nil_of_cleanName_length (rt : Platform) (eng : Str)
    (hlen : 2 ≤ (cleanNameOf rt eng).length) : eng ≠ [] := by
  intro h
  subst h
  simp [cleanNameOf, rt.toLowerCase_nil, stripNonAlnum, removeWhitespace] at hlen

theorem guessBrandDomain_eq_guessLoop {ω : Type} (rt : Platform) (C : Collab ω) (eng : Str)
    (s : Collector ω) (hlen : 2 ≤ (cleanNameOf rt eng).length) :
    guessBrandDomainFromEnglishName rt C (some eng) s =
      guessLoop rt C eng (domainPatterns rt eng) 0 s := by
  unfold guessBrandDomainFromEnglishName
  rw [truthy_some_of_ne_nil eng (ne_nil_of_cleanName_length rt eng hlen)]
  simp only
  rw [if_neg (by omega)]

/-- C1: for every English name whose normalised form has at least 2 characters and every
behaviour of the prober, `guessBrandDomainFromEnglishName` returns a candidate iff some generated
pattern is reported existing; the returned `originalDomain` is the pattern at the smallest index
`k` reported existing (with the address, status and redirect flag reported there); and the
domains probed are exactly the patterns at the indices `0..k`, so no pattern at a larger index is
probed. -/
theorem guessBrandDomain_first_existing {ω : Type} (rt : Platform) (C : Collab ω) (eng : Str)
    (s : Collector ω) (hlen : 2 ≤ (cleanNameOf rt eng).length) :
    ((∃ g, (guessBrandDomainFromEnglishName rt C (some eng) s).1 = some g) ↔
      ∃ o ∈ probeOutcomes C (domainPatterns rt eng) s.world, o.isFound = true) ∧
    (∀ g, (guessBrandDomainFromEnglishName rt C (some eng) s).1 = some g →
      ∃ k, (domainPatterns rt eng)[k]? = some g.originalDomain ∧
        (probeOutcomes C (domainPatterns rt eng) s.world)[k]? =
          some (ProbeOutcome.found g.url g.statusCode g.redirected) ∧
        (∀ j, j < k → ∀ o, (probeOutcomes C (domainPatterns rt eng) s.world)[j]? = some o →
          o.isFound = false) ∧
        (guessBrandDomainFromEnglishName rt C (some eng) s).2.events =
          s.events ++ ((domainPatterns rt eng).take (k + 1)).map Event.probe) := by
  rw [guessBrandDomain_eq_guessLoop rt C eng s hlen]
  have spec := guessLoop_spec rt C eng (domainPatterns rt eng) 0 s
  refine ⟨⟨?_, ?_⟩, ?_⟩
  · rintro ⟨g, hg⟩
    obtain ⟨k, _, h2, _⟩ := spec.1 g hg
    exact ⟨_, List.getElem?_mem h2, rfl⟩
  · rintro ⟨o, ho, hfound⟩
    cases hres : (guessLoop rt C eng (domainPatterns rt eng) 0 s).1 with
    | some g => exact ⟨g, rfl⟩
    | none =>
      have := (spec.2 hres).1 o ho
      rw [this] at hfound
      exact absurd hfound (by decide)
  · intro g hg
    obtain ⟨k, h1, h2, h3, _, h5⟩ := spec.1 g hg
    exact ⟨k, h1, h2, h3, h5⟩

/-- An instance for the name abc with the stub prober in which ranks 2 and 4 exist. -/
theorem guessBrandDomain_first_existing_witness :
    2 ≤ (cleanNameOf asciiPlatform "abc".toList).length ∧
    ((∃ g, (guessBrandDomainFromEnglishName asciiPlatform stubRanks2And4 (some "abc".toList)
        (Collector.fresh ())).1 = some g) ↔
      ∃ o ∈ probeOutcomes stubRanks2And4 (domainPatterns asciiPlatform "abc".toList)
        (Collector.fresh ()).world, o.isFound = true) :=
  ⟨by decide,
   (guessBrandDomain_first_existing asciiPlatform stubRanks2And4 "abc".toList
      (Collector.fresh ()) (by decide)).1⟩

/-- With existence at ranks 2 and 4 the result binds to the domain of rank 2, and the probes stop there. -/
theorem guessBrandDomain_ranks_2_and_4 :
    ((guessBrandDomainFromEnglishName asciiPlatform stubRanks2And4 (some "abc".toList)
        (Collector.fresh ())).1.map GuessedWebsite.originalDomain = some "abc.kr".toList) ∧
    (guessBrandDomainFromEnglishName asciiPlatform stubRanks2And4 (some "abc".toList)
        (Collector.fresh ())).2.events =
      [Event.probe "abc.co.kr".toList, Event.probe "www.abc.co.kr".toList,
       Event.probe "abc.kr".toList] := by
  decide

theorem guessLoop_cons_found {ω : Type} (rt : Platform) (C : Collab ω) (eng d : Str)
    (rest : List Str) (i : Nat) (s : Collector ω) (url : Str) (code : Nat) (redir : Bool) (w : ω)
    (h : C.probe s.world d = (ProbeOutcome.found url code redir, w)) :
    guessLoop rt C eng (d :: rest) i s =
      (some { originalDomain := d, url := url, statusCode := code, redirected := redir,
              score := calculateDomainScore rt d eng i },
        { s with world := w, events := s.events ++ [Event.probe d] }) := by
  have h1 : (C.probe s.world d).1 = ProbeOutcome.found url code redir := by rw [h]
  have h2 : (C.probe s.world d).2 = w := by rw [h]
  simp only [guessLoop]
  rw [h1, h2]

theorem domainPatterns_cons (rt : Platform) (eng : Str) :
    ∃ rest, domainPatterns rt eng = (cleanNameOf rt eng ++ ".co.kr".toList) :: rest :=
  ⟨_, rfl⟩

theorem findBrandWebsite_cached {ω : Type} (rt : Platform) (C : Collab ω) (brand : Brand)
    (s : Collector ω) (cached : BrandResult)
    (hget : cacheGet s.cache (rt.toLowerCase brand.brandName) = some cached) :
    findBrandWebsite rt C brand s =
      ({ cached with fromCache := true }, enterBrand brand.brandName s) := by
  have h0 : (enterBrand brand.brandName s).cache = s.cache := rfl
  simp only [findBrandWebsite, h0, hget]

theorem findBrandWebsite_guessed {ω : Type} (rt : Platform) (C : Collab ω) (brand : Brand)
    (s : Collector ω) (g : GuessedWebsite)
    (hget : cacheGet s.cache (rt.toLowerCase brand.brandName) = none)
    (hguess : (guessBrandDomainFromEnglishName rt C brand.brandNameEnglish
      (enterBrand brand.brandName s)).1 = some g) :
    findBrandWebsite rt C brand s =
      (guessedResult brand g,
        { (guessBrandDomainFromEnglishName rt C brand.brandNameEnglish
            (enterBrand brand.brandName s)).2 with
          cache := cacheSet (guessBrandDomainFromEnglishName rt C brand.brandNameEnglish
            (enterBrand brand.brandName s)).2.cache (rt.toLowerCase brand.brandName)
            (guessedResult brand g) }) := by
  have h0 : (enterBrand brand.brandName s).cache = s.cache := rfl
  simp only [findBrandWebsite, h0, hget, hguess]

theorem findBrandWebsite_searched {ω : Type} (rt : Platform) (C : Collab ω) (brand : Brand)
    (s : Collector ω)
    (hget : cacheGet s.cache (rt.toLowerCase brand.brandName) = none)
    (hguess : (guessBrandDomainFromEnglishName rt C brand.brandNameEnglish
      (enterBrand brand.brandName s)).1 = none) :
    findBrandWebsite rt C brand s =
      (finishSearch (searchLoop rt C brand.brandName brand.brandNameEnglish
          (generateSearchQueries brand.brandName brand.brandNameEnglish) (initialResult brand)
          (guessBrandDomainFromEnglishName rt C brand.brandNameEnglish
            (enterBrand brand.brandName s)).2).1,
        { (searchLoop rt C brand.brandName brand.brandNameEnglish
            (generateSearchQueries brand.brandName brand.brandNameEnglish) (initialResult brand)
            (guessBrandDomainFromEnglishName rt C brand.brandNameEnglish
              (enterBrand brand.brandName s)).2).2 with
          cache := cacheSet (searchLoop rt C brand.brandName brand.brandNameEnglish
            (generateSearchQueries brand.brandName brand.brandNameEnglish) (initialResult brand)
            (guessBrandDomainFromEnglishName rt C brand.brandNameEnglish
              (enterBrand brand.brandName s)).2).2.cache (rt.toLowerCase brand.brandName)
            (finishSearch (searchLoop rt C brand.brandName brand.brandNameEnglish
              (generateSearchQueries brand.brandName brand.brandNameEnglish)
              (initialResult brand)
              (guessBrandDomainFromEnglishName rt C brand.brandNameEnglish
                (enterBrand brand.brandName s)).2).1) }) := by
  have h0 : (enterBrand brand.brandName s).cache = s.cache := rfl
  simp only [findBrandWebsite, h0, hget, hguess]

/-- C2: for the brand named 테스트브랜드 with English name testbrand, an empty cache and a prober
that reports `testbrand.co.kr` as existing with final address `https://testbrand.co.kr`,
`findBrandWebsite` returns status found, search method domain_guessed, that address as primary
website and as the only website, and makes no search call: the only steps taken are the entry and
one probe, and the request counter is unchanged. -/
theorem findBrandWebsite_testbrand {ω : Type} (rt : Platform) (C : Collab ω) (s : Collector ω)
    (category : Str) (isBest : Bool) (statusCode : Nat) (redirected : Bool) (w1 : ω)
    (hlower : rt.toLowerCase "testbrand".toList = "testbrand".toList)
    (hcache : s.cache = [])
    (hprobe : C.probe s.world "testbrand.co.kr".toList =
      (ProbeOutcome.found "https://testbrand.co.kr".toList statusCode redirected, w1)) :
    (findBrandWebsite rt C
        { brandName := "테스트브랜드".toList, brandNameEnglish := some "testbrand".toList,
          category := category, isBest := isBest } s).1.status = Status.found ∧
    (findBrandWebsite rt C
        { brandName := "테스트브랜드".toList, brandNameEnglish := some "testbrand".toList,
          category := category, isBest := isBest } s).1.searchMethod =
      some SearchMethod.domainGuessed ∧
    (findBrandWebsite rt C
        { brandName := "테스트브랜드".toList, brandNameEnglish := some "testbrand".toList,
          category := category, isBest := isBest } s).1.primaryWebsite =
      some "https://testbrand.co.kr".toList ∧
    (findBrandWebsite rt C
        { brandName := "테스트브랜드".toList, brandNameEnglish := some "testbrand".toList,
          category := category, isBest := isBest } s).1.websites =
      ["https://testbrand.co.kr".toList] ∧
    (findBrandWebsite rt C
        { brandName := "테스트브랜드".toList, brandNameEnglish := some "testbrand".toList,
          category := category, isBest := isBest } s).2.events =
      s.events ++ [Event.findCall "테스트브랜드".toList, Event.probe "testbrand.co.kr".toList] ∧
    (findBrandWebsite rt C
        { brandName := "테스트브랜드".toList, brandNameEnglish := some "testbrand".toList,
          category := category, isBest := isBest } s).2.requestCount = s.requestCount := by
  have hclean : cleanNameOf rt "testbrand".toList = "testbrand".toList := by
    unfold cleanNameOf
    rw [hlower]
    decide
  have hpat : ∃ rest, domainPatterns rt "testbrand".toList = "testbrand.co.kr".toList :: rest := by
    obtain ⟨rest, h⟩ := domainPatterns_cons rt "testbrand".toList
    rw [hclean] at h
    exact ⟨rest, h⟩
  obtain ⟨rest, hrest⟩ := hpat
  have hguess : guessBrandDomainFromEnglishName rt C (some "testbrand".toList)
        (enterBrand "테스트브랜드".toList s) =
        (some { originalDomain := "testbrand.co.kr".toList,
                url := "https://testbrand.co.kr".toList, statusCode := statusCode,
                redirected := redirected,
                score := calculateDomainScore rt "testbrand.co.kr".toList "testbrand".toList 0 },
          { enterBrand "테스트브랜드".toList s with
            world := w1,
            events := (enterBrand "테스트브랜드".toList s).events ++
              [Event.probe "testbrand.co.kr".toList] }) := by
    rw [guessBrandDomain_eq_guessLoop rt C _ _ (by rw [hclean]; decide), hrest]
    exact guessLoop_cons_found rt C _ _ rest 0 _ _ _ _ w1 hprobe
  have hget : cacheGet s.cache (rt.toLowerCase "테스트브랜드".toList) = none := by
    rw [hcache]; rfl
  rw [findBrandWebsite_guessed rt C _ s _ hget (by rw [hguess])]
  simp only [hguess]
  simp [guessedResult, initialResult, enterBrand]

/-- An instance with the ASCII platform, a fresh collector and the stub network of the scenario. -/
theorem findBrandWebsite_testbrand_witness :
    (findBrandWebsite asciiPlatform stubTestbrand testBrand (Collector.fresh ())).1.status =
      Status.found ∧
    (findBrandWebsite asciiPlatform stubTestbrand testBrand (Collector.fresh ())).1.websites =
      ["https://testbrand.co.kr".toList] :=
  have h := findBrandWebsite_testbrand asciiPlatform stubTestbrand (Collector.fresh ())
    "unknown".toList false 200 false () (by decide) rfl (by decide)
  ⟨h.1, h.2.2.2.1⟩

/-! ## Extraction of search candidates -/

theorem isExcludedHost_eq_false_iff (hostname : Str) :
    isExcludedHost hostname = false ↔ ∀ d ∈ excludeDomains, ¬ d <:+: hostname := by
  unfold isExcludedHost
  rw [List.any_eq_false]
  constructor
  · intro h d hd
    have := h d hd
    rw [← includes_iff]
    simpa using this
  · intro h d hd
    have := h d hd
    rw [← includes_iff] at this
    simpa using this

theorem candidateOf_some (rt : Platform) (brandName : Str) (brandNameEnglish : Option Str)
    (item : SearchItem) (c : WebsiteCandidate)
    (h : candidateOf rt brandName brandNameEnglish item = some c) :
    c.url = item.link ∧ hostnameOf rt c.url = some c.hostname ∧
      isExcludedHost c.hostname = false ∧
      c.isDomainMatch = isDomainMatchOf (cleanEnglishNameOf rt brandNameEnglish) c.hostname ∧
      (c.isDomainMatch = true ∨
        isLikelyOfficialWebsite rt c.hostname c.title c.description
          (brandKeywordsOf rt brandName brandNameEnglish) = true) ∧
      c.score = calculateWebsiteScore rt c.hostname c.title c.description
        (brandKeywordsOf rt brandName brandNameEnglish) (cleanEnglishNameOf rt brandNameEnglish)
        c.isDomainMatch := by
  unfold candidateOf at h
  simp only at h
  cases hu : rt.urlHostname item.link with
  | none => rw [hu] at h; simp at h
  | some raw =>
    rw [hu] at h
    simp only at h
    split at h
    · exact absurd h (by simp)
    · rename_i hex
      split at h
      · rename_i hoff
        simp only [Option.some.injEq] at h
        subst h
        refine ⟨rfl, by simp [hostnameOf, hu], by simpa using hex, rfl, by simpa using hoff,
          rfl⟩
      · exact absurd h (by simp)

theorem mem_rankedCandidates (rt : Platform) (items : List SearchItem) (brandName : Str)
    (brandNameEnglish : Option Str) (c : WebsiteCandidate) :
    c ∈ rankedCandidates rt items brandName brandNameEnglish ↔
      ∃ item ∈ items, candidateOf rt brandName brandNameEnglish item = some c := by
  unfold rankedCandidates
  rw [(List.perm_insertionSort rankedBefore _).mem_iff, List.mem_filterMap]

theorem mem_extractOfficialWebsites (rt : Platform) (items : List SearchItem) (brandName : Str)
    (brandNameEnglish : Option Str) (u : Str)
    (h : u ∈ extractOfficialWebsites rt items brandName brandNameEnglish) :
    ∃ c ∈ rankedCandidates rt items brandName brandNameEnglish, c.url = u := by
  unfold extractOfficialWebsites at h
  rw [List.mem_map] at h
  obtain ⟨c, hc, hu⟩ := h
  exact ⟨c, List.mem_of_mem_take hc, hu⟩

theorem extracted_host_allowed (rt : Platform) (items : List SearchItem) (brandName : Str)
    (brandNameEnglish : Option Str) (u : Str)
    (h : u ∈ extractOfficialWebsites rt items brandName brandNameEnglish) :
    ∃ hostname, hostnameOf rt u = some hostname ∧ ∀ d ∈ excludeDomains, ¬ d <:+: hostname := by
  obtain ⟨c, hc, hu⟩ := mem_extractOfficialWebsites rt items brandName brandNameEnglish u h
  obtain ⟨item, _, hitem⟩ := (mem_rankedCandidates rt items brandName brandNameEnglish c).1 hc
  obtain ⟨_, h2, h3, _⟩ := candidateOf_some rt brandName brandNameEnglish item c hitem
  subst hu
  exact ⟨c.hostname, h2, (isExcludedHost_eq_false_iff _).1 h3⟩

/-- C3: for every list of search items, brand name and English name, every address returned by
`extractOfficialWebsites` parses to a host name, and that host name (lower-cased, as the function
computes it) contains no entry of `excludeDomains` as a substring, whatever the titles and
descriptions of the items say. -/
theorem extractOfficialWebsites_never_excluded (rt : Platform) (items : List SearchItem)
    (brandName : Str) (brandNameEnglish : Option Str) :
    ∀ u ∈ extractOfficialWebsites rt items brandName brandNameEnglish,
      ∃ hostname, hostnameOf rt u = some hostname ∧
        ∀ d ∈ excludeDomains, ¬ d <:+: hostname :=
  fun u h => extracted_host_allowed rt items brandName brandNameEnglish u h

/-- An instance: of two items the excluded portal page is dropped and the returned address has an allowed host. -/
theorem extractOfficialWebsites_never_excluded_witness :
    "https://testbrand.co.kr".toList ∈
      extractOfficialWebsites asciiPlatform sampleItems "테스트브랜드".toList
        (some "testbrand".toList) ∧
    ∃ hostname, hostnameOf asciiPlatform "https://testbrand.co.kr".toList = some hostname ∧
      ∀ d ∈ excludeDomains, ¬ d <:+: hostname :=
  ⟨by decide,
   extractOfficialWebsites_never_excluded asciiPlatform sampleItems "테스트브랜드".toList
     (some "testbrand".toList) "https://testbrand.co.kr".toList (by decide)⟩

/-! ### The ranking order -/

theorem rankedBefore_total (a b : WebsiteCandidate) : rankedBefore a b ∨ rankedBefore b a := by
  unfold rankedBefore compareCandidates
  generalize (includes a.hostname ".co.kr".toList || includes a.hostname ".kr".toList) = ka
  generalize (includes b.hostname ".co.kr".toList || includes b.hostname ".kr".toList) = kb
  rcases a.isDomainMatch <;> rcases b.isDomainMatch <;> rcases ka <;> rcases kb <;>
    simp <;> split_ifs <;> omega

theorem rankedBefore_iff (a b : WebsiteCandidate) :
    rankedBefore a b ↔
      (a.isDomainMatch = true ∧ b.isDomainMatch = false) ∨
      (a.isDomainMatch = b.isDomainMatch ∧
        (b.score < a.score ∨
          (b.score = a.score ∧
            ((includes a.hostname ".co.kr".toList || includes a.hostname ".kr".toList) = true ∨
             (includes b.hostname ".co.kr".toList || includes b.hostname ".kr".toList)
               = false)))) := by
  unfold rankedBefore compareCandidates
  generalize (includes a.hostname ".co.kr".toList || includes a.hostname ".kr".toList) = ka
  generalize (includes b.hostname ".co.kr".toList || includes b.hostname ".kr".toList) = kb
  rcases a.isDomainMatch <;> rcases b.isDomainMatch <;> rcases ka <;> rcases kb <;>
    simp <;> split_ifs <;> omega

theorem rankedBefore_trans (a b c : WebsiteCandidate) (hab : rankedBefore a b)
    (hbc : rankedBefore b c) : rankedBefore a c := by
  rw [rankedBefore_iff] at *
  generalize (includes a.hostname ".co.kr".toList || includes a.hostname ".kr".toList) = ka at *
  generalize (includes b.hostname ".co.kr".toList || includes b.hostname ".kr".toList) = kb at *
  generalize (includes c.hostname ".co.kr".toList || includes c.hostname ".kr".toList) = kc at *
  rcases hab with ⟨h1, h2⟩ | ⟨h1, h2⟩ <;> rcases hbc with ⟨h3, h4⟩ | ⟨h3, h4⟩
  · rw [h2] at h3; exact absurd h3 (by decide)
  · exact Or.inl ⟨h1, by rw [← h3]; exact h2⟩
  · exact Or.inl ⟨by rw [h1]; exact h3, h4⟩
  · refine Or.inr ⟨h1.trans h3, ?_⟩
    rcases h2 with h2 | ⟨h2, k2⟩ <;> rcases h4 with h4 | ⟨h4, k4⟩
    · exact Or.inl (by omega)
    · exact Or.inl (by omega)
    · exact Or.inl (by omega)
    · refine Or.inr ⟨by omega, ?_⟩
      rcases k2 with k2 | k2
      · exact Or.inl k2
      · rcases k4 with k4 | k4
        · rw [k2] at k4; exact absurd k4 (by decide)
        · exact Or.inr k4

theorem rankedCandidates_sorted (rt : Platform) (items : List SearchItem) (brandName : Str)
    (brandNameEnglish : Option Str) :
    List.Sorted rankedBefore (rankedCandidates rt items brandName brandNameEnglish) :=
  @List.sorted_insertionSort _ rankedBefore _ ⟨rankedBefore_total⟩ ⟨rankedBefore_trans⟩ _

theorem domainMatch_first_of_rankedBefore (a b : WebsiteCandidate) (h : rankedBefore a b)
    (hb : b.isDomainMatch = true) : a.isDomainMatch = true := by
  unfold rankedBefore compareCandidates at h
  rw [hb] at h
  cases ha : a.isDomainMatch with
  | true => rfl
  | false =>
    rw [ha] at h
    simp at h

theorem candidate_flag_eq (rt : Platform) (items : List SearchItem) (brandName : Str)
    (brandNameEnglish : Option Str) (c : WebsiteCandidate)
    (hc : c ∈ rankedCandidates rt items brandName brandNameEnglish) :
    c.isDomainMatch = domainMatchOfUrl rt brandNameEnglish c.url := by
  obtain ⟨item, _, hitem⟩ := (mem_rankedCandidates rt items brandName brandNameEnglish c).1 hc
  obtain ⟨_, h2, _, h4, _⟩ := candidateOf_some rt brandName brandNameEnglish item c hitem
  unfold domainMatchOfUrl
  rw [h2]
  exact h4

/-- C5: for every list of search items, in the ranked candidate list built by
`extractOfficialWebsites` every domain-match candidate stands before every candidate that is not
a domain match, and the same holds in the returned list of addresses; the scores play no part,
because the comparison function puts a domain-match candidate before any other candidate
whatever the two scores are. -/
theorem domainMatch_ranks_first (rt : Platform) (items : List SearchItem) (brandName : Str)
    (brandNameEnglish : Option Str) :
    List.Pairwise (fun a b => b.isDomainMatch = true → a.isDomainMatch = true)
      (rankedCandidates rt items brandName brandNameEnglish) ∧
    List.Pairwise
      (fun u v => domainMatchOfUrl rt brandNameEnglish v = true →
        domainMatchOfUrl rt brandNameEnglish u = true)
      (extractOfficialWebsites rt items brandName brandNameEnglish) ∧
    (∀ a b : WebsiteCandidate, a.isDomainMatch = true → b.isDomainMatch = false →
      compareCandidates a b < 0 ∧ 0 < compareCandidates b a) := by
  have hsorted := rankedCandidates_sorted rt items brandName brandNameEnglish
  have hflags : List.Pairwise (fun a b => b.isDomainMatch = true → a.isDomainMatch = true)
      (rankedCandidates rt items brandName brandNameEnglish) :=
    List.Pairwise.imp (fun {a b} h => domainMatch_first_of_rankedBefore a b h) hsorted
  refine ⟨hflags, ?_, ?_⟩
  · unfold extractOfficialWebsites
    rw [List.pairwise_map]
    have htake : List.Pairwise (fun a b => b.isDomainMatch = true → a.isDomainMatch = true)
        ((rankedCandidates rt items brandName brandNameEnglish).take 3) :=
      List.Pairwise.sublist (List.take_sublist _ _) hflags
    refine List.Pairwise.imp_of_mem ?_ htake
    intro a b ha hb hab
    rw [← candidate_flag_eq rt items brandName brandNameEnglish a (List.mem_of_mem_take ha),
      ← candidate_flag_eq rt items brandName brandNameEnglish b (List.mem_of_mem_take hb)]
    exact hab
  · intro a b ha hb
    unfold compareCandidates
    rw [ha, hb]
    simp

/-- C6: for every host name, title, description, keyword list, cleaned English name and
domain-match flag, empty strings included, `calculateWebsiteScore` returns an integer that is at
least 0. -/
theorem calculateWebsiteScore_nonneg (rt : Platform) (hostname title description : Str)
    (brandKeywords : List Str) (cleanEnglishName : Option Str) (isDomainMatch : Bool) :
    0 ≤ calculateWebsiteScore rt hostname title description brandKeywords cleanEnglishName
      isDomainMatch := by
  unfold calculateWebsiteScore
  exact le_max_left _ _

/-! ## Resuming -/

theorem mem_processedBrandNames (rt : Platform) (cp : Checkpoint) (n : Str) :
    n ∈ processedBrandNames rt cp ↔
      ∃ r ∈ (cp.successResults.getD []) ++ (cp.failedResults.getD []),
        r.brandName ≠ [] ∧ normalizeName rt r.brandName = n := by
  unfold processedBrandNames
  rw [List.mem_filterMap]
  constructor
  · rintro ⟨r, hr, h⟩
    by_cases hne : r.brandName ≠ []
    · rw [if_pos hne] at h
      exact ⟨r, hr, hne, by simpa using h⟩
    · rw [if_neg hne] at h
      exact absurd h (by simp)
  · rintro ⟨r, hr, hne, h⟩
    exact ⟨r, hr, by rw [if_pos hne, h]⟩

/-- C7 fails as stated: with the brand list holding the brand named by one blank and a checkpoint
whose only result has the empty brand name, the brand is returned although its lower-cased,
trimmed name (the empty string) equals that of the result. -/
theorem filterUnprocessedBrands_keeps_blank :
    blankBrand ∈ filterUnprocessedBrands asciiPlatform [blankBrand] (some emptyNameCheckpoint) ∧
    ∃ r ∈ (emptyNameCheckpoint.successResults.getD []) ++
        (emptyNameCheckpoint.failedResults.getD []),
      normalizeName asciiPlatform blankBrand.brandName =
        normalizeName asciiPlatform r.brandName := by
  decide

/-- C7 (amended): for every brand list and every checkpoint, no brand returned by
`filterUnprocessedBrands` has a lower-cased, trimmed name equal to the lower-cased, trimmed
`brandName` of a result in `successResults` or `failedResults` whose `brandName` is not empty. -/
theorem filterUnprocessedBrands_excludes_processed (rt : Platform) (brands : List Brand)
    (cp : Checkpoint) :
    ∀ b ∈ filterUnprocessedBrands rt brands (some cp),
      ∀ r ∈ (cp.successResults.getD []) ++ (cp.failedResults.getD []),
        r.brandName ≠ [] →
          normalizeName rt b.brandName ≠ normalizeName rt r.brandName := by
  intro b hb r hr hne heq
  simp only [filterUnprocessedBrands, List.mem_filter, Bool.not_eq_true',
    decide_eq_false_iff_not] at hb
  exact hb.2 ((mem_processedBrandNames rt cp _).2 ⟨r, hr, hne, heq.symm⟩)

/-- An instance: the brand a is returned when only b is in the checkpoint, and the two names differ. -/
theorem filterUnprocessedBrands_excludes_processed_witness :
    (failedRecord "b".toList).brandName ≠ [] ∧
    normalizeName asciiPlatform (plainBrand "a".toList).brandName ≠
      normalizeName asciiPlatform (failedRecord "b".toList).brandName :=
  ⟨by decide,
   filterUnprocessedBrands_excludes_processed asciiPlatform [plainBrand "a".toList] checkpointB
     (plainBrand "a".toList) (by decide) (failedRecord "b".toList) (by decide) (by decide)⟩

/-- C8 fails as stated: one brand `a` in the list (M = 1) and a checkpoint holding one result,
for the brand `b` (N = 1), give a filtered list of 1 brand, not M − N = 0. -/
theorem filterUnprocessedBrands_length_not_difference :
    (filterUnprocessedBrands asciiPlatform [plainBrand "a".toList] (some checkpointB)).length ≠
      [plainBrand "a".toList].length -
        (processedBrandNames asciiPlatform checkpointB).dedup.length := by
  decide

/-- C8 (amended): for every input list of M brands whose lower-cased, trimmed names are pairwise
distinct, and every checkpoint whose success and failed results (those with a non-empty brand
name) hold N distinct normalised names, each of them the normalised name of a brand of the list,
`filterUnprocessedBrands` returns a list of exactly M − N brands. -/
theorem filterUnprocessedBrands_length (rt : Platform) (brands : List Brand) (cp : Checkpoint)
    (hdistinct : (brands.map (fun b => normalizeName rt b.brandName)).Nodup)
    (hknown : ∀ n ∈ processedBrandNames rt cp,
      ∃ b ∈ brands, normalizeName rt b.brandName = n) :
    (filterUnprocessedBrands rt brands (some cp)).length =
      brands.length - (processedBrandNames rt cp).dedup.length := by
  have hperm : List.Perm
      ((brands.filter
        (fun b => decide (normalizeName rt b.brandName ∈ processedBrandNames rt cp))).map
          (fun b => normalizeName rt b.brandName))
      (processedBrandNames rt cp).dedup := by
    rw [List.perm_ext_iff_of_nodup
      ((hdistinct.sublist (List.Sublist.map _ (List.filter_sublist _))))
      (List.nodup_dedup _)]
    intro n
    simp only [List.mem_map, List.mem_filter, decide_eq_true_eq, List.mem_dedup]
    constructor
    · rintro ⟨b, ⟨_, hb⟩, rfl⟩
      exact hb
    · intro hn
      obtain ⟨b, hb, hbn⟩ := hknown n hn
      exact ⟨b, ⟨hb, by rw [hbn]; exact hn⟩, hbn⟩
  have hlen := hperm.length_eq
  rw [List.length_map] at hlen
  have hsplit := @List.length_eq_length_filter_add _ brands
    (fun b : Brand => decide (normalizeName rt b.brandName ∈ processedBrandNames rt cp))
  simp only [filterUnprocessedBrands]
  simp only at hsplit
  omega

/-- An instance: of the brands a and b, with b in the checkpoint, exactly 2 - 1 = 1 is returned. -/
theorem filterUnprocessedBrands_length_witness :
    ([plainBrand "a".toList, plainBrand "b".toList].map
        (fun b => normalizeName asciiPlatform b.brandName)).Nodup ∧
    (filterUnprocessedBrands asciiPlatform [plainBrand "a".toList, plainBrand "b".toList]
        (some checkpointB)).length =
      [plainBrand "a".toList, plainBrand "b".toList].length -
        (processedBrandNames asciiPlatform checkpointB).dedup.length :=
  ⟨by decide,
   filterUnprocessedBrands_length asciiPlatform [plainBrand "a".toList, plainBrand "b".toList]
     checkpointB (by decide) (by decide)⟩

/-! ## The search call and the daily limit -/

theorem searchNaver_exhausted {ω : Type} (C : Collab ω) (query : Str) (display : Nat)
    (s : Collector ω) (h : s.dailyLimit ≤ s.requestCount) :
    searchNaver C query display s =
      (Except.error ("네트워크 오류: ".toList ++ quotaMessage),
        { s with requestCount := s.requestCount + 1,
                 events := s.events ++ [Event.searchCall query] }) := by
  have hgt : s.requestCount + 1 > s.dailyLimit := by omega
  simp only [searchNaver, searchNaverTry, if_pos hgt, searchNaverCatch]

/-- C9, the code at the failing input: with `requestCount` equal to `dailyLimit` (25,000 of
25,000), `searchNaver` sends no HTTP request and counts the call, but the error that leaves the
function is the network-fault error wrapped around the quota message, not the quota error thrown
at the limit check: that error is caught by the function's own `catch` block, which, finding no
response on it, rethrows it as a network fault. -/
theorem searchNaver_at_limit_reports_network_fault :
    (searchNaver stubSearchable "x".toList 20 exhaustedCollector).1 =
      Except.error "네트워크 오류: 일일 API 요청 제한 초과".toList ∧
    (searchNaver stubSearchable "x".toList 20 exhaustedCollector).1 ≠
      Except.error quotaMessage ∧
    (searchNaverTry stubSearchable "x".toList 20 exhaustedCollector).1 =
      Except.error { message := quotaMessage, response := none } ∧
    httpGets (searchNaver stubSearchable "x".toList 20 exhaustedCollector).2.events = [] ∧
    (searchNaver stubSearchable "x".toList 20 exhaustedCollector).2.requestCount = 25001 := by
  decide

/-! ## The query loop -/

theorem searchLoop_cons_error {ω : Type} (rt : Platform) (C : Collab ω) (brandName : Str)
    (brandNameEnglish : Option Str) (query : Str) (rest : List Str) (result : BrandResult)
    (s s1 : Collector ω) (message : Str)
    (h : searchNaver C query 20 s = (Except.error message, s1)) :
    searchLoop rt C brandName brandNameEnglish (query :: rest) result s =
      searchLoop rt C brandName brandNameEnglish rest
        { result with searchQueries := result.searchQueries ++ [query] } s1 := by
  simp only [searchLoop, h, ite_self]

theorem searchLoop_cons_empty {ω : Type} (rt : Platform) (C : Collab ω) (brandName : Str)
    (brandNameEnglish : Option Str) (query : Str) (rest : List Str) (result : BrandResult)
    (s s1 : Collector ω) (items : List SearchItem)
    (h : searchNaver C query 20 s = (Except.ok items, s1))
    (hnone : extractOfficialWebsites rt items brandName brandNameEnglish = []) :
    searchLoop rt C brandName brandNameEnglish (query :: rest) result s =
      searchLoop rt C brandName brandNameEnglish rest
        { result with searchQueries := result.searchQueries ++ [query] } s1 := by
  simp [searchLoop, h, hnone]

theorem searchLoop_cons_found {ω : Type} (rt : Platform) (C : Collab ω) (brandName : Str)
    (brandNameEnglish : Option Str) (query : Str) (rest : List Str) (result : BrandResult)
    (s s1 : Collector ω) (items : List SearchItem)
    (h : searchNaver C query 20 s = (Except.ok items, s1))
    (hsome : extractOfficialWebsites rt items brandName brandNameEnglish ≠ []) :
    searchLoop rt C brandName brandNameEnglish (query :: rest) result s =
      ({ result with
          searchQueries := result.searchQueries ++ [query],
          websites := result.websites ++
            extractOfficialWebsites rt items brandName brandNameEnglish,
          searchMethod :=
            match result.searchMethod with
            | some m => some m
            | none => some SearchMethod.naverSearch },
        s1) := by
  have hpos : (extractOfficialWebsites rt items brandName brandNameEnglish).length > 0 :=
    List.length_pos.2 hsome
  simp only [searchLoop, h, if_pos hpos]

theorem searchLoop_websites {ω : Type} (rt : Platform) (C : Collab ω) (brandName : Str)
    (brandNameEnglish : Option Str) :
    ∀ (queries : List Str) (result : BrandResult) (s : Collector ω),
      ∀ u ∈ (searchLoop rt C brandName brandNameEnglish queries result s).1.websites,
        u ∈ result.websites ∨
          ∃ items, u ∈ extractOfficialWebsites rt items brandName brandNameEnglish := by
  intro queries
  induction queries with
  | nil =>
    intro result s u hu
    exact Or.inl (by simpa [searchLoop] using hu)
  | cons q rest ih =>
    intro result s u hu
    rcases hsn : searchNaver C q 20 s with ⟨r, s1⟩
    cases r with
    | error m =>
      rw [searchLoop_cons_error rt C _ _ q rest result s s1 m hsn] at hu
      have step := ih _ _ u hu
      exact step
    | ok items =>
      by_cases hnone : extractOfficialWebsites rt items brandName brandNameEnglish = []
      · rw [searchLoop_cons_empty rt C _ _ q rest result s s1 items hsn hnone] at hu
        have step := ih _ _ u hu
        exact step
      · rw [searchLoop_cons_found rt C _ _ q rest result s s1 items hsn hnone] at hu
        simp only [List.mem_append] at hu
        rcases hu with hu | hu
        · exact Or.inl hu
        · exact Or.inr ⟨items, hu⟩

theorem mem_uniqueInOrder (l : List Str) (u : Str) : u ∈ uniqueInOrder l ↔ u ∈ l := by
  induction l with
  | nil => simp [uniqueInOrder]
  | cons x xs ih =>
    simp only [uniqueInOrder, List.mem_cons, List.mem_filter, ih, decide_eq_true_eq]
    constructor
    · rintro (h | ⟨h, _⟩)
      · exact Or.inl h
      · exact Or.inr h
    · intro h
      by_cases hx : u = x
      · exact Or.inl hx
      · rcases h with h | h
        · exact absurd h hx
        · exact Or.inr ⟨h, hx⟩

/-- C4 fails as stated: for the brand with English name ably, whose first guessed domain
`ably.co.kr` exists, `findBrandWebsite` returns the address `https://ably.co.kr` in `websites`,
and the host name of that address is the entry `ably.co.kr` of the exclusion list. -/
theorem findBrandWebsite_guess_on_exclusion_list :
    "https://ably.co.kr".toList ∈
      (findBrandWebsite asciiPlatform stubAbly ablyBrand (Collector.fresh ())).1.websites ∧
    hostnameOf asciiPlatform "https://ably.co.kr".toList = some "ably.co.kr".toList ∧
    "ably.co.kr".toList ∈ excludeDomains ∧
    includes "ably.co.kr".toList "ably.co.kr".toList = true := by
  decide

/-! ## What a run does to the counters and to the record of steps -/

theorem continues_refl {ω : Type} (s : Collector ω) : Continues s s :=
  ⟨rfl, Nat.le_refl _, rfl, fun _ => rfl⟩

theorem continues_step {ω : Type} {s s1 s2 : Collector ω} (h1 : Continues s s1)
    (h2 : Continues s1 s2) : Continues s s2 := by
  obtain ⟨a1, b1, c1, d1⟩ := h1
  obtain ⟨a2, b2, c2, d2⟩ := h2
  refine ⟨a2.trans a1, Nat.le_trans b1 b2, c2.trans c1, fun h => ?_⟩
  rw [d2 (by omega), d1 h]

theorem guessLoop_continues {ω : Type} (rt : Platform) (C : Collab ω) (eng : Str) :
    ∀ (patterns : List Str) (i : Nat) (s : Collector ω),
      Continues s (guessLoop rt C eng patterns i s).2 ∧
        (guessLoop rt C eng patterns i s).2.requestCount = s.requestCount := by
  intro patterns
  induction patterns with
  | nil =>
    intro i s
    exact ⟨continues_refl s, rfl⟩
  | cons d rest ih =>
    intro i s
    have hstep : Continues s
        { s with world := (C.probe s.world d).2, events := s.events ++ [Event.probe d] } :=
      ⟨rfl, Nat.le_refl _, by simp [findCalls], fun _ => by simp [httpGets]⟩
    have hrec := ih (i + 1)
      { s with world := (C.probe s.world d).2, events := s.events ++ [Event.probe d] }
    cases hp : (C.probe s.world d).1 with
    | found url code redir =>
      simp only [guessLoop, hp]
      exact ⟨hstep, trivial⟩
    | absent =>
      simp only [guessLoop, hp]
      exact ⟨continues_step hstep hrec.1, hrec.2⟩
    | fault msg =>
      simp only [guessLoop, hp]
      exact ⟨continues_step hstep hrec.1, hrec.2⟩

theorem guessBrandDomain_continues {ω : Type} (rt : Platform) (C : Collab ω)
    (eng : Option Str) (s : Collector ω) :
    Continues s (guessBrandDomainFromEnglishName rt C eng s).2 ∧
      (guessBrandDomainFromEnglishName rt C eng s).2.requestCount = s.requestCount := by
  unfold guessBrandDomainFromEnglishName
  cases truthy eng with
  | none => exact ⟨continues_refl s, rfl⟩
  | some name =>
    simp only
    split
    · exact ⟨continues_refl s, rfl⟩
    · exact guessLoop_continues rt C name _ 0 s

theorem searchNaver_continues {ω : Type} (C : Collab ω) (query : Str) (display : Nat)
    (s : Collector ω) : Continues s (searchNaver C query display s).2 := by
  by_cases h : s.dailyLimit ≤ s.requestCount
  · rw [searchNaver_exhausted C query display s h]
    exact ⟨rfl, Nat.le_succ _, by simp [findCalls], fun _ => by simp [httpGets]⟩
  · have hstate : (searchNaver C query display s).2 =
        { s with requestCount := s.requestCount + 1,
                 world := (C.search s.world query display).2,
                 events := s.events ++ [Event.searchCall query] ++ [Event.httpGet query] } := by
      have hle : ¬ s.requestCount + 1 > s.dailyLimit := by omega
      cases ho : (C.search s.world query display).1 with
      | response status items =>
        by_cases hs : status = 200 <;>
          simp [searchNaver, searchNaverTry, if_neg hle, ho, hs]
      | rejectedWithResponse status em msg =>
        simp [searchNaver, searchNaverTry, if_neg hle, ho]
      | rejected msg =>
        simp [searchNaver, searchNaverTry, if_neg hle, ho]
    rw [hstate]
    exact ⟨rfl, Nat.le_succ _, by simp [findCalls], fun hex => absurd hex h⟩

theorem searchLoop_continues {ω : Type} (rt : Platform) (C : Collab ω) (brandName : Str)
    (brandNameEnglish : Option Str) :
    ∀ (queries : List Str) (result : BrandResult) (s : Collector ω),
      Continues s (searchLoop rt C brandName brandNameEnglish queries result s).2 := by
  intro queries
  induction queries with
  | nil =>
    intro result s
    exact continues_refl s
  | cons q rest ih =>
    intro result s
    have hsn := searchNaver_continues C q 20 s
    rcases hsr : searchNaver C q 20 s with ⟨r, s1⟩
    rw [hsr] at hsn
    cases r with
    | error m =>
      rw [searchLoop_cons_error rt C _ _ q rest result s s1 m hsr]
      exact continues_step hsn (ih _ _)
    | ok items =>
      by_cases hnone : extractOfficialWebsites rt items brandName brandNameEnglish = []
      · rw [searchLoop_cons_empty rt C _ _ q rest result s s1 items hsr hnone]
        exact continues_step hsn (ih _ _)
      · rw [searchLoop_cons_found rt C _ _ q rest result s s1 items hsr hnone]
        exact hsn

theorem searchLoop_exhausted {ω : Type} (rt : Platform) (C : Collab ω) (brandName : Str)
    (brandNameEnglish : Option Str) :
    ∀ (queries : List Str) (result : BrandResult) (s : Collector ω),
      s.dailyLimit ≤ s.requestCount →
        searchLoop rt C brandName brandNameEnglish queries result s =
          ({ result with searchQueries := result.searchQueries ++ queries },
            { s with requestCount := s.requestCount + queries.length,
                     events := s.events ++ queries.map Event.searchCall }) := by
  intro queries
  induction queries with
  | nil =>
    intro result s _
    simp [searchLoop]
  | cons q rest ih =>
    intro result s h
    rw [searchLoop_cons_error rt C _ _ q rest result s _ _ (searchNaver_exhausted C q 20 s h)]
    rw [ih _ _ (by simp only; omega)]
    simp only [List.append_assoc, List.singleton_append, List.length_cons, List.map_cons,
      Prod.mk.injEq, true_and]
    congr 1
    omega

theorem findBrandWebsite_continues {ω : Type} (rt : Platform) (C : Collab ω) (brand : Brand)
    (s : Collector ω) :
    Continues (enterBrand brand.brandName s) (findBrandWebsite rt C brand s).2 := by
  have hguess := (guessBrandDomain_continues rt C brand.brandNameEnglish
    (enterBrand brand.brandName s)).1
  cases hc : cacheGet s.cache (rt.toLowerCase brand.brandName) with
  | some cached =>
    rw [findBrandWebsite_cached rt C brand s cached hc]
    exact continues_refl _
  | none =>
    cases hg : (guessBrandDomainFromEnglishName rt C brand.brandNameEnglish
        (enterBrand brand.brandName s)).1 with
    | some g =>
      rw [findBrandWebsite_guessed rt C brand s g hc hg]
      exact hguess
    | none =>
      rw [findBrandWebsite_searched rt C brand s hc hg]
      exact continues_step hguess (searchLoop_continues rt C _ _ _ _ _)

/-! ## The batch scheduler -/

theorem chunkArrayLoop_flatten {α : Type} (array : List α) (chunkSize : Nat)
    (hsize : 1 ≤ chunkSize) :
    ∀ (fuel i : Nat) (chunks : List (List α)), array.length - i ≤ fuel →
      ∃ batches, chunkArrayLoop array chunkSize fuel i chunks = some batches ∧
        batches.flatten = chunks.flatten ++ array.drop i := by
  intro fuel
  induction fuel with
  | zero =>
    intro i chunks hfuel
    have hi : ¬ i < array.length := by omega
    refine ⟨chunks, by simp [chunkArrayLoop, hi], ?_⟩
    rw [List.drop_eq_nil_of_le (by omega), List.append_nil]
  | succ fuel ih =>
    intro i chunks hfuel
    by_cases hi : i < array.length
    · obtain ⟨batches, h1, h2⟩ := ih (i + chunkSize)
        (chunks ++ [(array.drop i).take chunkSize]) (by omega)
      refine ⟨batches, by simp only [chunkArrayLoop, if_pos hi, h1], ?_⟩
      rw [h2, List.flatten_append, List.append_assoc]
      congr 1
      simp only [List.flatten_cons, List.flatten_nil, List.append_nil]
      rw [← List.drop_drop, List.take_append_drop]
    · refine ⟨chunks, by simp [chunkArrayLoop, hi], ?_⟩
      rw [List.drop_eq_nil_of_le (by omega), List.append_nil]

theorem chunkArray_flatten {α : Type} (array : List α) (chunkSize : Nat)
    (hsize : 1 ≤ chunkSize) :
    ∃ batches, chunkArray array chunkSize = some batches ∧ batches.flatten = array := by
  obtain ⟨batches, h1, h2⟩ :=
    chunkArrayLoop_flatten array chunkSize hsize array.length 0 [] (by omega)
  exact ⟨batches, h1, by simpa using h2⟩

theorem processes_step {ω : Type} {s s1 s2 : Collector ω} {n1 n2 : List Str}
    (h1 : Processes s s1 n1) (h2 : Processes s1 s2 n2) : Processes s s2 (n1 ++ n2) := by
  obtain ⟨a1, b1, c1, d1⟩ := h1
  obtain ⟨a2, b2, c2, d2⟩ := h2
  refine ⟨a2.trans a1, Nat.le_trans b1 b2, ?_, fun h => ?_⟩
  · rw [c2, c1, List.append_assoc]
  · rw [d2 (by omega), d1 h]

theorem processes_of_fields {ω : Type} {s s1 s2 : Collector ω} {names : List Str}
    (h : Processes s s1 names) (hl : s2.dailyLimit = s1.dailyLimit)
    (hc : s2.requestCount = s1.requestCount)
    (hf : findCalls s2.events = findCalls s1.events)
    (hh : httpGets s2.events = httpGets s1.events) : Processes s s2 names := by
  obtain ⟨a, b, c, d⟩ := h
  exact ⟨hl.trans a, by omega, hf.trans c, fun hq => hh.trans (d hq)⟩

theorem findProcedure_processes {ω : Type} (rt : Platform) (C : Collab ω) (brand : Brand)
    (s : Collector ω) : Processes s (findProcedure rt C brand s).2 [brand.brandName] := by
  obtain ⟨a, b, c, d⟩ := findBrandWebsite_continues rt C brand s
  refine ⟨a, b, ?_, fun h => ?_⟩
  · rw [show (findProcedure rt C brand s).2 = (findBrandWebsite rt C brand s).2 from rfl, c]
    simp [enterBrand, findCalls]
  · rw [show (findProcedure rt C brand s).2 = (findBrandWebsite rt C brand s).2 from rfl, d h]
    simp [enterBrand, httpGets]

theorem processBrand_processes {ω : Type}
    (find : Brand → Collector ω → Except Str BrandResult × Collector ω)
    (hfind : ∀ b s, Processes s (find b s).2 [b.brandName]) (brand : Brand) (s : Collector ω) :
    Processes s (processBrand find brand s).2 [brand.brandName] := by
  have h := hfind brand s
  unfold processBrand
  rcases hf : find brand s with ⟨r, s1⟩
  rw [hf] at h
  cases r with
  | error m => exact processes_of_fields h rfl rfl rfl rfl
  | ok result =>
    simp only
    split
    · exact processes_of_fields h rfl rfl rfl rfl
    · exact processes_of_fields h rfl rfl rfl rfl

theorem processBatch_processes {ω : Type}
    (find : Brand → Collector ω → Except Str BrandResult × Collector ω)
    (hfind : ∀ b s, Processes s (find b s).2 [b.brandName]) :
    ∀ (batch : List Brand) (batchResults : List BrandResult) (s : Collector ω),
      (processBatch find batch batchResults s).1.length = batchResults.length + batch.length ∧
        Processes s (processBatch find batch batchResults s).2 (batch.map Brand.brandName) := by
  intro batch
  induction batch with
  | nil =>
    intro acc s
    exact ⟨rfl, rfl, Nat.le_refl _, by simp [processBatch, processBatches], fun _ => rfl⟩
  | cons brand rest ih =>
    intro acc s
    have h1 := processBrand_processes find hfind brand s
    obtain ⟨h2, h3⟩ := ih (acc ++ [(processBrand find brand s).1]) (processBrand find brand s).2
    simp only [processBatch]
    refine ⟨?_, ?_⟩
    · rw [h2]; simp; omega
    · exact processes_step h1 h3

theorem processBatches_processes {ω : Type}
    (find : Brand → Collector ω → Except Str BrandResult × Collector ω)
    (hfind : ∀ b s, Processes s (find b s).2 [b.brandName]) :
    ∀ (batches : List (List Brand)) (i : Nat) (allResults : List BrandResult)
      (s : Collector ω),
      (processBatches find batches i allResults s).1.length =
          allResults.length + batches.flatten.length ∧
        Processes s (processBatches find batches i allResults s).2
          (batches.flatten.map Brand.brandName) := by
  intro batches
  induction batches with
  | nil =>
    intro i acc s
    exact ⟨rfl, rfl, Nat.le_refl _, by simp [processBatch, processBatches], fun _ => rfl⟩
  | cons batch rest ih =>
    intro i acc s
    obtain ⟨h1, h2⟩ := processBatch_processes find hfind batch [] s
    simp only [processBatches]
    split
    · rename_i hten
      obtain ⟨h3, h4⟩ := ih (i + 1) (acc ++ (processBatch find batch [] s).1)
        { (processBatch find batch [] s).2 with
          events := ((processBatch find batch [] s).2.events ++ [Event.saveBatch i]) ++
            [Event.saveIntermediate (i + 1)] }
      refine ⟨?_, ?_⟩
      · rw [h3]; simp [h1]; omega
      · have hsave : Processes s
            { (processBatch find batch [] s).2 with
              events := ((processBatch find batch [] s).2.events ++ [Event.saveBatch i]) ++
                [Event.saveIntermediate (i + 1)] } (batch.map Brand.brandName) :=
          processes_of_fields h2 rfl rfl (by simp [findCalls]) (by simp [httpGets])
        simpa using processes_step hsave h4
    · obtain ⟨h3, h4⟩ := ih (i + 1) (acc ++ (processBatch find batch [] s).1)
        { (processBatch find batch [] s).2 with
          events := (processBatch find batch [] s).2.events ++ [Event.saveBatch i] }
      refine ⟨?_, ?_⟩
      · rw [h3]; simp [h1]; omega
      · have hsave : Processes s
            { (processBatch find batch [] s).2 with
              events := (processBatch find batch [] s).2.events ++ [Event.saveBatch i] }
            (batch.map Brand.brandName) :=
          processes_of_fields h2 rfl rfl (by simp [findCalls]) (by simp [httpGets])
        simpa using processes_step hsave h4

theorem processBrandsBatchWith_processes {ω : Type}
    (find : Brand → Collector ω → Except Str BrandResult × Collector ω)
    (hfind : ∀ b s, Processes s (find b s).2 [b.brandName])
    (brands : List Brand) (batchSize : Nat) (s : Collector ω) (hsize : 1 ≤ batchSize) :
    (∃ results, (processBrandsBatchWith find brands batchSize s).1 = some results ∧
        results.length = brands.length) ∧
      Processes s (processBrandsBatchWith find brands batchSize s).2
        (brands.map Brand.brandName) := by
  obtain ⟨batches, hb, hflat⟩ := chunkArray_flatten brands batchSize hsize
  obtain ⟨h1, h2⟩ := processBatches_processes find hfind batches 0 [] s
  rw [hflat] at h1 h2
  simp only [processBrandsBatchWith, hb]
  exact ⟨⟨_, rfl, by simpa using h1⟩, h2⟩

/-! ## The daily limit during a run -/

theorem findBrandWebsite_exhausted {ω : Type} (rt : Platform) (C : Collab ω) (brand : Brand)
    (s : Collector ω) (hquota : s.dailyLimit ≤ s.requestCount)
    (hmiss : cacheGet s.cache (rt.toLowerCase brand.brandName) = none)
    (hguess : (guessBrandDomainFromEnglishName rt C brand.brandNameEnglish
      (enterBrand brand.brandName s)).1 = none) :
    (findBrandWebsite rt C brand s).1.searchQueries =
        generateSearchQueries brand.brandName brand.brandNameEnglish ∧
      (findBrandWebsite rt C brand s).1.status = Status.notFound ∧
      (findBrandWebsite rt C brand s).2.requestCount =
        s.requestCount + (generateSearchQueries brand.brandName brand.brandNameEnglish).length := by
  obtain ⟨⟨hl, _, _, _⟩, hc⟩ := guessBrandDomain_continues rt C brand.brandNameEnglish
    (enterBrand brand.brandName s)
  have hq : (guessBrandDomainFromEnglishName rt C brand.brandNameEnglish
      (enterBrand brand.brandName s)).2.dailyLimit ≤
      (guessBrandDomainFromEnglishName rt C brand.brandNameEnglish
        (enterBrand brand.brandName s)).2.requestCount := by
    rw [hl, hc]
    exact hquota
  rw [findBrandWebsite_searched rt C brand s hmiss hguess,
    searchLoop_exhausted rt C _ _ _ _ _ hq]
  simp only [finishSearch, initialResult, List.nil_append, uniqueInOrder, List.length_nil,
    gt_iff_lt, Nat.lt_irrefl, if_false, hc, true_and]
  rfl

/-- C10 fails as stated: with the daily limit used up (25,000 of 25,000) and the work list of
the brands `a` and `b`, the first search call fails for the limit, and processing does not stop:
the two later queries of `a` are still handed to `searchNaver`, and `b` is still passed to
`findBrandWebsite`, with its three queries. -/
theorem processing_continues_after_quota_failure :
    (searchNaver stubSearchable "a 공식홈페이지".toList 20
        (enterBrand "a".toList exhaustedCollector)).1 =
      Except.error ("네트워크 오류: ".toList ++ quotaMessage) ∧
    (processBrandsBatch asciiPlatform stubSearchable
        [plainBrand "a".toList, plainBrand "b".toList] 50 exhaustedCollector).2.events =
      [ Event.findCall "a".toList,
        Event.searchCall "a 공식홈페이지".toList,
        Event.searchCall "a 브랜드 홈페이지".toList,
        Event.searchCall "a".toList,
        Event.findCall "b".toList,
        Event.searchCall "b 공식홈페이지".toList,
        Event.searchCall "b 브랜드 홈페이지".toList,
        Event.searchCall "b".toList,
        Event.saveBatch 0 ] := by
  decide

/-- C10 (amended): quota exhaustion is not fatal to the run.  Once the daily limit is used up,
`processBrandsBatch` (batch size at least 1) still passes every brand of the work list to
`findBrandWebsite`, in order, and returns one result per brand, while no HTTP request is sent to
the search service; and for a brand that misses the cache and whose domain guessing finds
nothing, every generated query is still tried and counted (each call is rejected for the limit
and caught inside the query loop) and the brand gets the status not_found. -/
theorem quota_exhaustion_does_not_stop_the_run {ω : Type} (rt : Platform) (C : Collab ω)
    (brands : List Brand) (batchSize : Nat) (s : Collector ω) (hsize : 1 ≤ batchSize)
    (hquota : s.dailyLimit ≤ s.requestCount) :
    (∃ results, (processBrandsBatch rt C brands batchSize s).1 = some results ∧
      results.length = brands.length) ∧
    findCalls (processBrandsBatch rt C brands batchSize s).2.events =
      findCalls s.events ++ brands.map Brand.brandName ∧
    httpGets (processBrandsBatch rt C brands batchSize s).2.events = httpGets s.events ∧
    (∀ (brand : Brand) (s0 : Collector ω), s0.dailyLimit ≤ s0.requestCount →
      cacheGet s0.cache (rt.toLowerCase brand.brandName) = none →
      (guessBrandDomainFromEnglishName rt C brand.brandNameEnglish
        (enterBrand brand.brandName s0)).1 = none →
      (findBrandWebsite rt C brand s0).1.searchQueries =
          generateSearchQueries brand.brandName brand.brandNameEnglish ∧
        (findBrandWebsite rt C brand s0).1.status = Status.notFound ∧
        (findBrandWebsite rt C brand s0).2.requestCount =
          s0.requestCount +
            (generateSearchQueries brand.brandName brand.brandNameEnglish).length) := by
  obtain ⟨h1, _, _, h3, h4⟩ := processBrandsBatchWith_processes (findProcedure rt C)
    (findProcedure_processes rt C) brands batchSize s hsize
  exact ⟨h1, h3, h4 hquota, fun brand s0 hq hm hg => findBrandWebsite_exhausted rt C brand s0 hq hm hg⟩

/-- An instance: both brands of the work list are entered although the limit is used up from the start. -/
theorem quota_exhaustion_does_not_stop_the_run_witness :
    (1 ≤ 50 ∧ exhaustedCollector.dailyLimit ≤ exhaustedCollector.requestCount) ∧
    findCalls (processBrandsBatch asciiPlatform stubSearchable
        [plainBrand "a".toList, plainBrand "b".toList] 50 exhaustedCollector).2.events =
      findCalls exhaustedCollector.events ++
        [plainBrand "a".toList, plainBrand "b".toList].map Brand.brandName :=
  ⟨⟨by decide, by decide⟩,
   (quota_exhaustion_does_not_stop_the_run asciiPlatform stubSearchable
      [plainBrand "a".toList, plainBrand "b".toList] 50 exhaustedCollector (by decide)
      (by decide)).2.1⟩

/-! ## The result of the query loop -/

theorem searchLoop_shape {ω : Type} (rt : Platform) (C : Collab ω) (brandName : Str)
    (brandNameEnglish : Option Str) :
    ∀ (queries : List Str) (result : BrandResult) (s : Collector ω),
      ∃ tried websites, tried <+: queries ∧
        (searchLoop rt C brandName brandNameEnglish queries result s).1 =
          { result with
            searchQueries := result.searchQueries ++ tried,
            websites := result.websites ++ websites,
            searchMethod :=
              match websites with
              | [] => result.searchMethod
              | _ :: _ =>
                match result.searchMethod with
                | some m => some m
                | none => some SearchMethod.naverSearch } := by
  intro queries
  induction queries with
  | nil =>
    intro result s
    exact ⟨[], [], List.prefix_refl _, by simp [searchLoop]⟩
  | cons q rest ih =>
    intro result s
    rcases hsn : searchNaver C q 20 s with ⟨r, s1⟩
    have hrec := ih { result with searchQueries := result.searchQueries ++ [q] } s1
    obtain ⟨tried, websites, hpre, heq⟩ := hrec
    have hnext : ∃ tried websites, tried <+: q :: rest ∧
        (searchLoop rt C brandName brandNameEnglish rest
            { result with searchQueries := result.searchQueries ++ [q] } s1).1 =
          { result with
            searchQueries := result.searchQueries ++ tried,
            websites := result.websites ++ websites,
            searchMethod :=
              match websites with
              | [] => result.searchMethod
              | _ :: _ =>
                match result.searchMethod with
                | some m => some m
                | none => some SearchMethod.naverSearch } := by
      refine ⟨q :: tried, websites, by simpa using hpre, ?_⟩
      rw [heq]
      simp
    cases r with
    | error m =>
      rw [searchLoop_cons_error rt C _ _ q rest result s s1 m hsn]
      exact hnext
    | ok items =>
      by_cases hnone : extractOfficialWebsites rt items brandName brandNameEnglish = []
      · rw [searchLoop_cons_empty rt C _ _ q rest result s s1 items hsn hnone]
        exact hnext
      · rw [searchLoop_cons_found rt C _ _ q rest result s s1 items hsn hnone]
        refine ⟨[q], extractOfficialWebsites rt items brandName brandNameEnglish,
          by simp, ?_⟩
        cases hw : extractOfficialWebsites rt items brandName brandNameEnglish with
        | nil => exact absurd hw hnone
        | cons u us => rfl

theorem cacheGet_cacheSet (cache : List (Str × BrandResult)) (key : Str) (value : BrandResult) :
    cacheGet (cacheSet cache key value) key = some value := by
  simp [cacheGet, cacheSet]

theorem findBrandWebsite_caches {ω : Type} (rt : Platform) (C : Collab ω) (brand : Brand)
    (s : Collector ω) (hmiss : cacheGet s.cache (rt.toLowerCase brand.brandName) = none) :
    cacheGet (findBrandWebsite rt C brand s).2.cache (rt.toLowerCase brand.brandName) =
      some (findBrandWebsite rt C brand s).1 := by
  cases hg : (guessBrandDomainFromEnglishName rt C brand.brandNameEnglish
      (enterBrand brand.brandName s)).1 with
  | some g =>
    rw [findBrandWebsite_guessed rt C brand s g hmiss hg]
    exact cacheGet_cacheSet _ _ _
  | none =>
    rw [findBrandWebsite_searched rt C brand s hmiss hg]
    exact cacheGet_cacheSet _ _ _

theorem findBrandWebsite_miss_cases {ω : Type} (rt : Platform) (C : Collab ω) (brand : Brand)
    (s : Collector ω) (hmiss : cacheGet s.cache (rt.toLowerCase brand.brandName) = none) :
    (∃ g, (guessBrandDomainFromEnglishName rt C brand.brandNameEnglish
          (enterBrand brand.brandName s)).1 = some g ∧
        (findBrandWebsite rt C brand s).1 = guessedResult brand g ∧
        (findBrandWebsite rt C brand s).2.requestCount = s.requestCount) ∨
    (∃ tried websites,
        (guessBrandDomainFromEnglishName rt C brand.brandNameEnglish
          (enterBrand brand.brandName s)).1 = none ∧
        tried <+: generateSearchQueries brand.brandName brand.brandNameEnglish ∧
        (findBrandWebsite rt C brand s).1 =
          finishSearch { initialResult brand with
            searchQueries := tried,
            websites := websites,
            searchMethod :=
              match websites with
              | [] => none
              | _ :: _ => some SearchMethod.naverSearch }) := by
  cases hg : (guessBrandDomainFromEnglishName rt C brand.brandNameEnglish
      (enterBrand brand.brandName s)).1 with
  | some g =>
    refine Or.inl ⟨g, rfl, ?_, ?_⟩
    · rw [findBrandWebsite_guessed rt C brand s g hmiss hg]
    · rw [findBrandWebsite_guessed rt C brand s g hmiss hg]
      exact (guessBrandDomain_continues rt C brand.brandNameEnglish
        (enterBrand brand.brandName s)).2
  | none =>
    obtain ⟨tried, websites, hpre, heq⟩ := searchLoop_shape rt C brand.brandName
      brand.brandNameEnglish (generateSearchQueries brand.brandName brand.brandNameEnglish)
      (initialResult brand)
      (guessBrandDomainFromEnglishName rt C brand.brandNameEnglish
        (enterBrand brand.brandName s)).2
    refine Or.inr ⟨tried, websites, rfl, hpre, ?_⟩
    rw [findBrandWebsite_searched rt C brand s hmiss hg]
    simp only [heq]
    cases websites <;> simp [initialResult]

/-! ## The cache -/

theorem mem_cacheSet (cache : List (Str × BrandResult)) (key : Str) (value : BrandResult)
    (e : Str × BrandResult) (h : e ∈ cacheSet cache key value) :
    e = (key, value) ∨ e ∈ cache := by
  simp only [cacheSet, List.mem_cons, List.mem_filter] at h
  rcases h with h | h
  · exact Or.inl h
  · exact Or.inr h.1

theorem mem_of_cacheGet (cache : List (Str × BrandResult)) (key : Str) (value : BrandResult)
    (h : cacheGet cache key = some value) : ∃ e ∈ cache, e.2 = value := by
  unfold cacheGet at h
  cases hf : cache.find? (fun e => decide (e.1 = key)) with
  | none => rw [hf] at h; simp at h
  | some e =>
    rw [hf] at h
    simp only [Option.map_some', Option.some.injEq] at h
    exact ⟨e, List.mem_of_find?_eq_some hf, h⟩

theorem guessLoop_cache {ω : Type} (rt : Platform) (C : Collab ω) (eng : Str) :
    ∀ (patterns : List Str) (i : Nat) (s : Collector ω),
      (guessLoop rt C eng patterns i s).2.cache = s.cache := by
  intro patterns
  induction patterns with
  | nil =>
    intro i s
    rfl
  | cons d rest ih =>
    intro i s
    have hrec := ih (i + 1)
      { s with world := (C.probe s.world d).2, events := s.events ++ [Event.probe d] }
    cases hp : (C.probe s.world d).1 with
    | found url code redir => simp only [guessLoop, hp]
    | absent =>
      simp only [guessLoop, hp]
      exact hrec
    | fault msg =>
      simp only [guessLoop, hp]
      exact hrec

theorem guessBrandDomain_cache {ω : Type} (rt : Platform) (C : Collab ω) (eng : Option Str)
    (s : Collector ω) : (guessBrandDomainFromEnglishName rt C eng s).2.cache = s.cache := by
  unfold guessBrandDomainFromEnglishName
  cases truthy eng with
  | none => rfl
  | some name =>
    simp only
    split
    · rfl
    · exact guessLoop_cache rt C name _ 0 s

theorem searchNaver_cache {ω : Type} (C : Collab ω) (query : Str) (display : Nat)
    (s : Collector ω) : (searchNaver C query display s).2.cache = s.cache := by
  by_cases h : s.dailyLimit ≤ s.requestCount
  · rw [searchNaver_exhausted C query display s h]
  · have hle : ¬ s.requestCount + 1 > s.dailyLimit := by omega
    cases ho : (C.search s.world query display).1 with
    | response status items =>
      by_cases hs : status = 200 <;>
        simp [searchNaver, searchNaverTry, if_neg hle, ho, hs]
    | rejectedWithResponse status em msg =>
      simp [searchNaver, searchNaverTry, if_neg hle, ho]
    | rejected msg =>
      simp [searchNaver, searchNaverTry, if_neg hle, ho]

theorem searchLoop_cache {ω : Type} (rt : Platform) (C : Collab ω) (brandName : Str)
    (brandNameEnglish : Option Str) :
    ∀ (queries : List Str) (result : BrandResult) (s : Collector ω),
      (searchLoop rt C brandName brandNameEnglish queries result s).2.cache = s.cache := by
  intro queries
  induction queries with
  | nil =>
    intro result s
    rfl
  | cons q rest ih =>
    intro result s
    have hsn := searchNaver_cache C q 20 s
    rcases hsr : searchNaver C q 20 s with ⟨r, s1⟩
    rw [hsr] at hsn
    cases r with
    | error m =>
      rw [searchLoop_cons_error rt C _ _ q rest result s s1 m hsr, ih]
      exact hsn
    | ok items =>
      by_cases hnone : extractOfficialWebsites rt items brandName brandNameEnglish = []
      · rw [searchLoop_cons_empty rt C _ _ q rest result s s1 items hsr hnone, ih]
        exact hsn
      · rw [searchLoop_cons_found rt C _ _ q rest result s s1 items hsr hnone]
        exact hsn

theorem findBrandWebsite_cache_entries {ω : Type} (rt : Platform) (C : Collab ω) (brand : Brand)
    (s : Collector ω) :
    ∀ e ∈ (findBrandWebsite rt C brand s).2.cache,
      e = (rt.toLowerCase brand.brandName, (findBrandWebsite rt C brand s).1) ∨ e ∈ s.cache := by
  intro e he
  cases hc : cacheGet s.cache (rt.toLowerCase brand.brandName) with
  | some cached =>
    rw [findBrandWebsite_cached rt C brand s cached hc] at he
    exact Or.inr he
  | none =>
    cases hg : (guessBrandDomainFromEnglishName rt C brand.brandNameEnglish
        (enterBrand brand.brandName s)).1 with
    | some g =>
      rw [findBrandWebsite_guessed rt C brand s g hc hg] at he ⊢
      rcases mem_cacheSet _ _ _ e he with h | h
      · exact Or.inl h
      · rw [guessBrandDomain_cache] at h
        exact Or.inr h
    | none =>
      rw [findBrandWebsite_searched rt C brand s hc hg] at he ⊢
      rcases mem_cacheSet _ _ _ e he with h | h
      · exact Or.inl h
      · rw [searchLoop_cache, guessBrandDomain_cache] at h
        exact Or.inr h

/-! ## The outcome of one brand -/

/-- C11 fails as stated: for the brand `a` (no English name, so no guessing) and a search service
that cannot be reached, the first search call fails with a network fault, yet the result has
status not_found and no fault description, not status error. -/
theorem search_fault_gives_not_found :
    (searchNaver stubTestbrand "a 공식홈페이지".toList 20
        (enterBrand "a".toList (Collector.fresh ()))).1 =
      Except.error "네트워크 오류: offline".toList ∧
    (findBrandWebsite asciiPlatform stubTestbrand (plainBrand "a".toList)
        (Collector.fresh ())).1.status = Status.notFound ∧
    (findBrandWebsite asciiPlatform stubTestbrand (plainBrand "a".toList)
        (Collector.fresh ())).1.error = none := by
  decide

/-- C11 (amended): for every brand that misses the cache, a search call that fails with a fault
(quota exceeded, malformed query, network fault) is caught inside the query loop, which records
the query and goes on with the next one; `findBrandWebsite` returns a result (the fault does not
reach the caller) whose status is found or not_found, never error, and which carries no fault
description. -/
theorem search_faults_are_caught {ω : Type} (rt : Platform) (C : Collab ω) (brand : Brand)
    (s : Collector ω) (hmiss : cacheGet s.cache (rt.toLowerCase brand.brandName) = none) :
    ((findBrandWebsite rt C brand s).1.status = Status.found ∨
      (findBrandWebsite rt C brand s).1.status = Status.notFound) ∧
    (findBrandWebsite rt C brand s).1.error = none ∧
    (∀ (query message : Str) (rest : List Str) (result : BrandResult) (s0 s1 : Collector ω),
      searchNaver C query 20 s0 = (Except.error message, s1) →
        searchLoop rt C brand.brandName brand.brandNameEnglish (query :: rest) result s0 =
          searchLoop rt C brand.brandName brand.brandNameEnglish rest
            { result with searchQueries := result.searchQueries ++ [query] } s1) := by
  refine ⟨?_, ?_, fun query message rest result s0 s1 h =>
    searchLoop_cons_error rt C _ _ query rest result s0 s1 message h⟩
  · rcases findBrandWebsite_miss_cases rt C brand s hmiss with
      ⟨g, _, h, _⟩ | ⟨tried, websites, _, _, h⟩
    · rw [h]; exact Or.inl rfl
    · rw [h]
      simp only [finishSearch]
      split
      · exact Or.inl rfl
      · exact Or.inr rfl
  · rcases findBrandWebsite_miss_cases rt C brand s hmiss with
      ⟨g, _, h, _⟩ | ⟨tried, websites, _, _, h⟩
    · rw [h]; rfl
    · rw [h]; rfl

/-- An instance: the brand `a` with the unreachable search service ends as found or not_found. -/
theorem search_faults_are_caught_witness :
    cacheGet (Collector.fresh ()).cache
        (asciiPlatform.toLowerCase (plainBrand "a".toList).brandName) = none ∧
    (findBrandWebsite asciiPlatform stubTestbrand (plainBrand "a".toList)
        (Collector.fresh ())).1.error = none :=
  ⟨by decide,
   (search_faults_are_caught asciiPlatform stubTestbrand (plainBrand "a".toList)
      (Collector.fresh ()) (by decide)).2.1⟩

/-- C12: if the cache holds an entry for the brand's lower-cased name, `findBrandWebsite` returns
that entry with only the cache flag set, and the only step it takes is the entry itself: no probe,
no search call, and the request counter, the cache and the world are unchanged.  In particular a
second call for the same brand, right after a first one (hit or miss), returns the first result
with the cache flag set and takes no step but its entry. -/
theorem cache_hit_returns_cached {ω : Type} (rt : Platform) (C : Collab ω) (brand : Brand)
    (s : Collector ω) :
    (∀ cached, cacheGet s.cache (rt.toLowerCase brand.brandName) = some cached →
      (findBrandWebsite rt C brand s).1 = { cached with fromCache := true } ∧
      (findBrandWebsite rt C brand s).2.events =
        s.events ++ [Event.findCall brand.brandName] ∧
      (findBrandWebsite rt C brand s).2.requestCount = s.requestCount ∧
      (findBrandWebsite rt C brand s).2.cache = s.cache ∧
      (findBrandWebsite rt C brand s).2.world = s.world) ∧
    (findBrandWebsite rt C brand (findBrandWebsite rt C brand s).2).1 =
      { (findBrandWebsite rt C brand s).1 with fromCache := true } ∧
    (findBrandWebsite rt C brand (findBrandWebsite rt C brand s).2).2.events =
      (findBrandWebsite rt C brand s).2.events ++ [Event.findCall brand.brandName] ∧
    (findBrandWebsite rt C brand (findBrandWebsite rt C brand s).2).2.requestCount =
      (findBrandWebsite rt C brand s).2.requestCount ∧
    (findBrandWebsite rt C brand (findBrandWebsite rt C brand s).2).2.world =
      (findBrandWebsite rt C brand s).2.world := by
  have hsecond : ∃ cached,
      cacheGet (findBrandWebsite rt C brand s).2.cache (rt.toLowerCase brand.brandName) =
        some cached ∧
      ({ cached with fromCache := true } : BrandResult) =
        { (findBrandWebsite rt C brand s).1 with fromCache := true } := by
    cases hc : cacheGet s.cache (rt.toLowerCase brand.brandName) with
    | some cached =>
      rw [findBrandWebsite_cached rt C brand s cached hc]
      exact ⟨cached, hc, rfl⟩
    | none => exact ⟨_, findBrandWebsite_caches rt C brand s hc, rfl⟩
  obtain ⟨cached, hget, heq⟩ := hsecond
  refine ⟨fun cached hc => ?_, ?_⟩
  · rw [findBrandWebsite_cached rt C brand s cached hc]
    exact ⟨rfl, rfl, rfl, rfl, rfl⟩
  · rw [findBrandWebsite_cached rt C brand _ cached hget]
    exact ⟨heq, rfl, rfl, rfl⟩

/-- C13: for every result that `findBrandWebsite` returns on a cache miss, the status is found iff
`websites` is not empty, `websites` is not empty iff `primaryWebsite` is present, and
`primaryWebsite` is the first element of `websites` (absent when there is none). -/
theorem found_iff_websites_iff_primary {ω : Type} (rt : Platform) (C : Collab ω) (brand : Brand)
    (s : Collector ω) (hmiss : cacheGet s.cache (rt.toLowerCase brand.brandName) = none) :
    ((findBrandWebsite rt C brand s).1.status = Status.found ↔
      (findBrandWebsite rt C brand s).1.websites ≠ []) ∧
    ((findBrandWebsite rt C brand s).1.websites ≠ [] ↔
      (findBrandWebsite rt C brand s).1.primaryWebsite.isSome = true) ∧
    (findBrandWebsite rt C brand s).1.primaryWebsite =
      (findBrandWebsite rt C brand s).1.websites.head? := by
  rcases findBrandWebsite_miss_cases rt C brand s hmiss with
    ⟨g, _, h, _⟩ | ⟨tried, websites, _, _, h⟩
  · rw [h]
    simp [guessedResult, initialResult]
  · rw [h]
    simp only [finishSearch, initialResult]
    cases hu : uniqueInOrder websites with
    | nil => simp
    | cons u us => simp

/-- An instance: the brand testbrand, found by guessing, has one website, which is primary. -/
theorem found_iff_websites_iff_primary_witness :
    cacheGet (Collector.fresh ()).cache (asciiPlatform.toLowerCase testBrand.brandName) = none ∧
    (findBrandWebsite asciiPlatform stubTestbrand testBrand (Collector.fresh ())).1.primaryWebsite =
      (findBrandWebsite asciiPlatform stubTestbrand testBrand
        (Collector.fresh ())).1.websites.head? :=
  ⟨by decide,
   (found_iff_websites_iff_primary asciiPlatform stubTestbrand testBrand (Collector.fresh ())
      (by decide)).2.2⟩

theorem guessedResult_shaped (brand : Brand) (g : GuessedWebsite) :
    GuessShaped (guessedResult brand g) := by
  intro _
  simp [guessedResult, initialResult]

theorem searched_method_ne_guessed (brand : Brand) (tried websites : List Str) :
    (finishSearch { initialResult brand with
        searchQueries := tried,
        websites := websites,
        searchMethod :=
          match websites with
          | [] => none
          | _ :: _ => some SearchMethod.naverSearch }).searchMethod ≠
      some SearchMethod.domainGuessed := by
  cases websites <;> simp [finishSearch, initialResult]

/-- C14: in every run (the cache starts empty and only `findBrandWebsite` writes to it, so every
cached result obtained by guessing has the shape below, which each call preserves), a result of
`findBrandWebsite` with search method domain_guessed has exactly one entry in `websites`,
exactly one in `guessedDomains`, no entry in `searchQueries`, and the call leaves the request
counter unchanged. -/
theorem domain_guessed_result_shape {ω : Type} (rt : Platform) (C : Collab ω) (brand : Brand)
    (s : Collector ω) (hcache : ∀ e ∈ s.cache, GuessShaped e.2) :
    (∀ e ∈ (findBrandWebsite rt C brand s).2.cache, GuessShaped e.2) ∧
    ((findBrandWebsite rt C brand s).1.searchMethod = some SearchMethod.domainGuessed →
      (findBrandWebsite rt C brand s).1.websites.length = 1 ∧
      (findBrandWebsite rt C brand s).1.guessedDomains.length = 1 ∧
      (findBrandWebsite rt C brand s).1.searchQueries = [] ∧
      (findBrandWebsite rt C brand s).2.requestCount = s.requestCount) := by
  have hresult : GuessShaped (findBrandWebsite rt C brand s).1 ∧
      ((findBrandWebsite rt C brand s).1.searchMethod = some SearchMethod.domainGuessed →
        (findBrandWebsite rt C brand s).2.requestCount = s.requestCount) := by
    cases hc : cacheGet s.cache (rt.toLowerCase brand.brandName) with
    | some cached =>
      rw [findBrandWebsite_cached rt C brand s cached hc]
      obtain ⟨e, he, hec⟩ := mem_of_cacheGet _ _ _ hc
      have hs := hcache e he
      rw [hec] at hs
      exact ⟨fun hm => hs hm, fun _ => rfl⟩
    | none =>
      rcases findBrandWebsite_miss_cases rt C brand s hc with
        ⟨g, _, h, hcount⟩ | ⟨tried, websites, _, _, h⟩
      · rw [h]
        exact ⟨guessedResult_shaped brand g, fun _ => hcount⟩
      · rw [h]
        have hne := searched_method_ne_guessed brand tried websites
        exact ⟨fun hm => absurd hm hne, fun hm => absurd hm hne⟩
  refine ⟨fun e he => ?_, fun hm => ?_⟩
  · rcases findBrandWebsite_cache_entries rt C brand s e he with h | h
    · rw [h]
      exact hresult.1
    · exact hcache e h
  · obtain ⟨h1, h2, h3⟩ := hresult.1 hm
    exact ⟨h1, h2, h3, hresult.2 hm⟩

/-- An instance: from the fresh collector the brand testbrand is found by guessing, with one
website. -/
theorem domain_guessed_result_shape_witness :
    (∀ e ∈ (Collector.fresh ()).cache, GuessShaped e.2) ∧
    (findBrandWebsite asciiPlatform stubTestbrand testBrand
        (Collector.fresh ())).1.websites.length = 1 :=
  ⟨fun e he => absurd he (List.not_mem_nil e),
   ((domain_guessed_result_shape asciiPlatform stubTestbrand testBrand (Collector.fresh ())
      (fun e he => absurd he (List.not_mem_nil e))).2 (by decide)).1⟩

/-! ## Search results and the exclusion list, over the whole run -/

/-- C4 (amended): in every run (the cache starts empty and only `findBrandWebsite` writes to it,
so every cached result has the property below, which each call preserves), for every brand and
every behaviour of the prober and of the search service, if the result of `findBrandWebsite`,
computed or served from the cache, was not obtained by domain guessing (`searchMethod` is not
domain_guessed), every address in its `websites` list parses to a host name that contains no entry
of the exclusion list; an address that enters the list by domain guessing is not checked against
the exclusion list. -/
theorem findBrandWebsite_searched_never_excluded {ω : Type} (rt : Platform) (C : Collab ω)
    (brand : Brand) (s : Collector ω) (hcache : ∀ e ∈ s.cache, SearchedAllowed rt e.2) :
    (∀ e ∈ (findBrandWebsite rt C brand s).2.cache, SearchedAllowed rt e.2) ∧
    ((findBrandWebsite rt C brand s).1.searchMethod ≠ some SearchMethod.domainGuessed →
      ∀ u ∈ (findBrandWebsite rt C brand s).1.websites,
        ∃ hostname, hostnameOf rt u = some hostname ∧
          ∀ d ∈ excludeDomains, ¬ d <:+: hostname) := by
  have hresult : SearchedAllowed rt (findBrandWebsite rt C brand s).1 := by
    cases hc : cacheGet s.cache (rt.toLowerCase brand.brandName) with
    | some cached =>
      rw [findBrandWebsite_cached rt C brand s cached hc]
      obtain ⟨e, he, hec⟩ := mem_of_cacheGet _ _ _ hc
      have hs := hcache e he
      rw [hec] at hs
      exact fun hm => hs hm
    | none =>
      cases hg : (guessBrandDomainFromEnglishName rt C brand.brandNameEnglish
          (enterBrand brand.brandName s)).1 with
      | some g =>
        rw [findBrandWebsite_guessed rt C brand s g hc hg]
        exact fun hm => absurd rfl hm
      | none =>
        rw [findBrandWebsite_searched rt C brand s hc hg]
        intro _ u hu
        simp only [finishSearch, mem_uniqueInOrder] at hu
        rcases searchLoop_websites rt C _ _ _ _ _ u hu with h | ⟨items, h⟩
        · simp [initialResult] at h
        · exact extracted_host_allowed rt items _ _ u h
  refine ⟨fun e he => ?_, hresult⟩
  rcases findBrandWebsite_cache_entries rt C brand s e he with h | h
  · rw [h]
    exact hresult
  · exact hcache e h

/-- An instance: a brand found by search from the fresh collector; its address has an allowed
host. -/
theorem findBrandWebsite_searched_never_excluded_witness :
    (∀ e ∈ (Collector.fresh ()).cache, SearchedAllowed asciiPlatform e.2) ∧
    ∀ u ∈ (findBrandWebsite asciiPlatform stubSearchable (plainBrand "testbrand".toList)
        (Collector.fresh ())).1.websites,
      ∃ hostname, hostnameOf asciiPlatform u = some hostname ∧
        ∀ d ∈ excludeDomains, ¬ d <:+: hostname :=
  ⟨fun e he => absurd he (List.not_mem_nil e),
   (findBrandWebsite_searched_never_excluded asciiPlatform stubSearchable
     (plainBrand "testbrand".toList) (Collector.fresh ())
     (fun e he => absurd he (List.not_mem_nil e))).2 (by decide)⟩

/-! ## The outcome `error` and the cache -/

/-- C20 fails as stated: for the entry named x whose English name is the number 12, started from
the fresh collector (a cache miss), `findBrandWebsite` returns a result with status `error` and
the message of the `TypeError`, without a probe or a search call, and afterwards the cache holds no
entry for `x`: the returned result was not written to it. -/
theorem error_outcome_is_not_cached :
    cacheGet (Collector.fresh ()).cache (asciiPlatform.toLowerCase numberEntry.brandName) = none ∧
    (findBrandWebsiteEntry asciiPlatform stubTestbrand numberEntry
      (Collector.fresh ())).1.status = Status.error ∧
    (findBrandWebsiteEntry asciiPlatform stubTestbrand numberEntry
      (Collector.fresh ())).1.error =
        some "brandNameEnglish.toLowerCase is not a function".toList ∧
    (findBrandWebsiteEntry asciiPlatform stubTestbrand numberEntry
      (Collector.fresh ())).2.events = [Event.findCall "x".toList] ∧
    cacheGet (findBrandWebsiteEntry asciiPlatform stubTestbrand numberEntry
      (Collector.fresh ())).2.cache (asciiPlatform.toLowerCase numberEntry.brandName) = none ∧
    cacheGet (findBrandWebsiteEntry asciiPlatform stubTestbrand numberEntry
      (Collector.fresh ())).2.cache (asciiPlatform.toLowerCase numberEntry.brandName) ≠
        some (findBrandWebsiteEntry asciiPlatform stubTestbrand numberEntry
          (Collector.fresh ())).1 := by
  decide

/-- C20 (amended): when `findBrandWebsite` returns on a cache miss, its outcome is found, not
found or error.  With the outcome found (by guessing or by search) or not found, the cache maps
the brand's lower-cased name to the returned result.  With the outcome error the result is
returned without being written: the cache is left as it was, with no entry for the brand.  The
outcome is error exactly when the English name is a truthy value that is not a string, which makes
domain guessing throw. -/
theorem cache_maps_name_to_result_unless_error {ω : Type} (rt : Platform) (C : Collab ω)
    (entry : BrandEntry) (s : Collector ω)
    (hmiss : cacheGet s.cache (rt.toLowerCase entry.brandName) = none) :
    ((findBrandWebsiteEntry rt C entry s).1.status = Status.found ∨
      (findBrandWebsiteEntry rt C entry s).1.status = Status.notFound ∨
      (findBrandWebsiteEntry rt C entry s).1.status = Status.error) ∧
    ((findBrandWebsiteEntry rt C entry s).1.status ≠ Status.error →
      cacheGet (findBrandWebsiteEntry rt C entry s).2.cache (rt.toLowerCase entry.brandName) =
        some (findBrandWebsiteEntry rt C entry s).1) ∧
    ((findBrandWebsiteEntry rt C entry s).1.status = Status.error →
      (findBrandWebsiteEntry rt C entry s).2.cache = s.cache ∧
      cacheGet (findBrandWebsiteEntry rt C entry s).2.cache (rt.toLowerCase entry.brandName) =
        none) ∧
    ((findBrandWebsiteEntry rt C entry s).1.status = Status.error ↔
      ∃ json, entry.brandNameEnglish = EnglishName.other json) := by
  cases he : entry.brandNameEnglish with
  | text name =>
    have hfun : findBrandWebsiteEntry rt C entry s =
        findBrandWebsite rt C (entry.withText name) s := by
      simp only [findBrandWebsiteEntry, he]
    have hmiss1 : cacheGet s.cache (rt.toLowerCase (entry.withText name).brandName) = none :=
      hmiss
    have hcached := findBrandWebsite_caches rt C (entry.withText name) s hmiss1
    have hstatus : (findBrandWebsite rt C (entry.withText name) s).1.status = Status.found ∨
        (findBrandWebsite rt C (entry.withText name) s).1.status = Status.notFound := by
      rcases findBrandWebsite_miss_cases rt C (entry.withText name) s hmiss1 with
        ⟨g, _, h, _⟩ | ⟨tried, websites, _, _, h⟩
      · rw [h]
        exact Or.inl (by simp [guessedResult])
      · rw [h]
        simp only [finishSearch]
        split
        · exact Or.inl rfl
        · exact Or.inr rfl
    have hne : (findBrandWebsite rt C (entry.withText name) s).1.status ≠ Status.error := by
      rcases hstatus with h | h <;> rw [h] <;> simp
    rw [hfun]
    refine ⟨?_, fun _ => hcached, fun h => absurd h hne, ?_⟩
    · rcases hstatus with h | h
      · exact Or.inl h
      · exact Or.inr (Or.inl h)
    · exact ⟨fun h => absurd h hne, fun ⟨json, h⟩ => by simp at h⟩
  | other json =>
    have hmiss0 : cacheGet (enterBrand entry.brandName s).cache
        (rt.toLowerCase entry.brandName) = none := hmiss
    have hfun : findBrandWebsiteEntry rt C entry s =
        (caughtResult entry notAFunctionMessage, enterBrand entry.brandName s) := by
      simp only [findBrandWebsiteEntry, he, hmiss0]
    rw [hfun]
    refine ⟨Or.inr (Or.inr rfl), fun h => absurd rfl h, fun _ => ⟨rfl, hmiss⟩, ?_⟩
    exact ⟨fun _ => ⟨json, rfl⟩, fun _ => rfl⟩

/-- An instance: after the brand `a`, which has no English name, ends as not found, the cache
holds that result. -/
theorem cache_maps_name_to_result_unless_error_witness :
    cacheGet (Collector.fresh ()).cache (asciiPlatform.toLowerCase plainEntry.brandName) = none ∧
    cacheGet (findBrandWebsiteEntry asciiPlatform stubTestbrand plainEntry
        (Collector.fresh ())).2.cache (asciiPlatform.toLowerCase plainEntry.brandName) =
      some (findBrandWebsiteEntry asciiPlatform stubTestbrand plainEntry
        (Collector.fresh ())).1 :=
  ⟨by decide,
   (cache_maps_name_to_result_unless_error asciiPlatform stubTestbrand plainEntry
      (Collector.fresh ()) (by decide)).2.1 (by decide)⟩

/-! ## A brand whose search results are all excluded -/

theorem guessLoop_none_of_never_found {ω : Type} (rt : Platform) (C : Collab ω) (eng : Str)
    (hnever : ∀ w d, (C.probe w d).1.isFound = false) :
    ∀ (patterns : List Str) (i : Nat) (s : Collector ω),
      (guessLoop rt C eng patterns i s).1 = none := by
  intro patterns
  induction patterns with
  | nil =>
    intro i s
    rfl
  | cons d rest ih =>
    intro i s
    have hrec := ih (i + 1)
      { s with world := (C.probe s.world d).2, events := s.events ++ [Event.probe d] }
    have hd := hnever s.world d
    cases hp : (C.probe s.world d).1 with
    | found url code redir =>
      rw [hp] at hd
      exact absurd hd (by simp [ProbeOutcome.isFound])
    | absent =>
      simp only [guessLoop, hp]
      exact hrec
    | fault msg =>
      simp only [guessLoop, hp]
      exact hrec

theorem guessBrandDomain_none {ω : Type} (rt : Platform) (C : Collab ω) (eng : Option Str)
    (s : Collector ω)
    (h : truthy eng = none ∨ ∀ w d, (C.probe w d).1.isFound = false) :
    (guessBrandDomainFromEnglishName rt C eng s).1 = none := by
  unfold guessBrandDomainFromEnglishName
  cases ht : truthy eng with
  | none => rfl
  | some name =>
    rcases h with h | h
    · rw [ht] at h
      exact absurd h (by simp)
    · simp only
      split
      · rfl
      · exact guessLoop_none_of_never_found rt C name h _ 0 s

theorem guessLoop_searchCalls {ω : Type} (rt : Platform) (C : Collab ω) (eng : Str) :
    ∀ (patterns : List Str) (i : Nat) (s : Collector ω),
      searchCalls (guessLoop rt C eng patterns i s).2.events = searchCalls s.events := by
  intro patterns
  induction patterns with
  | nil =>
    intro i s
    rfl
  | cons d rest ih =>
    intro i s
    have hrec := ih (i + 1)
      { s with world := (C.probe s.world d).2, events := s.events ++ [Event.probe d] }
    have hstep : searchCalls (s.events ++ [Event.probe d]) = searchCalls s.events := by
      simp [searchCalls]
    cases hp : (C.probe s.world d).1 with
    | found url code redir =>
      simp only [guessLoop, hp]
      exact hstep
    | absent =>
      simp only [guessLoop, hp]
      exact hrec.trans hstep
    | fault msg =>
      simp only [guessLoop, hp]
      exact hrec.trans hstep

theorem guessBrandDomain_searchCalls {ω : Type} (rt : Platform) (C : Collab ω)
    (eng : Option Str) (s : Collector ω) :
    searchCalls (guessBrandDomainFromEnglishName rt C eng s).2.events = searchCalls s.events := by
  unfold guessBrandDomainFromEnglishName
  cases truthy eng with
  | none => rfl
  | some name =>
    simp only
    split
    · rfl
    · exact guessLoop_searchCalls rt C name _ 0 s

theorem searchNaver_searchCalls {ω : Type} (C : Collab ω) (query : Str) (display : Nat)
    (s : Collector ω) :
    searchCalls (searchNaver C query display s).2.events = searchCalls s.events ++ [query] := by
  by_cases h : s.dailyLimit ≤ s.requestCount
  · rw [searchNaver_exhausted C query display s h]
    simp [searchCalls]
  · have hle : ¬ s.requestCount + 1 > s.dailyLimit := by omega
    cases ho : (C.search s.world query display).1 with
    | response status items =>
      by_cases hs : status = 200 <;>
        simp [searchNaver, searchNaverTry, if_neg hle, ho, hs, searchCalls]
    | rejectedWithResponse status em msg =>
      simp [searchNaver, searchNaverTry, if_neg hle, ho, searchCalls]
    | rejected msg =>
      simp [searchNaver, searchNaverTry, if_neg hle, ho, searchCalls]

theorem searchNaver_ok_items {ω : Type} (C : Collab ω) (query : Str) (display : Nat)
    (s : Collector ω) (items : List SearchItem)
    (h : (searchNaver C query display s).1 = Except.ok items) :
    ∃ found, (C.search s.world query display).1 = HttpOutcome.response 200 found ∧
      items = found.getD [] ∧ s.requestCount < s.dailyLimit := by
  by_cases hq : s.dailyLimit ≤ s.requestCount
  · rw [searchNaver_exhausted C query display s hq] at h
    exact absurd h (by simp)
  · have hle : ¬ s.requestCount + 1 > s.dailyLimit := by omega
    cases ho : (C.search s.world query display).1 with
    | response status found =>
      by_cases hs : status = 200
      · simp [searchNaver, searchNaverTry, if_neg hle, ho, hs] at h
        exact ⟨found, by rw [hs], h.symm, by omega⟩
      · simp [searchNaver, searchNaverTry, if_neg hle, ho, hs] at h
    | rejectedWithResponse status em msg =>
      simp [searchNaver, searchNaverTry, if_neg hle, ho] at h
    | rejected msg =>
      simp [searchNaver, searchNaverTry, if_neg hle, ho] at h

theorem candidateOf_excluded (rt : Platform) (brandName : Str) (brandNameEnglish : Option Str)
    (item : SearchItem)
    (h : ∃ hostname, hostnameOf rt item.link = some hostname ∧
      ∃ d ∈ excludeDomains, d <:+: hostname) :
    candidateOf rt brandName brandNameEnglish item = none := by
  obtain ⟨hostname, hh, d, hd, hinfix⟩ := h
  unfold hostnameOf at hh
  cases hu : rt.urlHostname item.link with
  | none => simp [candidateOf, hu]
  | some raw =>
    rw [hu] at hh
    simp only [Option.map_some', Option.some.injEq] at hh
    have hex : isExcludedHost (rt.toLowerCase raw) = true := by
      unfold isExcludedHost
      rw [List.any_eq_true]
      exact ⟨d, hd, by rw [includes_iff, hh]; exact hinfix⟩
    simp [candidateOf, hu, hex]

theorem extractOfficialWebsites_all_excluded (rt : Platform) (items : List SearchItem)
    (brandName : Str) (brandNameEnglish : Option Str)
    (h : ∀ item ∈ items, ∃ hostname, hostnameOf rt item.link = some hostname ∧
      ∃ d ∈ excludeDomains, d <:+: hostname) :
    extractOfficialWebsites rt items brandName brandNameEnglish = [] := by
  have hnone : items.filterMap (candidateOf rt brandName brandNameEnglish) = [] := by
    rw [List.filterMap_eq_nil_iff]
    intro item hitem
    exact candidateOf_excluded rt brandName brandNameEnglish item (h item hitem)
  simp [extractOfficialWebsites, rankedCandidates, hnone]

theorem searchLoop_nothing_extracted {ω : Type} (rt : Platform) (C : Collab ω)
    (brandName : Str) (brandNameEnglish : Option Str)
    (hno : ∀ (s : Collector ω) (q : Str) (items : List SearchItem),
      (searchNaver C q 20 s).1 = Except.ok items →
        extractOfficialWebsites rt items brandName brandNameEnglish = []) :
    ∀ (queries : List Str) (result : BrandResult) (s : Collector ω),
      (searchLoop rt C brandName brandNameEnglish queries result s).1 =
          { result with searchQueries := result.searchQueries ++ queries } ∧
        searchCalls (searchLoop rt C brandName brandNameEnglish queries result s).2.events =
          searchCalls s.events ++ queries := by
  intro queries
  induction queries with
  | nil =>
    intro result s
    simp [searchLoop]
  | cons q rest ih =>
    intro result s
    have hcalls := searchNaver_searchCalls C q 20 s
    have hitems := hno s q
    rcases hsr : searchNaver C q 20 s with ⟨r, s1⟩
    rw [hsr] at hcalls hitems
    obtain ⟨h1, h2⟩ := ih { result with searchQueries := result.searchQueries ++ [q] } s1
    have hnext :
        (searchLoop rt C brandName brandNameEnglish rest
            { result with searchQueries := result.searchQueries ++ [q] } s1).1 =
          { result with searchQueries := result.searchQueries ++ q :: rest } ∧
        searchCalls (searchLoop rt C brandName brandNameEnglish rest
            { result with searchQueries := result.searchQueries ++ [q] } s1).2.events =
          searchCalls s.events ++ q :: rest := by
      refine ⟨?_, ?_⟩
      · rw [h1]; simp
      · rw [h2, hcalls]; simp
    cases r with
    | error m =>
      rw [searchLoop_cons_error rt C _ _ q rest result s s1 m hsr]
      exact hnext
    | ok items =>
      rw [searchLoop_cons_empty rt C _ _ q rest result s s1 items hsr (hitems items rfl)]
      exact hnext

/-- C15: for every brand that misses the cache, for which domain guessing yields no candidate
(the brand has no English name, or none of its guessed domains is reported as existing), and whose
search calls, whenever they return items, return only items with host names on the exclusion list:
`findBrandWebsite` returns status not_found with empty `websites`, `searchQueries` equals the full
list of `generateSearchQueries`, and the queries handed to `searchNaver` during the call are
exactly that list, each once and in order. -/
theorem excluded_only_results_give_not_found {ω : Type} (rt : Platform) (C : Collab ω)
    (brand : Brand) (s : Collector ω)
    (hmiss : cacheGet s.cache (rt.toLowerCase brand.brandName) = none)
    (hguess : (guessBrandDomainFromEnglishName rt C brand.brandNameEnglish
      (enterBrand brand.brandName s)).1 = none)
    (hsearch : ∀ (w : ω) (q : Str) (n status : Nat) (items : List SearchItem),
      (C.search w q n).1 = HttpOutcome.response status (some items) →
        ∀ item ∈ items, ∃ hostname, hostnameOf rt item.link = some hostname ∧
          ∃ d ∈ excludeDomains, d <:+: hostname) :
    (findBrandWebsite rt C brand s).1.status = Status.notFound ∧
    (findBrandWebsite rt C brand s).1.websites = [] ∧
    (findBrandWebsite rt C brand s).1.searchQueries =
      generateSearchQueries brand.brandName brand.brandNameEnglish ∧
    searchCalls (findBrandWebsite rt C brand s).2.events =
      searchCalls s.events ++ generateSearchQueries brand.brandName brand.brandNameEnglish := by
  have hg := hguess
  have hno : ∀ (s0 : Collector ω) (q : Str) (items : List SearchItem),
      (searchNaver C q 20 s0).1 = Except.ok items →
        extractOfficialWebsites rt items brand.brandName brand.brandNameEnglish = [] := by
    intro s0 q items hok
    obtain ⟨found, hfound, hitems, _⟩ := searchNaver_ok_items C q 20 s0 items hok
    cases found with
    | none =>
      rw [hitems]
      exact extractOfficialWebsites_all_excluded rt _ _ _ (by simp)
    | some list =>
      rw [hitems]
      exact extractOfficialWebsites_all_excluded rt _ _ _
        (hsearch s0.world q 20 200 list hfound)
  obtain ⟨h1, h2⟩ := searchLoop_nothing_extracted rt C brand.brandName brand.brandNameEnglish hno
    (generateSearchQueries brand.brandName brand.brandNameEnglish) (initialResult brand)
    (guessBrandDomainFromEnglishName rt C brand.brandNameEnglish
      (enterBrand brand.brandName s)).2
  rw [findBrandWebsite_searched rt C brand s hmiss hg]
  simp only [h1, h2, guessBrandDomain_searchCalls]
  simp [finishSearch, initialResult, uniqueInOrder, enterBrand, searchCalls]

/-- An instance: the brand with English name testbrand, none of whose guessed domains exists
and for which every search returns one page on an excluded portal, ends as not found after its six
queries. -/
theorem excluded_only_results_give_not_found_witness :
    (cacheGet (Collector.fresh ()).cache (asciiPlatform.toLowerCase testBrand.brandName) = none ∧
      (guessBrandDomainFromEnglishName asciiPlatform stubExcludedOnly testBrand.brandNameEnglish
        (enterBrand testBrand.brandName (Collector.fresh ()))).1 = none) ∧
    (findBrandWebsite asciiPlatform stubExcludedOnly testBrand
        (Collector.fresh ())).1.searchQueries =
      [ "테스트브랜드 공식홈페이지".toList, "테스트브랜드 브랜드 홈페이지".toList,
        "testbrand 공식홈페이지".toList, "testbrand brand homepage".toList,
        "테스트브랜드 testbrand 홈페이지".toList, "테스트브랜드".toList ] :=
  ⟨⟨by decide, by decide⟩,
   (excluded_only_results_give_not_found asciiPlatform stubExcludedOnly
      testBrand (Collector.fresh ()) (by decide) (by decide)
      (fun w q n status items h item hitem => by
        simp only [stubExcludedOnly, HttpOutcome.response.injEq, Option.some.injEq] at h
        rw [← h.2] at hitem
        simp only [List.mem_singleton] at hitem
        rw [hitem]
        exact ⟨"www.naver.com".toList, by decide, "naver.com".toList, by decide,
          by decide⟩)).2.2.1⟩

/-! ## The terms of the search-candidate score -/

theorem ite_add_const (c : Prop) [Decidable c] (a k : Int) :
    (if c then a + k else a) = a + (if c then k else 0) := by
  split <;> simp

theorem ite_sub_const (c : Prop) [Decidable c] (a k : Int) :
    (if c then a - k else a) = a - (if c then k else 0) := by
  split <;> simp

theorem ite_chain_const (c1 c2 c3 : Prop) [Decidable c1] [Decidable c2] [Decidable c3]
    (a : Int) :
    (if c1 then a + 25 else if c2 then a + 20 else if c3 then a + 10 else a) =
      a + (if c1 then 25 else if c2 then 20 else if c3 then 10 else 0) := by
  split_ifs <;> simp

theorem calculateWebsiteScore_eq (rt : Platform) (hostname title description : Str)
    (brandKeywords : List Str) (cleanEnglishName : Option Str) (isDomainMatch : Bool) :
    calculateWebsiteScore rt hostname title description brandKeywords cleanEnglishName
        isDomainMatch =
      max 0 ((if isDomainMatch then 100 else 0) +
        (if hostKeyword hostname brandKeywords then 60 else 0) +
        (if officialMarker (visibleText rt title description) then 40 else 0) +
        suffixBonus hostname + markerTerms (visibleText rt title description) hostname) := by
  unfold calculateWebsiteScore markerTerms suffixBonus hostKeyword officialMarker brandMarker
    homepageMarker commerceMarker socialMarker visibleText
  simp only [ite_chain_const]
  simp only [ite_add_const, ite_sub_const]
  congr 1
  cases startsWith hostname "www.".toList <;>
    simp only [Bool.not_false, Bool.not_true, if_true, if_false, Bool.false_eq_true] <;> ring

theorem markerTerms_bounds (text hostname : Str) :
    -30 ≤ markerTerms text hostname ∧ markerTerms text hostname ≤ 55 := by
  unfold markerTerms
  constructor <;> split_ifs <;> omega

theorem suffixBonus_nonneg (hostname : Str) : 0 ≤ suffixBonus hostname := by
  unfold suffixBonus
  split_ifs <;> omega

/-- C17 fails as stated: for the host name `testbrand.io`, empty title and description, the
keyword testbrand and a domain match, the score is 165 (100 + 60 + 5), not 105. -/
theorem domain_match_example_scores_165 :
    calculateWebsiteScore asciiPlatform "testbrand.io".toList [] [] ["testbrand".toList]
        (some "testbrand".toList) true = 165 ∧
    calculateWebsiteScore asciiPlatform "testbrand.io".toList [] [] ["testbrand".toList]
        (some "testbrand".toList) true ≠ 105 := by
  decide

/-- C17 (amended): in `calculateWebsiteScore` the +100 domain-match bonus and the +60
keyword-in-host-name bonus are independent terms that stack: for every input the score is the
maximum of 0 and the sum of 100 (when `isDomainMatch` holds), 60 (when some brand keyword occurs
in the host name), 40 for an official marker, the suffix bonus and the remaining marker terms; so
for every input with a domain match and a keyword in the host name both bonuses are added. -/
theorem domain_match_and_keyword_bonus_stack (rt : Platform) (hostname title description : Str)
    (brandKeywords : List Str) (cleanEnglishName : Option Str) (isDomainMatch : Bool) :
    calculateWebsiteScore rt hostname title description brandKeywords cleanEnglishName
        isDomainMatch =
      max 0 ((if isDomainMatch then 100 else 0) +
        (if hostKeyword hostname brandKeywords then 60 else 0) +
        (if officialMarker (visibleText rt title description) then 40 else 0) +
        suffixBonus hostname + markerTerms (visibleText rt title description) hostname) ∧
    (hostKeyword hostname brandKeywords = true →
      calculateWebsiteScore rt hostname title description brandKeywords cleanEnglishName true =
        100 + 60 + ((if officialMarker (visibleText rt title description) then 40 else 0) +
          suffixBonus hostname + markerTerms (visibleText rt title description) hostname)) := by
  refine ⟨calculateWebsiteScore_eq rt hostname title description brandKeywords cleanEnglishName
    isDomainMatch, fun hk => ?_⟩
  rw [calculateWebsiteScore_eq, hk]
  have h1 := (markerTerms_bounds (visibleText rt title description) hostname).1
  have h2 := suffixBonus_nonneg hostname
  have h3 : (0 : Int) ≤ if officialMarker (visibleText rt title description) = true
      then 40 else 0 := by
    split <;> omega
  simp only [if_true]
  rw [max_eq_right (by omega)]
  ring

/-- An instance: the example of the claim, where both bonuses are added. -/
theorem domain_match_and_keyword_bonus_stack_witness :
    hostKeyword "testbrand.io".toList ["testbrand".toList] = true ∧
    calculateWebsiteScore asciiPlatform "testbrand.io".toList [] [] ["testbrand".toList]
        (some "testbrand".toList) true =
      100 + 60 + ((if officialMarker (visibleText asciiPlatform [] []) then 40 else 0) +
        suffixBonus "testbrand.io".toList +
        markerTerms (visibleText asciiPlatform [] []) "testbrand.io".toList) :=
  ⟨by decide,
   (domain_match_and_keyword_bonus_stack asciiPlatform "testbrand.io".toList [] []
      ["testbrand".toList] (some "testbrand".toList) true).2 (by decide)⟩

/-! ## Domain match and the official-likely test -/

theorem startsWith_iff (s needle : Str) : startsWith s needle = true ↔ needle <+: s := by
  unfold startsWith
  exact List.isPrefixOf_iff_prefix

theorem endsWith_iff (s needle : Str) : endsWith s needle = true ↔ needle <:+ s := by
  unfold endsWith
  rw [List.isPrefixOf_iff_prefix, List.reverse_prefix]

theorem isDomainMatchOf_iff (cleanEnglishName : Option Str) (hostname : Str) :
    isDomainMatchOf cleanEnglishName hostname = true ↔
      ∃ name, truthy cleanEnglishName = some name ∧ name <:+: hostname := by
  unfold isDomainMatchOf
  cases ht : truthy cleanEnglishName with
  | none => simp
  | some name =>
    simp only [Bool.or_eq_true, includes_iff, startsWith_iff, endsWith_iff, Option.some.injEq,
      exists_eq_left']
    constructor
    · rintro (((h | h) | h) | h)
      · exact h
      · exact (List.infix_append' [] name ".".toList).trans h.isInfix
      · exact ( List.infix_append' ".".toList name ".".toList).trans h
      · exact ( List.infix_append' ".".toList name []).trans
          (by simpa using h.isInfix)
    · intro h
      exact Or.inl (Or.inl (Or.inl h))

/-- C18 fails as stated: for the English name abc and an item on the host `xabcy.com`, the
candidate built by `extractOfficialWebsites` is marked as a domain match, although abc is not a
dot-delimited segment of the host name: the host name is not abc, does not start with `abc.`,
does not end with `.abc` and does not contain `.abc.`. -/
theorem inner_label_is_domain_match :
    (rankedCandidates asciiPlatform [innerLabelItem] "에이비씨".toList
        (some "abc".toList)).map (fun c => (c.hostname, c.isDomainMatch)) =
      [("xabcy.com".toList, true)] ∧
    "xabcy.com".toList ≠ "abc".toList ∧
    startsWith "xabcy.com".toList "abc.".toList = false ∧
    endsWith "xabcy.com".toList ".abc".toList = false ∧
    includes "xabcy.com".toList ".abc.".toList = false := by
  decide

/-- C18 (amended): `extractOfficialWebsites` marks a search item as a domain match exactly when
the normalised English identifier is not empty and occurs anywhere in the host name as a
substring; a host name that contains the identifier inside a longer label (abc in `xabcy.com`)
is a domain match. -/
theorem domain_match_iff_identifier_in_host (rt : Platform) (items : List SearchItem)
    (brandName : Str) (brandNameEnglish : Option Str) :
    ∀ c ∈ rankedCandidates rt items brandName brandNameEnglish,
      (c.isDomainMatch = true ↔
        ∃ name, truthy (cleanEnglishNameOf rt brandNameEnglish) = some name ∧
          name <:+: c.hostname) := by
  intro c hc
  obtain ⟨item, _, hitem⟩ := (mem_rankedCandidates rt items brandName brandNameEnglish c).1 hc
  obtain ⟨_, _, _, h4, _⟩ := candidateOf_some rt brandName brandNameEnglish item c hitem
  rw [h4]
  exact isDomainMatchOf_iff _ _

/-- An instance: the candidate on `xabcy.com` for the identifier abc. -/
theorem domain_match_iff_identifier_in_host_witness :
    (∃ c ∈ rankedCandidates asciiPlatform [innerLabelItem] "에이비씨".toList (some "abc".toList),
      c.isDomainMatch = true) ∧
    ∃ name, truthy (cleanEnglishNameOf asciiPlatform (some "abc".toList)) = some name ∧
      name <:+: "xabcy.com".toList :=
  ⟨⟨innerLabelCandidate, by decide, rfl⟩,
   (domain_match_iff_identifier_in_host asciiPlatform [innerLabelItem] "에이비씨".toList
      (some "abc".toList) innerLabelCandidate (by decide)).1 rfl⟩

theorem isLikelyOfficialWebsite_eq (rt : Platform) (hostname title description : Str)
    (brandKeywords : List Str) :
    isLikelyOfficialWebsite rt hostname title description brandKeywords =
      (hostKeyword hostname brandKeywords ||
        (likelyMarker (visibleText rt title description) &&
          textKeyword (visibleText rt title description) brandKeywords &&
          recognisedSuffix hostname)) := by
  unfold isLikelyOfficialWebsite hostKeyword likelyMarker textKeyword recognisedSuffix
    visibleText
  split
  · rename_i h
    rw [h]
    rfl
  · rename_i h
    simp only [Bool.not_eq_true] at h
    rw [h]
    rfl

/-- C19 fails as stated: for the brand testbrand (no English name) the item on the host
`testbrand.io`, with no title and no description, is accepted as a candidate that is not a domain
match, although its text has no official, brand or homepage marker and its host name ends in none
of the recognised suffixes. -/
theorem host_keyword_alone_is_accepted :
    (rankedCandidates asciiPlatform [bareHostItem] "testbrand".toList none).map
        (fun c => (c.url, c.isDomainMatch)) = [("https://testbrand.io".toList, false)] ∧
    likelyMarker (visibleText asciiPlatform (cleanText bareHostItem.title)
      (cleanText bareHostItem.description)) = false ∧
    recognisedSuffix "testbrand.io".toList = false := by
  decide

/-- C19 (amended): a search item that is not a domain match is accepted as a candidate by
`extractOfficialWebsites` only if its host name contains a brand keyword (whitespace removed),
which suffices alone, or all three of these hold together: its title and description contain a
brand keyword, they contain an official, brand or homepage marker, and its host name ends in one
of the recognised suffixes (.co.kr, .com, .kr, .net); and `isLikelyOfficialWebsite` is exactly
this test. -/
theorem accepted_without_domain_match (rt : Platform) (items : List SearchItem)
    (brandName : Str) (brandNameEnglish : Option Str) :
    (∀ hostname title description brandKeywords,
      isLikelyOfficialWebsite rt hostname title description brandKeywords =
        (hostKeyword hostname brandKeywords ||
          (likelyMarker (visibleText rt title description) &&
            textKeyword (visibleText rt title description) brandKeywords &&
            recognisedSuffix hostname))) ∧
    (∀ c ∈ rankedCandidates rt items brandName brandNameEnglish, c.isDomainMatch = false →
      hostKeyword c.hostname (brandKeywordsOf rt brandName brandNameEnglish) = true ∨
      (textKeyword (visibleText rt c.title c.description)
          (brandKeywordsOf rt brandName brandNameEnglish) = true ∧
        likelyMarker (visibleText rt c.title c.description) = true ∧
        recognisedSuffix c.hostname = true)) := by
  refine ⟨fun hostname title description brandKeywords =>
    isLikelyOfficialWebsite_eq rt hostname title description brandKeywords, ?_⟩
  intro c hc hdm
  obtain ⟨item, _, hitem⟩ := (mem_rankedCandidates rt items brandName brandNameEnglish c).1 hc
  obtain ⟨_, _, _, _, h5, _⟩ := candidateOf_some rt brandName brandNameEnglish item c hitem
  rcases h5 with h5 | h5
  · rw [hdm] at h5
    exact absurd h5 (by decide)
  · rw [isLikelyOfficialWebsite_eq] at h5
    simp only [Bool.or_eq_true, Bool.and_eq_true] at h5
    rcases h5 with h5 | ⟨⟨a, b⟩, c⟩
    · exact Or.inl h5
    · exact Or.inr ⟨b, a, c⟩

/-- An instance: the candidate on `testbrand.io` is accepted through the keyword in its host
name. -/
theorem accepted_without_domain_match_witness :
    (∃ c ∈ rankedCandidates asciiPlatform [bareHostItem] "testbrand".toList none,
      c.isDomainMatch = false) ∧
    (hostKeyword "testbrand.io".toList (brandKeywordsOf asciiPlatform "testbrand".toList none) =
        true ∨
      (textKeyword (visibleText asciiPlatform [] [])
          (brandKeywordsOf asciiPlatform "testbrand".toList none) = true ∧
        likelyMarker (visibleText asciiPlatform [] []) = true ∧
        recognisedSuffix "testbrand.io".toList = true)) :=
  ⟨⟨bareHostCandidate, by decide, rfl⟩,
   (accepted_without_domain_match asciiPlatform [bareHostItem] "testbrand".toList none).2
      bareHostCandidate (by decide) rfl⟩

/-! ## A brand found by its first query -/

theorem searchNaver_ok_of_response {ω : Type} (C : Collab ω) (query : Str) (display : Nat)
    (s : Collector ω) (found : Option (List SearchItem))
    (hquota : s.requestCount < s.dailyLimit)
    (h : (C.search s.world query display).1 = HttpOutcome.response 200 found) :
    searchNaver C query display s =
      (Except.ok (found.getD []),
        { s with requestCount := s.requestCount + 1,
                 world := (C.search s.world query display).2,
                 events := s.events ++ [Event.searchCall query, Event.httpGet query] }) := by
  have hle : ¬ s.requestCount + 1 > s.dailyLimit := by omega
  simp [searchNaver, searchNaverTry, if_neg hle, h]

theorem generateSearchQueries_cons (brandName : Str) (brandNameEnglish : Option Str) :
    ∃ rest, generateSearchQueries brandName brandNameEnglish =
      (brandName ++ " 공식홈페이지".toList) :: rest :=
  ⟨_, rfl⟩

theorem guessBrandDomain_of_no_english {ω : Type} (rt : Platform) (C : Collab ω)
    (eng : Option Str) (s : Collector ω) (h : truthy eng = none) :
    guessBrandDomainFromEnglishName rt C eng s = (none, s) := by
  unfold guessBrandDomainFromEnglishName
  rw [h]

theorem brandKeywordsOf_no_english (rt : Platform) (brandName : Str) (eng : Option Str)
    (hname : rt.toLowerCase brandName ≠ []) (h : truthy eng = none) :
    brandKeywordsOf rt brandName eng = [rt.toLowerCase brandName] := by
  have h1 : truthy (some (rt.toLowerCase brandName)) = some (rt.toLowerCase brandName) :=
    truthy_some_of_ne_nil _ hname
  have h2 : truthy (eng.map rt.toLowerCase) = none := by
    cases eng with
    | none => rfl
    | some e =>
      cases e with
      | nil => simp [rt.toLowerCase_nil, truthy]
      | cons c cs => simp [truthy] at h
  simp [brandKeywordsOf, h1, h2]

theorem cleanEnglishNameOf_no_english (rt : Platform) (eng : Option Str)
    (h : truthy eng = none) : cleanEnglishNameOf rt eng = none := by
  simp [cleanEnglishNameOf, h]

theorem candidateOf_host_keyword (rt : Platform) (brandName : Str) (eng : Option Str)
    (item : SearchItem) (hostname : Str)
    (hname : rt.toLowerCase brandName ≠ []) (heng : truthy eng = none)
    (hhost : hostnameOf rt item.link = some hostname)
    (hallowed : ∀ d ∈ excludeDomains, ¬ d <:+: hostname)
    (hkeyword : removeWhitespace (rt.toLowerCase brandName) <:+: hostname) :
    candidateOf rt brandName eng item =
      some { url := item.link, title := cleanText item.title,
             description := cleanText item.description, hostname := hostname,
             isDomainMatch := false,
             score := calculateWebsiteScore rt hostname (cleanText item.title)
               (cleanText item.description) [rt.toLowerCase brandName] none false } := by
  unfold hostnameOf at hhost
  cases hu : rt.urlHostname item.link with
  | none => rw [hu] at hhost; simp at hhost
  | some raw =>
    rw [hu] at hhost
    simp only [Option.map_some', Option.some.injEq] at hhost
    have hex : isExcludedHost hostname = false := (isExcludedHost_eq_false_iff hostname).2 hallowed
    have hlikely : isLikelyOfficialWebsite rt hostname (cleanText item.title)
        (cleanText item.description) [rt.toLowerCase brandName] = true := by
      rw [isLikelyOfficialWebsite_eq]
      have : hostKeyword hostname [rt.toLowerCase brandName] = true := by
        simp [hostKeyword, includes_iff, hkeyword]
      rw [this]
      rfl
    simp [candidateOf, hu, hhost, hex, brandKeywordsOf_no_english rt brandName eng hname heng,
      cleanEnglishNameOf_no_english rt eng heng, isDomainMatchOf, truthy, hlikely]

theorem extract_single (rt : Platform) (item : SearchItem) (brandName : Str)
    (eng : Option Str) (c : WebsiteCandidate)
    (h : candidateOf rt brandName eng item = some c) :
    rankedCandidates rt [item] brandName eng = [c] ∧
      extractOfficialWebsites rt [item] brandName eng = [c.url] := by
  have hr : rankedCandidates rt [item] brandName eng = [c] := by
    simp [rankedCandidates, h]
  exact ⟨hr, by simp [extractOfficialWebsites, hr]⟩

/-- C16: for a brand with no English name (and a name that is not empty) that misses the cache,
while the daily limit is not used up, whose first query is answered with exactly one item whose
host name is not excluded, ends in `.co.kr` and contains the lower-cased, whitespace-stripped brand
name, and whose (cleaned) description contains 공식: `findBrandWebsite` returns status found,
search method naver_search and the item's link as primary and only website, after exactly one
search call (one query recorded, one HTTP request, the request counter one higher); and the score
of the one candidate is 60 (keyword in host name) + 40 (official marker) + 25 (`.co.kr`) plus the
remaining marker terms, which makes 130 when the host name has no `www.` start and no other
marker applies.  The hypothesis `hkeep` says that lower-casing keeps an occurrence of 공식. -/
theorem first_query_official_site {ω : Type} (rt : Platform) (C : Collab ω) (brand : Brand)
    (s : Collector ω) (item : SearchItem) (hostname : Str)
    (hmiss : cacheGet s.cache (rt.toLowerCase brand.brandName) = none)
    (heng : truthy brand.brandNameEnglish = none)
    (hname : rt.toLowerCase brand.brandName ≠ [])
    (hkeep : ∀ t : Str, "공식".toList <:+: t → "공식".toList <:+: rt.toLowerCase t)
    (hquota : s.requestCount < s.dailyLimit)
    (hsearch : (C.search s.world (brand.brandName ++ " 공식홈페이지".toList) 20).1 =
      HttpOutcome.response 200 (some [item]))
    (hhost : hostnameOf rt item.link = some hostname)
    (hallowed : ∀ d ∈ excludeDomains, ¬ d <:+: hostname)
    (hsuffix : ".co.kr".toList <:+ hostname)
    (hkeyword : removeWhitespace (rt.toLowerCase brand.brandName) <:+: hostname)
    (hdesc : "공식".toList <:+: cleanText item.description) :
    (findBrandWebsite rt C brand s).1.status = Status.found ∧
    (findBrandWebsite rt C brand s).1.searchMethod = some SearchMethod.naverSearch ∧
    (findBrandWebsite rt C brand s).1.primaryWebsite = some item.link ∧
    (findBrandWebsite rt C brand s).1.websites = [item.link] ∧
    (findBrandWebsite rt C brand s).1.searchQueries =
      [brand.brandName ++ " 공식홈페이지".toList] ∧
    (findBrandWebsite rt C brand s).2.events =
      s.events ++ [Event.findCall brand.brandName,
        Event.searchCall (brand.brandName ++ " 공식홈페이지".toList),
        Event.httpGet (brand.brandName ++ " 공식홈페이지".toList)] ∧
    (findBrandWebsite rt C brand s).2.requestCount = s.requestCount + 1 ∧
    ∃ c, rankedCandidates rt [item] brand.brandName brand.brandNameEnglish = [c] ∧
      c.url = item.link ∧ c.hostname = hostname ∧ c.isDomainMatch = false ∧
      c.score = 60 + 40 + 25 + markerTerms (visibleText rt c.title c.description) hostname ∧
      (brandMarker (visibleText rt c.title c.description) = false →
        homepageMarker (visibleText rt c.title c.description) = false →
        commerceMarker (visibleText rt c.title c.description) hostname = false →
        socialMarker (visibleText rt c.title c.description) hostname = false →
        startsWith hostname "www.".toList = false → c.score = 130) := by
  have hcand := candidateOf_host_keyword rt brand.brandName brand.brandNameEnglish item hostname
    hname heng hhost hallowed hkeyword
  obtain ⟨hranked, hextract⟩ := extract_single rt item _ _ _ hcand
  have hofficial : officialMarker
      (visibleText rt (cleanText item.title) (cleanText item.description)) = true := by
    unfold officialMarker visibleText
    rw [Bool.or_eq_true, includes_iff]
    refine Or.inl (hkeep _ ?_)
    exact hdesc.trans (List.infix_append' (cleanText item.title ++ " ".toList) _ []
      |> fun h => by simpa using h)
  have hscore : calculateWebsiteScore rt hostname (cleanText item.title)
      (cleanText item.description) [rt.toLowerCase brand.brandName] none false =
      60 + 40 + 25 + markerTerms
        (visibleText rt (cleanText item.title) (cleanText item.description)) hostname := by
    have hk : hostKeyword hostname [rt.toLowerCase brand.brandName] = true := by
      simp [hostKeyword, includes_iff, hkeyword]
    have hs : suffixBonus hostname = 25 := by
      unfold suffixBonus
      rw [if_pos ((endsWith_iff _ _).2 hsuffix)]
    have hb := (markerTerms_bounds
      (visibleText rt (cleanText item.title) (cleanText item.description)) hostname).1
    rw [calculateWebsiteScore_eq, hk, hofficial, hs]
    simp only [if_true, Bool.false_eq_true, if_false]
    rw [max_eq_right (by omega)]
    ring
  have hguess := guessBrandDomain_of_no_english rt C brand.brandNameEnglish
    (enterBrand brand.brandName s) heng
  obtain ⟨rest, hqueries⟩ := generateSearchQueries_cons brand.brandName brand.brandNameEnglish
  have hsn := searchNaver_ok_of_response C (brand.brandName ++ " 공식홈페이지".toList) 20
    (enterBrand brand.brandName s) (some [item]) hquota hsearch
  have hne : extractOfficialWebsites rt ((some [item] : Option (List SearchItem)).getD [])
      brand.brandName brand.brandNameEnglish ≠ [] := by
    simp [hextract]
  have hloop := searchLoop_cons_found rt C brand.brandName brand.brandNameEnglish
    (brand.brandName ++ " 공식홈페이지".toList) rest (initialResult brand)
    (enterBrand brand.brandName s) _ _ hsn hne
  rw [findBrandWebsite_searched rt C brand s hmiss (by rw [hguess])]
  simp only [hguess, hqueries, hloop]
  simp only [Option.getD_some, hextract]
  refine ⟨by simp [finishSearch, uniqueInOrder], by simp [finishSearch, initialResult],
    by simp [finishSearch, uniqueInOrder, initialResult],
    by simp [finishSearch, uniqueInOrder, initialResult],
    by simp [finishSearch, initialResult],
    by simp [enterBrand], by simp [enterBrand], ?_⟩
  refine ⟨_, hranked, rfl, rfl, rfl, hscore, ?_⟩
  intro h1 h2 h3 h4 h5
  simp only at h1 h2 h3 h4 h5 ⊢
  rw [hscore]
  simp only [markerTerms, h1, h2, h3, h4, h5, Bool.false_eq_true, if_false]
  norm_num

theorem asciiLower_keeps (k t : Str) (hk : asciiLower k = k) (h : k <:+: t) :
    k <:+: asciiLower t := by
  obtain ⟨a, b, rfl⟩ := h
  refine ⟨asciiLower a, asciiLower b, ?_⟩
  simp only [asciiLower, List.map_append] at hk ⊢
  rw [hk]

/-- An instance: the brand acme, whose first query returns its official site `acme.co.kr`; the
candidate scores 130. -/
theorem first_query_official_site_witness :
    ((Collector.fresh ()).requestCount < (Collector.fresh ()).dailyLimit ∧
      "공식".toList <:+: cleanText acmeItem.description) ∧
    (findBrandWebsite asciiPlatform stubAcme (plainBrand "acme".toList)
        (Collector.fresh ())).1.primaryWebsite = some "https://acme.co.kr".toList ∧
    ∃ c, rankedCandidates asciiPlatform [acmeItem] "acme".toList none = [c] ∧ c.score = 130 := by
  have h := first_query_official_site asciiPlatform stubAcme (plainBrand "acme".toList)
    (Collector.fresh ()) acmeItem "acme.co.kr".toList (by decide) rfl (by decide)
    (fun t ht => asciiLower_keeps "공식".toList t (by decide) ht) (by decide) (by decide)
    (by decide) (by decide) (by decide) (by decide) (by decide)
  refine ⟨⟨by decide, by decide⟩, h.2.2.1, ?_⟩
  obtain ⟨c, hc, _, _, _, _, h130⟩ := h.2.2.2.2.2.2.2
  have hr : rankedCandidates asciiPlatform [acmeItem] "acme".toList none = [acmeCandidate] := by
    decide
  have hcc : c = acmeCandidate := by
    have := hc.symm.trans hr
    simpa using this
  subst hcc
  exact ⟨acmeCandidate, hr, h130 (by decide) (by decide) (by decide) (by decide) (by decide)⟩

/-! ## The query loop, query by query -/

theorem searchLoop_spec {ω : Type} (rt : Platform) (C : Collab ω) (brandName : Str)
    (brandNameEnglish : Option Str) :
    ∀ (queries : List Str) (result : BrandResult) (s : Collector ω),
      (∃ k items,
        (queryYieldsSeq rt C brandName brandNameEnglish queries s)[k]? = some true ∧
        (∀ j, j < k →
          (queryYieldsSeq rt C brandName brandNameEnglish queries s)[j]? = some false) ∧
        k < queries.length ∧
        extractOfficialWebsites rt items brandName brandNameEnglish ≠ [] ∧
        (searchLoop rt C brandName brandNameEnglish queries result s).1 =
          { result with
            searchQueries := result.searchQueries ++ queries.take (k + 1),
            websites := result.websites ++
              extractOfficialWebsites rt items brandName brandNameEnglish,
            searchMethod :=
              match result.searchMethod with
              | some m => some m
              | none => some SearchMethod.naverSearch } ∧
        searchCalls (searchLoop rt C brandName brandNameEnglish queries result s).2.events =
          searchCalls s.events ++ queries.take (k + 1)) ∨
      ((∀ y ∈ queryYieldsSeq rt C brandName brandNameEnglish queries s, y = false) ∧
        (searchLoop rt C brandName brandNameEnglish queries result s).1 =
          { result with searchQueries := result.searchQueries ++ queries } ∧
        searchCalls (searchLoop rt C brandName brandNameEnglish queries result s).2.events =
          searchCalls s.events ++ queries) := by
  intro queries
  induction queries with
  | nil =>
    intro result s
    exact Or.inr ⟨by simp [queryYieldsSeq], by simp [searchLoop], by simp [searchLoop]⟩
  | cons q rest ih =>
    intro result s
    have hcalls := searchNaver_searchCalls C q 20 s
    rcases hsn : searchNaver C q 20 s with ⟨r, s1⟩
    have hs1 : (searchNaver C q 20 s).2 = s1 := by rw [hsn]
    have hr : (searchNaver C q 20 s).1 = r := by rw [hsn]
    rw [hs1] at hcalls
    have hcase :
        (queryYields rt C brandName brandNameEnglish q s = false ∧
          searchLoop rt C brandName brandNameEnglish (q :: rest) result s =
            searchLoop rt C brandName brandNameEnglish rest
              { result with searchQueries := result.searchQueries ++ [q] } s1) ∨
        (∃ items, extractOfficialWebsites rt items brandName brandNameEnglish ≠ [] ∧
          queryYields rt C brandName brandNameEnglish q s = true ∧
          searchLoop rt C brandName brandNameEnglish (q :: rest) result s =
            ({ result with
                searchQueries := result.searchQueries ++ [q],
                websites := result.websites ++
                  extractOfficialWebsites rt items brandName brandNameEnglish,
                searchMethod :=
                  match result.searchMethod with
                  | some m => some m
                  | none => some SearchMethod.naverSearch },
              s1)) := by
      cases r with
      | error m =>
        exact Or.inl ⟨by simp [queryYields, hr],
          searchLoop_cons_error rt C _ _ q rest result s s1 m hsn⟩
      | ok items =>
        by_cases hnone : extractOfficialWebsites rt items brandName brandNameEnglish = []
        · exact Or.inl ⟨by simp [queryYields, hr, hnone],
            searchLoop_cons_empty rt C _ _ q rest result s s1 items hsn hnone⟩
        · have hpos :
              0 < (extractOfficialWebsites rt items brandName brandNameEnglish).length :=
            List.length_pos.2 hnone
          exact Or.inr ⟨items, hnone, by simp [queryYields, hr, hpos],
            searchLoop_cons_found rt C _ _ q rest result s s1 items hsn hnone⟩
    rcases hcase with ⟨hy, hloop⟩ | ⟨items, hnone, hy, hloop⟩
    · rw [hloop]
      rcases ih { result with searchQueries := result.searchQueries ++ [q] } s1 with
        ⟨k, items, h1, h2, h3, h4, h5, h6⟩ | ⟨h1, h2, h3⟩
      · refine Or.inl ⟨k + 1, items, ?_, ?_, by simpa using h3, h4, ?_, ?_⟩
        · simpa [queryYieldsSeq, hs1] using h1
        · intro j hj
          cases j with
          | zero => simp [queryYieldsSeq, hy]
          | succ j => simpa [queryYieldsSeq, hs1] using h2 j (by omega)
        · rw [h5]; simp
        · rw [h6, hcalls]; simp
      · refine Or.inr ⟨?_, ?_, ?_⟩
        · intro y hy'
          simp only [queryYieldsSeq, List.mem_cons, hs1] at hy'
          rcases hy' with hy' | hy'
          · rw [hy', hy]
          · exact h1 y hy'
        · rw [h2]; simp
        · rw [h3, hcalls]; simp
    · rw [hloop]
      refine Or.inl ⟨0, items, ?_, ?_, by simp, hnone, by simp, ?_⟩
      · simp [queryYieldsSeq, hy]
      · intro j hj
        omega
      · rw [hcalls]; simp

theorem findBrandWebsite_search_cases {ω : Type} (rt : Platform) (C : Collab ω) (brand : Brand)
    (s : Collector ω) (hmiss : cacheGet s.cache (rt.toLowerCase brand.brandName) = none)
    (hguess : (guessBrandDomainFromEnglishName rt C brand.brandNameEnglish
      (enterBrand brand.brandName s)).1 = none) :
    (∃ k items,
      (queryYieldsSeq rt C brand.brandName brand.brandNameEnglish
        (generateSearchQueries brand.brandName brand.brandNameEnglish)
        (guessBrandDomainFromEnglishName rt C brand.brandNameEnglish
          (enterBrand brand.brandName s)).2)[k]? = some true ∧
      (∀ j, j < k →
        (queryYieldsSeq rt C brand.brandName brand.brandNameEnglish
          (generateSearchQueries brand.brandName brand.brandNameEnglish)
          (guessBrandDomainFromEnglishName rt C brand.brandNameEnglish
            (enterBrand brand.brandName s)).2)[j]? = some false) ∧
      extractOfficialWebsites rt items brand.brandName brand.brandNameEnglish ≠ [] ∧
      (findBrandWebsite rt C brand s).1 =
        finishSearch { initialResult brand with
          searchQueries :=
            (generateSearchQueries brand.brandName brand.brandNameEnglish).take (k + 1),
          websites := extractOfficialWebsites rt items brand.brandName brand.brandNameEnglish,
          searchMethod := some SearchMethod.naverSearch } ∧
      searchCalls (findBrandWebsite rt C brand s).2.events =
        searchCalls s.events ++
          (generateSearchQueries brand.brandName brand.brandNameEnglish).take (k + 1)) ∨
    ((∀ y ∈ queryYieldsSeq rt C brand.brandName brand.brandNameEnglish
        (generateSearchQueries brand.brandName brand.brandNameEnglish)
        (guessBrandDomainFromEnglishName rt C brand.brandNameEnglish
          (enterBrand brand.brandName s)).2, y = false) ∧
      (findBrandWebsite rt C brand s).1 =
        finishSearch { initialResult brand with
          searchQueries := generateSearchQueries brand.brandName brand.brandNameEnglish } ∧
      searchCalls (findBrandWebsite rt C brand s).2.events =
        searchCalls s.events ++
          generateSearchQueries brand.brandName brand.brandNameEnglish) := by
  have hbase : searchCalls (guessBrandDomainFromEnglishName rt C brand.brandNameEnglish
      (enterBrand brand.brandName s)).2.events = searchCalls s.events := by
    rw [guessBrandDomain_searchCalls]
    simp [enterBrand, searchCalls]
  rw [findBrandWebsite_searched rt C brand s hmiss hguess]
  rcases searchLoop_spec rt C brand.brandName brand.brandNameEnglish
      (generateSearchQueries brand.brandName brand.brandNameEnglish) (initialResult brand)
      (guessBrandDomainFromEnglishName rt C brand.brandNameEnglish
        (enterBrand brand.brandName s)).2 with
    ⟨k, items, h1, h2, _, h4, h5, h6⟩ | ⟨h1, h2, h3⟩
  · refine Or.inl ⟨k, items, h1, h2, h4, ?_, ?_⟩
    · simp only [h5]
      simp [initialResult]
    · simp only [h6, hbase]
  · refine Or.inr ⟨h1, ?_, ?_⟩
    · simp only [h2]
      simp [initialResult]
    · simp only [h3, hbase]

theorem uniqueInOrder_nodup (l : List Str) : (uniqueInOrder l).Nodup := by
  induction l with
  | nil => simp [uniqueInOrder]
  | cons x xs ih =>
    simp only [uniqueInOrder, List.nodup_cons, List.mem_filter, decide_eq_true_eq]
    exact ⟨fun h => h.2 rfl, ih.sublist (List.filter_sublist _)⟩

theorem uniqueInOrder_sublist (l : List Str) : List.Sublist (uniqueInOrder l) l := by
  induction l with
  | nil => simp [uniqueInOrder]
  | cons x xs ih =>
    simp only [uniqueInOrder]
    exact List.Sublist.cons₂ x ((List.filter_sublist _).trans ih)

theorem uniqueInOrder_ne_nil (l : List Str) (h : l ≠ []) : uniqueInOrder l ≠ [] := by
  cases l with
  | nil => exact absurd rfl h
  | cons x xs => simp [uniqueInOrder]

theorem extractOfficialWebsites_length_le (rt : Platform) (items : List SearchItem)
    (brandName : Str) (brandNameEnglish : Option Str) :
    (extractOfficialWebsites rt items brandName brandNameEnglish).length ≤ 3 := by
  simp only [extractOfficialWebsites, List.length_map, List.length_take]
  omega

/-! ## The websites list and the recorded queries -/

theorem searchLoop_outcomes {ω : Type} (rt : Platform) (C : Collab ω) (brandName : Str)
    (brandNameEnglish : Option Str) :
    ∀ (queries : List Str) (result : BrandResult) (s : Collector ω),
      (∃ k items,
        (searchOutcomes C queries s)[k]? = some (Except.ok items) ∧
        extractOfficialWebsites rt items brandName brandNameEnglish ≠ [] ∧
        (searchLoop rt C brandName brandNameEnglish queries result s).1 =
          { result with
            searchQueries := result.searchQueries ++ queries.take (k + 1),
            websites := result.websites ++
              extractOfficialWebsites rt items brandName brandNameEnglish,
            searchMethod :=
              match result.searchMethod with
              | some m => some m
              | none => some SearchMethod.naverSearch }) ∨
      (searchLoop rt C brandName brandNameEnglish queries result s).1 =
        { result with searchQueries := result.searchQueries ++ queries } := by
  intro queries
  induction queries with
  | nil =>
    intro result s
    exact Or.inr (by simp [searchLoop])
  | cons q rest ih =>
    intro result s
    rcases hsn : searchNaver C q 20 s with ⟨r, s1⟩
    have hs1 : (searchNaver C q 20 s).2 = s1 := by rw [hsn]
    have hr : (searchNaver C q 20 s).1 = r := by rw [hsn]
    have hnext : searchLoop rt C brandName brandNameEnglish (q :: rest) result s =
          searchLoop rt C brandName brandNameEnglish rest
            { result with searchQueries := result.searchQueries ++ [q] } s1 →
        (∃ k items,
          (searchOutcomes C (q :: rest) s)[k]? = some (Except.ok items) ∧
          extractOfficialWebsites rt items brandName brandNameEnglish ≠ [] ∧
          (searchLoop rt C brandName brandNameEnglish (q :: rest) result s).1 =
            { result with
              searchQueries := result.searchQueries ++ (q :: rest).take (k + 1),
              websites := result.websites ++
                extractOfficialWebsites rt items brandName brandNameEnglish,
              searchMethod :=
                match result.searchMethod with
                | some m => some m
                | none => some SearchMethod.naverSearch }) ∨
        (searchLoop rt C brandName brandNameEnglish (q :: rest) result s).1 =
          { result with searchQueries := result.searchQueries ++ (q :: rest) } := by
      intro hloop
      rw [hloop]
      rcases ih { result with searchQueries := result.searchQueries ++ [q] } s1 with
        ⟨k, items, h1, h2, h3⟩ | h
      · refine Or.inl ⟨k + 1, items, ?_, h2, ?_⟩
        · simpa [searchOutcomes, hs1] using h1
        · rw [h3]; simp
      · exact Or.inr (by rw [h]; simp)
    cases r with
    | error m => exact hnext (searchLoop_cons_error rt C _ _ q rest result s s1 m hsn)
    | ok items =>
      by_cases hnone : extractOfficialWebsites rt items brandName brandNameEnglish = []
      · exact hnext (searchLoop_cons_empty rt C _ _ q rest result s s1 items hsn hnone)
      · rw [searchLoop_cons_found rt C _ _ q rest result s s1 items hsn hnone]
        exact Or.inl ⟨0, items, by simp [searchOutcomes, hr], hnone, by simp⟩

theorem uniqueInOrder_head (l : List Str) : (uniqueInOrder l).head? = l.head? := by
  cases l with
  | nil => rfl
  | cons x xs => rfl

theorem findBrandWebsite_found_items {ω : Type} (rt : Platform) (C : Collab ω) (brand : Brand)
    (s : Collector ω) (hmiss : cacheGet s.cache (rt.toLowerCase brand.brandName) = none)
    (hmethod : (findBrandWebsite rt C brand s).1.searchMethod = some SearchMethod.naverSearch) :
    ∃ k items,
      (searchOutcomes C (generateSearchQueries brand.brandName brand.brandNameEnglish)
        (guessBrandDomainFromEnglishName rt C brand.brandNameEnglish
          (enterBrand brand.brandName s)).2)[k]? = some (Except.ok items) ∧
      extractOfficialWebsites rt items brand.brandName brand.brandNameEnglish ≠ [] ∧
      (findBrandWebsite rt C brand s).1 =
        finishSearch { initialResult brand with
          searchQueries :=
            (generateSearchQueries brand.brandName brand.brandNameEnglish).take (k + 1),
          websites := extractOfficialWebsites rt items brand.brandName brand.brandNameEnglish,
          searchMethod := some SearchMethod.naverSearch } := by
  cases hg : (guessBrandDomainFromEnglishName rt C brand.brandNameEnglish
      (enterBrand brand.brandName s)).1 with
  | some g =>
    rw [findBrandWebsite_guessed rt C brand s g hmiss hg] at hmethod
    simp [guessedResult] at hmethod
  | none =>
    rw [findBrandWebsite_searched rt C brand s hmiss hg] at hmethod ⊢
    rcases searchLoop_outcomes rt C brand.brandName brand.brandNameEnglish
        (generateSearchQueries brand.brandName brand.brandNameEnglish) (initialResult brand)
        (guessBrandDomainFromEnglishName rt C brand.brandNameEnglish
          (enterBrand brand.brandName s)).2 with
      ⟨k, items, h1, h2, h3⟩ | h
    · refine ⟨k, items, h1, h2, ?_⟩
      simp only [h3]
      simp [initialResult]
    · simp only [h] at hmethod
      simp [finishSearch, initialResult] at hmethod

/-- C21: in every run (the cache starts empty and only `findBrandWebsite` writes to it, so every
cached result has the shape below, which each call preserves), the `websites` list of the result
of `findBrandWebsite` contains no address twice and has at most 3 entries.  A result found by
search on a cache miss is tied to the search call of its last recorded query: that call returned
items, and `websites` is the list that `extractOfficialWebsites` gives for exactly those items, in
its ranking order, each address at its first occurrence; the primary website is the first entry
of that ranked list. -/
theorem websites_distinct_at_most_three {ω : Type} (rt : Platform) (C : Collab ω)
    (brand : Brand) (s : Collector ω) (hcache : ∀ e ∈ s.cache, WebsitesShaped e.2) :
    (∀ e ∈ (findBrandWebsite rt C brand s).2.cache, WebsitesShaped e.2) ∧
    (findBrandWebsite rt C brand s).1.websites.Nodup ∧
    (findBrandWebsite rt C brand s).1.websites.length ≤ 3 ∧
    (cacheGet s.cache (rt.toLowerCase brand.brandName) = none →
      (findBrandWebsite rt C brand s).1.searchMethod = some SearchMethod.naverSearch →
      ∃ k items,
        (searchOutcomes C (generateSearchQueries brand.brandName brand.brandNameEnglish)
          (guessBrandDomainFromEnglishName rt C brand.brandNameEnglish
            (enterBrand brand.brandName s)).2)[k]? = some (Except.ok items) ∧
        (findBrandWebsite rt C brand s).1.searchQueries =
          (generateSearchQueries brand.brandName brand.brandNameEnglish).take (k + 1) ∧
        (findBrandWebsite rt C brand s).1.websites =
          uniqueInOrder (extractOfficialWebsites rt items brand.brandName
            brand.brandNameEnglish) ∧
        List.Sublist (findBrandWebsite rt C brand s).1.websites
          (extractOfficialWebsites rt items brand.brandName brand.brandNameEnglish) ∧
        (findBrandWebsite rt C brand s).1.primaryWebsite =
          (extractOfficialWebsites rt items brand.brandName brand.brandNameEnglish).head?) := by
  have hmissed : cacheGet s.cache (rt.toLowerCase brand.brandName) = none →
      WebsitesShaped (findBrandWebsite rt C brand s).1 := by
    intro hc
    cases hg : (guessBrandDomainFromEnglishName rt C brand.brandNameEnglish
        (enterBrand brand.brandName s)).1 with
    | some g =>
      rw [findBrandWebsite_guessed rt C brand s g hc hg]
      exact ⟨by simp [guessedResult, initialResult], by simp [guessedResult, initialResult]⟩
    | none =>
      rcases findBrandWebsite_search_cases rt C brand s hc hg with
        ⟨k, items, _, _, _, h, _⟩ | ⟨_, h, _⟩
      · rw [h]
        have hsub := uniqueInOrder_sublist
          (extractOfficialWebsites rt items brand.brandName brand.brandNameEnglish)
        have hlen := extractOfficialWebsites_length_le rt items brand.brandName
          brand.brandNameEnglish
        exact ⟨uniqueInOrder_nodup _, Nat.le_trans hsub.length_le hlen⟩
      · rw [h]
        exact ⟨by simp [finishSearch, initialResult, uniqueInOrder],
          by simp [finishSearch, initialResult, uniqueInOrder]⟩
  have hshaped : WebsitesShaped (findBrandWebsite rt C brand s).1 := by
    cases hc : cacheGet s.cache (rt.toLowerCase brand.brandName) with
    | some cached =>
      rw [findBrandWebsite_cached rt C brand s cached hc]
      obtain ⟨e, he, hec⟩ := mem_of_cacheGet _ _ _ hc
      have hs := hcache e he
      rw [hec] at hs
      exact hs
    | none => exact hmissed hc
  refine ⟨fun e he => ?_, hshaped.1, hshaped.2, fun hc hm => ?_⟩
  · rcases findBrandWebsite_cache_entries rt C brand s e he with h | h
    · rw [h]
      exact hshaped
    · exact hcache e h
  · obtain ⟨k, items, h1, h2, h3⟩ := findBrandWebsite_found_items rt C brand s hc hm
    have hpos : (uniqueInOrder (extractOfficialWebsites rt items brand.brandName
        brand.brandNameEnglish)).length > 0 :=
      List.length_pos.2 (uniqueInOrder_ne_nil _ h2)
    refine ⟨k, items, h1, ?_, ?_, ?_, ?_⟩
    · rw [h3]
      rfl
    · rw [h3]
      rfl
    · rw [h3]
      exact uniqueInOrder_sublist _
    · rw [h3]
      simp only [finishSearch]
      rw [if_pos hpos]
      exact uniqueInOrder_head _

/-- An instance: from the fresh collector the brand testbrand gets one website. -/
theorem websites_distinct_at_most_three_witness :
    (∀ e ∈ (Collector.fresh ()).cache, WebsitesShaped e.2) ∧
    (findBrandWebsite asciiPlatform stubSearchable (plainBrand "testbrand".toList)
        (Collector.fresh ())).1.websites.length ≤ 3 :=
  ⟨fun e he => absurd he (List.not_mem_nil e),
   (websites_distinct_at_most_three asciiPlatform stubSearchable (plainBrand "testbrand".toList)
      (Collector.fresh ()) (fun e he => absurd he (List.not_mem_nil e))).2.2.1⟩

/-- C22: for every brand that reaches the search stage (cache miss, no guessed domain), the
recorded `searchQueries` is a prefix of `generateSearchQueries(brandName, brandNameEnglish)`, and
the queries handed to `searchNaver` during the call are exactly the recorded ones, in order; if
the brand is found, the recorded queries are the generated ones up to and including the first
query whose search call succeeds with at least one extracted address, so no query after that one
is sent; if it is not found, every generated query is recorded and none of them succeeds with an
extracted address. -/
theorem recorded_queries_stop_at_first_success {ω : Type} (rt : Platform) (C : Collab ω)
    (brand : Brand) (s : Collector ω)
    (hmiss : cacheGet s.cache (rt.toLowerCase brand.brandName) = none)
    (hguess : (guessBrandDomainFromEnglishName rt C brand.brandNameEnglish
      (enterBrand brand.brandName s)).1 = none) :
    (findBrandWebsite rt C brand s).1.searchQueries <+:
      generateSearchQueries brand.brandName brand.brandNameEnglish ∧
    searchCalls (findBrandWebsite rt C brand s).2.events =
      searchCalls s.events ++ (findBrandWebsite rt C brand s).1.searchQueries ∧
    ((findBrandWebsite rt C brand s).1.status = Status.found →
      ∃ k,
        (queryYieldsSeq rt C brand.brandName brand.brandNameEnglish
          (generateSearchQueries brand.brandName brand.brandNameEnglish)
          (guessBrandDomainFromEnglishName rt C brand.brandNameEnglish
            (enterBrand brand.brandName s)).2)[k]? = some true ∧
        (∀ j, j < k →
          (queryYieldsSeq rt C brand.brandName brand.brandNameEnglish
            (generateSearchQueries brand.brandName brand.brandNameEnglish)
            (guessBrandDomainFromEnglishName rt C brand.brandNameEnglish
              (enterBrand brand.brandName s)).2)[j]? = some false) ∧
        (findBrandWebsite rt C brand s).1.searchQueries =
          (generateSearchQueries brand.brandName brand.brandNameEnglish).take (k + 1)) ∧
    ((findBrandWebsite rt C brand s).1.status ≠ Status.found →
      (findBrandWebsite rt C brand s).1.searchQueries =
        generateSearchQueries brand.brandName brand.brandNameEnglish ∧
      ∀ y ∈ queryYieldsSeq rt C brand.brandName brand.brandNameEnglish
        (generateSearchQueries brand.brandName brand.brandNameEnglish)
        (guessBrandDomainFromEnglishName rt C brand.brandNameEnglish
          (enterBrand brand.brandName s)).2, y = false) := by
  rcases findBrandWebsite_search_cases rt C brand s hmiss hguess with
    ⟨k, items, h1, h2, h3, h4, h5⟩ | ⟨h1, h2, h3⟩
  · have hq : (findBrandWebsite rt C brand s).1.searchQueries =
        (generateSearchQueries brand.brandName brand.brandNameEnglish).take (k + 1) := by
      rw [h4]; rfl
    have hfound : (findBrandWebsite rt C brand s).1.status = Status.found := by
      rw [h4]
      have hne := uniqueInOrder_ne_nil _ h3
      simp [finishSearch, List.length_pos, hne]
    refine ⟨by rw [hq]; exact List.take_prefix _ _, by rw [h5, hq], fun _ => ⟨k, h1, h2, hq⟩,
      fun hn => absurd hfound hn⟩
  · have hq : (findBrandWebsite rt C brand s).1.searchQueries =
        generateSearchQueries brand.brandName brand.brandNameEnglish := by
      rw [h2]; rfl
    have hnot : (findBrandWebsite rt C brand s).1.status ≠ Status.found := by
      rw [h2]
      simp [finishSearch, initialResult, uniqueInOrder]
    refine ⟨by rw [hq], by rw [h3, hq], fun hf => absurd hf hnot, fun _ => ⟨hq, h1⟩⟩

/-- An instance: the brand testbrand is found by its first query, the only one recorded. -/
theorem recorded_queries_stop_at_first_success_witness :
    (cacheGet (Collector.fresh ()).cache
        (asciiPlatform.toLowerCase (plainBrand "testbrand".toList).brandName) = none ∧
      (findBrandWebsite asciiPlatform stubSearchable (plainBrand "testbrand".toList)
        (Collector.fresh ())).1.searchQueries = ["testbrand 공식홈페이지".toList]) ∧
    (findBrandWebsite asciiPlatform stubSearchable (plainBrand "testbrand".toList)
        (Collector.fresh ())).1.searchQueries <+:
      generateSearchQueries (plainBrand "testbrand".toList).brandName
        (plainBrand "testbrand".toList).brandNameEnglish :=
  ⟨⟨by decide, by decide⟩,
   (recorded_queries_stop_at_first_success asciiPlatform stubSearchable
      (plainBrand "testbrand".toList) (Collector.fresh ()) (by decide) (by decide)).1⟩

/-! ## Query generation and the pattern list -/

/-- C23: `generateSearchQueries(name, eng)` returns exactly the six queries name + 공식홈페이지,
name + 브랜드 홈페이지, eng + 공식홈페이지, eng + brand homepage, name + eng + 홈페이지 and name when
`eng` is present (not absent, not empty) and differs from `name`, and exactly the three queries
name + 공식홈페이지, name + 브랜드 홈페이지 and name otherwise; so the list has length 6 or 3 and
always ends with the bare native name. -/
theorem generateSearchQueries_exact (name : Str) (eng : Option Str) :
    (∀ e, truthy eng = some e → e ≠ name →
      generateSearchQueries name eng =
        [ name ++ " 공식홈페이지".toList, name ++ " 브랜드 홈페이지".toList,
          e ++ " 공식홈페이지".toList, e ++ " brand homepage".toList,
          name ++ " ".toList ++ e ++ " 홈페이지".toList, name ]) ∧
    ((truthy eng = none ∨ truthy eng = some name) →
      generateSearchQueries name eng =
        [ name ++ " 공식홈페이지".toList, name ++ " 브랜드 홈페이지".toList, name ]) ∧
    ((generateSearchQueries name eng).length = 6 ∨
      (generateSearchQueries name eng).length = 3) ∧
    (generateSearchQueries name eng).getLast? = some name := by
  have h6 : ∀ e, truthy eng = some e → e ≠ name →
      generateSearchQueries name eng =
        [ name ++ " 공식홈페이지".toList, name ++ " 브랜드 홈페이지".toList,
          e ++ " 공식홈페이지".toList, e ++ " brand homepage".toList,
          name ++ " ".toList ++ e ++ " 홈페이지".toList, name ] := by
    intro e he hne
    simp [generateSearchQueries, he, hne]
  have h3 : (truthy eng = none ∨ truthy eng = some name) →
      generateSearchQueries name eng =
        [ name ++ " 공식홈페이지".toList, name ++ " 브랜드 홈페이지".toList, name ] := by
    intro h
    rcases h with h | h <;> simp [generateSearchQueries, h]
  refine ⟨h6, h3, ?_, ?_⟩
  · cases ht : truthy eng with
    | none => exact Or.inr (by rw [h3 (Or.inl ht)]; rfl)
    | some e =>
      by_cases hne : e = name
      · exact Or.inr (by rw [h3 (Or.inr (by rw [ht, hne]))]; rfl)
      · exact Or.inl (by rw [h6 e ht hne]; rfl)
  · cases ht : truthy eng with
    | none => rw [h3 (Or.inl ht)]; rfl
    | some e =>
      by_cases hne : e = name
      · rw [h3 (Or.inr (by rw [ht, hne]))]; rfl
      · rw [h6 e ht hne]; rfl

/-- An instance: the six queries of the brand 테스트 with English name test. -/
theorem generateSearchQueries_exact_witness :
    (truthy (some "test".toList) = some "test".toList ∧ "test".toList ≠ "테스트".toList) ∧
    generateSearchQueries "테스트".toList (some "test".toList) =
      [ "테스트 공식홈페이지".toList, "테스트 브랜드 홈페이지".toList, "test 공식홈페이지".toList,
        "test brand homepage".toList, "테스트 test 홈페이지".toList, "테스트".toList ] :=
  ⟨⟨by decide, by decide⟩,
   (generateSearchQueries_exact "테스트".toList (some "test".toList)).1 "test".toList
     (by decide) (by decide)⟩

/-- C24, the code at a failing input: for the English name kream the pattern of rank 4 is
`www.kream.com`; it ends in `.com` (not in `.co.kr` or `.kr`), starts with `www.` and holds the
identifier as a dot-delimited segment, so the formula of the claim gives (100 − 4) + 10 + 0 + 50
= 156; `calculateDomainScore` returns 166, because it gives the 20 points of `.kr` to a domain
that merely contains `.kr` (here in `.kream`).  The rank-0 candidate `kream.co.kr` scores 185. -/
theorem calculateDomainScore_contains_not_ends :
    (domainPatterns asciiPlatform "kream".toList)[4]? = some "www.kream.com".toList ∧
    endsWith "www.kream.com".toList ".co.kr".toList = false ∧
    endsWith "www.kream.com".toList ".kr".toList = false ∧
    endsWith "www.kream.com".toList ".com".toList = true ∧
    startsWith "www.kream.com".toList "www.".toList = true ∧
    includes "www.kream.com".toList ".kream.".toList = true ∧
    includes "www.kream.com".toList ".kr".toList = true ∧
    calculateDomainScore asciiPlatform "www.kream.com".toList "kream".toList 4 = 166 ∧
    calculateDomainScore asciiPlatform "www.kream.com".toList "kream".toList 4 ≠
      (100 - 4) + 10 + 0 + 50 ∧
    calculateDomainScore asciiPlatform "kream.co.kr".toList "kream".toList 0 = 185 := by
  decide

theorem not_space_of_lowerAlnum (c : Char) (h : isLowerAlnum c = true) :
    isJsSpace c = false := by
  unfold isLowerAlnum at h
  unfold isJsSpace
  simp only [Bool.or_eq_true, Bool.and_eq_true, decide_eq_true_eq, beq_iff_eq,
    Bool.or_eq_false_iff, Bool.and_eq_false_imp, decide_eq_false_iff_not, beq_eq_false_iff_ne,
    ne_eq] at h ⊢
  omega

theorem removeWhitespace_stripNonAlnum (x : Str) :
    removeWhitespace (stripNonAlnum x) = stripNonAlnum x := by
  unfold removeWhitespace stripNonAlnum
  rw [List.filter_filter]
  apply List.filter_congr
  intro c _
  cases h : isLowerAlnum c with
  | false => simp
  | true => simp [not_space_of_lowerAlnum c h]

/-- C25: if the English name is absent (or empty), or lower-casing it and removing every
character outside `[a-z0-9]` leaves fewer than 2 characters, `guessBrandDomainFromEnglishName`
returns no candidate and leaves the state as it was: no domain is probed. -/
theorem guess_fails_closed {ω : Type} (rt : Platform) (C : Collab ω) (eng : Option Str)
    (s : Collector ω)
    (h : truthy eng = none ∨
      ∃ e, eng = some e ∧ (stripNonAlnum (rt.toLowerCase e)).length < 2) :
    guessBrandDomainFromEnglishName rt C eng s = (none, s) := by
  unfold guessBrandDomainFromEnglishName
  cases ht : truthy eng with
  | none => rfl
  | some name =>
    rcases h with h | ⟨e, he, hlen⟩
    · rw [ht] at h
      exact absurd h (by simp)
    · have hname : name = e := by
        rw [he] at ht
        cases e with
        | nil => simp [truthy] at ht
        | cons c cs =>
          simp only [truthy, Option.some.injEq] at ht
          exact ht.symm
      simp only
      rw [if_pos]
      rw [hname, cleanNameOf, removeWhitespace_stripNonAlnum]
      exact hlen

/-- An instance: for the English name `A!` (one character left) nothing is probed. -/
theorem guess_fails_closed_witness :
    (stripNonAlnum (asciiPlatform.toLowerCase "A!".toList)).length < 2 ∧
    guessBrandDomainFromEnglishName asciiPlatform stubTestbrand (some "A!".toList)
      (Collector.fresh ()) = (none, Collector.fresh ()) :=
  ⟨by decide,
   guess_fails_closed asciiPlatform stubTestbrand (some "A!".toList) (Collector.fresh ())
     (Or.inr ⟨"A!".toList, rfl, by decide⟩)⟩

/-- C26 fails as stated: for the identifier abc the candidate `abcshop.co.kr`, which ends in
`.co.kr`, has rank 7, and the candidate `abc.com`, which ends in `.com`, has the smaller
rank 3. -/
theorem storefront_co_kr_after_com :
    (domainPatterns asciiPlatform "abc".toList)[7]? = some "abcshop.co.kr".toList ∧
    endsWith "abcshop.co.kr".toList ".co.kr".toList = true ∧
    (domainPatterns asciiPlatform "abc".toList)[3]? = some "abc.com".toList ∧
    endsWith "abc.com".toList ".com".toList = true := by
  decide

/-- C26 (amended): in the ordered pattern list generated for any English identifier, the three
country-specific candidates name.co.kr, www.name.co.kr and name.kr come first (ranks 0 to 2),
before the generic name.com and www.name.com (ranks 3 and 4); the later groups are not ordered by
country: the storefront candidates nameshop.co.kr and namestore.co.kr have ranks 7 and 8, after
shop.name.com and store.name.com (ranks 5 and 6), name.net and namekorea.com have ranks 9 and 10,
and name.co.kr is repeated at rank 11. -/
theorem pattern_order (rt : Platform) (eng : Str) :
    (domainPatterns rt eng).take 12 =
      [ cleanNameOf rt eng ++ ".co.kr".toList,
        "www.".toList ++ cleanNameOf rt eng ++ ".co.kr".toList,
        cleanNameOf rt eng ++ ".kr".toList,
        cleanNameOf rt eng ++ ".com".toList,
        "www.".toList ++ cleanNameOf rt eng ++ ".com".toList,
        "shop.".toList ++ cleanNameOf rt eng ++ ".com".toList,
        "store.".toList ++ cleanNameOf rt eng ++ ".com".toList,
        cleanNameOf rt eng ++ "shop.co.kr".toList,
        cleanNameOf rt eng ++ "store.co.kr".toList,
        cleanNameOf rt eng ++ ".net".toList,
        cleanNameOf rt eng ++ "korea.com".toList,
        cleanNameOf rt eng ++ ".co.kr".toList ] ∧
    (∀ i, i < 3 → ∃ d, (domainPatterns rt eng)[i]? = some d ∧
      (".co.kr".toList <:+ d ∨ ".kr".toList <:+ d)) ∧
    (∀ i, 3 ≤ i → i < 7 → ∃ d, (domainPatterns rt eng)[i]? = some d ∧ ".com".toList <:+ d) ∧
    (∀ i, 7 ≤ i → i < 9 → ∃ d, (domainPatterns rt eng)[i]? = some d ∧
      ".co.kr".toList <:+ d) := by
  refine ⟨rfl, ?_, ?_, ?_⟩
  · intro i hi
    have hcases : i = 0 ∨ i = 1 ∨ i = 2 := by omega
    rcases hcases with h | h | h <;> subst h
    · exact ⟨_, rfl, Or.inl (List.suffix_append _ _)⟩
    · exact ⟨_, rfl, Or.inl (List.suffix_append _ _)⟩
    · exact ⟨_, rfl, Or.inr (List.suffix_append _ _)⟩
  · intro i h3 h7
    have hcases : i = 3 ∨ i = 4 ∨ i = 5 ∨ i = 6 := by omega
    rcases hcases with h | h | h | h <;> subst h <;>
      exact ⟨_, rfl, List.suffix_append _ _⟩
  · intro i h7 h9
    have hcases : i = 7 ∨ i = 8 := by omega
    rcases hcases with h | h <;> subst h
    · exact ⟨cleanNameOf rt eng ++ "shop.co.kr".toList, rfl,
        ⟨cleanNameOf rt eng ++ "shop".toList, by simp⟩⟩
    · exact ⟨cleanNameOf rt eng ++ "store.co.kr".toList, rfl,
        ⟨cleanNameOf rt eng ++ "store".toList, by simp⟩⟩

/-- An instance: the rank-1 candidate for abc ends in `.co.kr` or `.kr`. -/
theorem pattern_order_witness :
    (1 < 3) ∧
    ∃ d, (domainPatterns asciiPlatform "abc".toList)[1]? = some d ∧
      (".co.kr".toList <:+ d ∨ ".kr".toList <:+ d) :=
  ⟨by decide, (pattern_order asciiPlatform "abc".toList).2.1 1 (by decide)⟩

/-! ## The domain prober -/

/-- C27: for every domain and every behaviour of the HTTP collaborator, `checkDomainExists`
requests `https://domain` first.  If that answer qualifies (status in 200..399, or 401 or 403) the
site is reported as existing and `http://domain` is never requested.  Otherwise (any other status,
time-out, connection failure) `http://domain` is requested next, the site is reported as existing
exactly when that answer qualifies, and when it does not the result is "does not exist".  So
`exists` is true iff one of the answers received qualifies. -/
theorem checkDomainExists_https_then_http {ω : Type} (head : ω → Str → HeadOutcome × ω)
    (domain : Str) (w : ω) :
    ((head w ("https://".toList ++ domain)).1.qualifies = true →
      (checkDomainExists head domain w).1.isFound = true ∧
      (checkDomainExists head domain w).2.1 = ["https://".toList ++ domain] ∧
      (checkDomainExists head domain w).2.2 = (head w ("https://".toList ++ domain)).2) ∧
    ((head w ("https://".toList ++ domain)).1.qualifies = false →
      (checkDomainExists head domain w).2.1 =
        ["https://".toList ++ domain, "http://".toList ++ domain] ∧
      (checkDomainExists head domain w).2.2 =
        (head (head w ("https://".toList ++ domain)).2 ("http://".toList ++ domain)).2 ∧
      (checkDomainExists head domain w).1.isFound =
        (head (head w ("https://".toList ++ domain)).2
          ("http://".toList ++ domain)).1.qualifies ∧
      ((head (head w ("https://".toList ++ domain)).2
          ("http://".toList ++ domain)).1.qualifies = false →
        (checkDomainExists head domain w).1 = ProbeOutcome.absent)) ∧
    ((checkDomainExists head domain w).1.isFound = true ↔
      ((head w ("https://".toList ++ domain)).1.qualifies = true ∨
        (head (head w ("https://".toList ++ domain)).2
          ("http://".toList ++ domain)).1.qualifies = true)) := by
  have hstep : ∀ (protocol : Str) (rest : List Str) (w0 : ω),
      ((head w0 (protocol ++ domain)).1.qualifies = true →
        (checkDomainLoop head domain (protocol :: rest) w0).1.isFound = true ∧
        (checkDomainLoop head domain (protocol :: rest) w0).2.1 = [protocol ++ domain] ∧
        (checkDomainLoop head domain (protocol :: rest) w0).2.2 =
          (head w0 (protocol ++ domain)).2) ∧
      ((head w0 (protocol ++ domain)).1.qualifies = false →
        checkDomainLoop head domain (protocol :: rest) w0 =
          ((checkDomainLoop head domain rest (head w0 (protocol ++ domain)).2).1,
            (protocol ++ domain) ::
              (checkDomainLoop head domain rest (head w0 (protocol ++ domain)).2).2.1,
            (checkDomainLoop head domain rest (head w0 (protocol ++ domain)).2).2.2)) := by
    intro protocol rest w0
    cases ho : (head w0 (protocol ++ domain)).1 with
    | failed =>
      refine ⟨fun h => by simp [HeadOutcome.qualifies] at h, fun _ => ?_⟩
      simp only [checkDomainLoop, ho]
    | response status responseUrl =>
      by_cases h1 : 200 ≤ status ∧ status < 400
      · have h0 : 200 ≤ status ∧ status < 500 := ⟨h1.1, by omega⟩
        refine ⟨fun _ => ?_, fun h => ?_⟩
        · simp only [checkDomainLoop, ho, if_pos h0, if_pos h1, ProbeOutcome.isFound]
          exact ⟨trivial, trivial, trivial⟩
        · simp [HeadOutcome.qualifies, h1] at h
      · by_cases h2 : status = 401 ∨ status = 403
        · have h0 : 200 ≤ status ∧ status < 500 := by omega
          refine ⟨fun _ => ?_, fun h => ?_⟩
          · simp only [checkDomainLoop, ho, if_pos h0, if_neg h1, if_pos h2,
              ProbeOutcome.isFound]
            exact ⟨trivial, trivial, trivial⟩
          · simp [HeadOutcome.qualifies, h2] at h
        · refine ⟨fun h => ?_, fun _ => ?_⟩
          · simp only [HeadOutcome.qualifies, decide_eq_true_eq] at h
            rcases h with h | h
            · exact absurd h h1
            · exact absurd h h2
          · by_cases h0 : 200 ≤ status ∧ status < 500
            · simp only [checkDomainLoop, ho, if_pos h0, if_neg h1, if_neg h2]
            · simp only [checkDomainLoop, ho, if_neg h0]
  have hsecond : ∀ w0 : ω,
      (checkDomainLoop head domain ["http://".toList] w0).1.isFound =
          (head w0 ("http://".toList ++ domain)).1.qualifies ∧
      (checkDomainLoop head domain ["http://".toList] w0).2.1 = ["http://".toList ++ domain] ∧
      (checkDomainLoop head domain ["http://".toList] w0).2.2 =
          (head w0 ("http://".toList ++ domain)).2 ∧
      ((head w0 ("http://".toList ++ domain)).1.qualifies = false →
        (checkDomainLoop head domain ["http://".toList] w0).1 = ProbeOutcome.absent) := by
    intro w0
    obtain ⟨hq, hn⟩ := hstep "http://".toList [] w0
    cases hv : (head w0 ("http://".toList ++ domain)).1.qualifies with
    | true =>
      obtain ⟨a, b, c⟩ := hq hv
      exact ⟨a, b, c, fun h => by simp at h⟩
    | false =>
      rw [hn hv]
      exact ⟨rfl, rfl, rfl, fun _ => rfl⟩
  obtain ⟨hq, hn⟩ := hstep "https://".toList ["http://".toList] w
  obtain ⟨s1, s2, s3, s4⟩ := hsecond (head w ("https://".toList ++ domain)).2
  have hfirst : ∀ h : (head w ("https://".toList ++ domain)).1.qualifies = false,
      checkDomainExists head domain w =
        ((checkDomainLoop head domain ["http://".toList]
            (head w ("https://".toList ++ domain)).2).1,
          ("https://".toList ++ domain) ::
            (checkDomainLoop head domain ["http://".toList]
              (head w ("https://".toList ++ domain)).2).2.1,
          (checkDomainLoop head domain ["http://".toList]
            (head w ("https://".toList ++ domain)).2).2.2) := fun h => hn h
  refine ⟨fun h => hq h, fun h => ?_, ?_⟩
  · rw [hfirst h]
    exact ⟨by rw [s2], s3, s1, s4⟩
  · cases hv : (head w ("https://".toList ++ domain)).1.qualifies with
    | true => exact ⟨fun _ => Or.inl rfl, fun _ => (hq hv).1⟩
    | false =>
      rw [hfirst hv]
      simp only [s1]
      exact ⟨fun h => Or.inr h, fun h => h.resolve_left (by simp)⟩

/-- An instance: `https://` fails and `http://` answers 403, so both addresses are requested, in
that order, and the site is reported as existing. -/
theorem checkDomainExists_https_then_http_witness :
    (headHttpOnly () ("https://".toList ++ "abc.kr".toList)).1.qualifies = false ∧
    (checkDomainExists headHttpOnly "abc.kr".toList ()).2.1 =
      ["https://abc.kr".toList, "http://abc.kr".toList] ∧
    (checkDomainExists headHttpOnly "abc.kr".toList ()).1.isFound = true :=
  ⟨by decide,
   ((checkDomainExists_https_then_http headHttpOnly "abc.kr".toList ()).2.1 (by decide)).1,
   ((checkDomainExists_https_then_http headHttpOnly "abc.kr".toList ()).2.1
      (by decide)).2.2.1.trans (by decide)⟩

/-! ## Batches -/

theorem chunkArrayLoop_batches {α : Type} (array : List α) (chunkSize : Nat)
    (hsize : 1 ≤ chunkSize) :
    ∀ (fuel i : Nat) (chunks : List (List α)), array.length - i ≤ fuel →
      ∃ rest, chunkArrayLoop array chunkSize fuel i chunks = some (chunks ++ rest) ∧
        rest.flatten = array.drop i ∧
        (∀ b ∈ rest, b ≠ [] ∧ b.length ≤ chunkSize) ∧
        (∀ b ∈ rest.dropLast, b.length = chunkSize) ∧
        rest.length = (array.length - i + chunkSize - 1) / chunkSize := by
  intro fuel
  induction fuel with
  | zero =>
    intro i chunks hfuel
    have hi : ¬ i < array.length := by omega
    refine ⟨[], by simp [chunkArrayLoop, hi], ?_, by simp, by simp, ?_⟩
    · rw [List.drop_eq_nil_of_le (by omega)]; rfl
    · have h0 : array.length - i + chunkSize - 1 = chunkSize - 1 := by omega
      rw [h0, Nat.div_eq_of_lt (by omega)]; rfl
  | succ fuel ih =>
    intro i chunks hfuel
    by_cases hi : i < array.length
    · obtain ⟨rest, h1, h2, h3, h4, h5⟩ := ih (i + chunkSize)
        (chunks ++ [(array.drop i).take chunkSize]) (by omega)
      have hlen : ((array.drop i).take chunkSize).length = min chunkSize (array.length - i) := by
        simp
      refine ⟨(array.drop i).take chunkSize :: rest, ?_, ?_, ?_, ?_, ?_⟩
      · simp only [chunkArrayLoop, if_pos hi, h1, List.append_assoc, List.singleton_append]
      · rw [List.flatten_cons, h2, ← List.drop_drop, List.take_append_drop]
      · intro b hb
        rcases List.mem_cons.1 hb with hb | hb
        · subst hb
          refine ⟨?_, by rw [hlen]; exact Nat.min_le_left _ _⟩
          intro hnil
          have := congrArg List.length hnil
          rw [hlen] at this
          simp only [List.length_nil] at this
          omega
        · exact h3 b hb
      · intro b hb
        cases rest with
        | nil => simp at hb
        | cons r rs =>
          rw [List.dropLast_cons₂] at hb
          rcases List.mem_cons.1 hb with hb | hb
          · subst hb
            have hpos : 1 ≤ (array.length - (i + chunkSize) + chunkSize - 1) / chunkSize := by
              rw [← h5]; simp
            have hgt : i + chunkSize < array.length := by
              by_contra hcon
              have h0 : array.length - (i + chunkSize) + chunkSize - 1 = chunkSize - 1 := by
                omega
              rw [h0, Nat.div_eq_of_lt (by omega)] at hpos
              omega
            rw [hlen]
            omega
          · exact h4 b hb
      · rw [List.length_cons, h5]
        by_cases hbig : chunkSize ≤ array.length - i
        · have h0 : array.length - i + chunkSize - 1 =
              (array.length - (i + chunkSize) + chunkSize - 1) + chunkSize := by omega
          rw [h0, Nat.add_div_right _ (by omega)]
        · have h0 : array.length - (i + chunkSize) + chunkSize - 1 = chunkSize - 1 := by omega
          rw [h0, Nat.div_eq_of_lt (by omega)]
          symm
          apply Nat.div_eq_of_lt_le
          · omega
          · omega
    · refine ⟨[], by simp [chunkArrayLoop, hi], ?_, by simp, by simp, ?_⟩
      · rw [List.drop_eq_nil_of_le (by omega)]; rfl
      · have h0 : array.length - i + chunkSize - 1 = chunkSize - 1 := by omega
        rw [h0, Nat.div_eq_of_lt (by omega)]; rfl

/-- C28: for every list and every chunk size of at least 1, `chunkArray` ends and returns batches
whose concatenation is the input list in order; every batch is non-empty and has at most
`chunkSize` elements, every batch but the last has exactly `chunkSize` elements, and the number of
batches is the length divided by `chunkSize`, rounded up. -/
theorem chunkArray_batches {α : Type} (array : List α) (chunkSize : Nat)
    (hsize : 1 ≤ chunkSize) :
    ∃ batches, chunkArray array chunkSize = some batches ∧
      batches.flatten = array ∧
      (∀ b ∈ batches, b ≠ [] ∧ b.length ≤ chunkSize) ∧
      (∀ b ∈ batches.dropLast, b.length = chunkSize) ∧
      batches.length = (array.length + chunkSize - 1) / chunkSize ∧
      batches.length = array.length ⌈/⌉ chunkSize := by
  obtain ⟨rest, h1, h2, h3, h4, h5⟩ :=
    chunkArrayLoop_batches array chunkSize hsize array.length 0 [] (by omega)
  refine ⟨rest, by simpa [chunkArray] using h1, by simpa using h2, h3, h4, by simpa using h5, ?_⟩
  rw [Nat.ceilDiv_eq_add_pred_div]
  simpa using h5

/-- An instance: five elements in batches of two. -/
theorem chunkArray_batches_witness :
    (1 ≤ 2) ∧
    ∃ batches, chunkArray [1, 2, 3, 4, 5] 2 = some batches ∧
      batches.flatten = [1, 2, 3, 4, 5] ∧
      (∀ b ∈ batches, b ≠ [] ∧ b.length ≤ 2) ∧
      (∀ b ∈ batches.dropLast, b.length = 2) ∧
      batches.length = (([1, 2, 3, 4, 5] : List Nat).length + 2 - 1) / 2 ∧
      batches.length = ([1, 2, 3, 4, 5] : List Nat).length ⌈/⌉ 2 :=
  ⟨by decide, chunkArray_batches [1, 2, 3, 4, 5] 2 (by decide)⟩

/-! ## The request counter -/

theorem searchNaver_counts {ω : Type} (C : Collab ω) (query : Str) (display : Nat)
    (s : Collector ω) :
    (searchNaver C query display s).2.requestCount = s.requestCount + 1 ∧
    (searchNaver C query display s).2.dailyLimit = s.dailyLimit ∧
    httpGets (searchNaver C query display s).2.events =
      httpGets s.events ++ (if s.requestCount < s.dailyLimit then [query] else []) := by
  by_cases h : s.dailyLimit ≤ s.requestCount
  · rw [searchNaver_exhausted C query display s h, if_neg (by omega)]
    exact ⟨rfl, rfl, by simp [httpGets]⟩
  · have hstate : (searchNaver C query display s).2 =
        { s with requestCount := s.requestCount + 1,
                 world := (C.search s.world query display).2,
                 events := s.events ++ [Event.searchCall query] ++ [Event.httpGet query] } := by
      have hle : ¬ s.requestCount + 1 > s.dailyLimit := by omega
      cases ho : (C.search s.world query display).1 with
      | response status items =>
        by_cases hs : status = 200 <;>
          simp [searchNaver, searchNaverTry, if_neg hle, ho, hs]
      | rejectedWithResponse status em msg =>
        simp [searchNaver, searchNaverTry, if_neg hle, ho]
      | rejected msg =>
        simp [searchNaver, searchNaverTry, if_neg hle, ho]
    rw [hstate, if_pos (by omega)]
    exact ⟨rfl, rfl, by simp [httpGets]⟩

/-- C30: over any sequence of `searchNaver` calls, successful or failing, started with
`requestCount = c` and `c ≤ dailyLimit`: the number of HTTP requests sent to the search service is
the smaller of the number of calls and `dailyLimit − c`, so it never exceeds `dailyLimit − c`;
`requestCount` grows by one on every call, also on the calls rejected for the limit, and ends
above `dailyLimit` as soon as there are more calls than `dailyLimit − c`. -/
theorem requests_sent_within_daily_limit {ω : Type} (C : Collab ω) (calls : List (Str × Nat))
    (s : Collector ω) (hc : s.requestCount ≤ s.dailyLimit) :
    (httpGets (searchMany C calls s).events).length =
      (httpGets s.events).length + min calls.length (s.dailyLimit - s.requestCount) ∧
    (httpGets (searchMany C calls s).events).length ≤
      (httpGets s.events).length + (s.dailyLimit - s.requestCount) ∧
    (searchMany C calls s).requestCount = s.requestCount + calls.length ∧
    (searchMany C calls s).dailyLimit = s.dailyLimit ∧
    (s.dailyLimit - s.requestCount < calls.length →
      s.dailyLimit < (searchMany C calls s).requestCount) := by
  have hall : ∀ (calls : List (Str × Nat)) (s : Collector ω),
      (httpGets (searchMany C calls s).events).length =
        (httpGets s.events).length + min calls.length (s.dailyLimit - s.requestCount) ∧
      (searchMany C calls s).requestCount = s.requestCount + calls.length ∧
      (searchMany C calls s).dailyLimit = s.dailyLimit := by
    intro calls
    induction calls with
    | nil =>
      intro s
      simp [searchMany]
    | cons call rest ih =>
      intro s
      obtain ⟨a, b, c⟩ := searchNaver_counts C call.1 call.2 s
      obtain ⟨h1, h2, h3⟩ := ih (searchNaver C call.1 call.2 s).2
      simp only [searchMany, List.length_cons]
      rw [h1, h2, h3, a, b, c]
      refine ⟨?_, by omega, rfl⟩
      by_cases hq : s.requestCount < s.dailyLimit
      · rw [if_pos hq]
        simp only [List.length_append, List.length_singleton]
        omega
      · rw [if_neg hq]
        simp only [List.append_nil]
        omega
  obtain ⟨h1, h2, h3⟩ := hall calls s
  refine ⟨h1, ?_, h2, h3, fun h => ?_⟩
  · rw [h1]
    exact Nat.add_le_add_left (Nat.min_le_right _ _) _
  · rw [h2]
    omega

/-- An instance: with 25,000 of 25,000 requests used, two further calls send no HTTP request and
take the counter to 25,002. -/
theorem requests_sent_within_daily_limit_witness :
    exhaustedCollector.requestCount ≤ exhaustedCollector.dailyLimit ∧
    (httpGets (searchMany stubSearchable [("x".toList, 20), ("y".toList, 20)]
      exhaustedCollector).events).length = 0 ∧
    (searchMany stubSearchable [("x".toList, 20), ("y".toList, 20)]
      exhaustedCollector).requestCount = 25002 :=
  ⟨by decide,
   (requests_sent_within_daily_limit stubSearchable [("x".toList, 20), ("y".toList, 20)]
      exhaustedCollector (by decide)).1.trans (by decide),
   (requests_sent_within_daily_limit stubSearchable [("x".toList, 20), ("y".toList, 20)]
      exhaustedCollector (by decide)).2.2.1.trans (by decide)⟩

/-! ## The two accumulators -/

theorem guessLoop_accumulators {ω : Type} (rt : Platform) (C : Collab ω) (eng : Str) :
    ∀ (patterns : List Str) (i : Nat) (s : Collector ω),
      (guessLoop rt C eng patterns i s).2.results = s.results ∧
        (guessLoop rt C eng patterns i s).2.failed = s.failed := by
  intro patterns
  induction patterns with
  | nil =>
    intro i s
    exact ⟨rfl, rfl⟩
  | cons d rest ih =>
    intro i s
    have hrec := ih (i + 1)
      { s with world := (C.probe s.world d).2, events := s.events ++ [Event.probe d] }
    cases hp : (C.probe s.world d).1 with
    | found url code redir =>
      simp only [guessLoop, hp]
      exact ⟨trivial, trivial⟩
    | absent =>
      simp only [guessLoop, hp]
      exact hrec
    | fault msg =>
      simp only [guessLoop, hp]
      exact hrec

theorem guessBrandDomain_accumulators {ω : Type} (rt : Platform) (C : Collab ω)
    (eng : Option Str) (s : Collector ω) :
    (guessBrandDomainFromEnglishName rt C eng s).2.results = s.results ∧
      (guessBrandDomainFromEnglishName rt C eng s).2.failed = s.failed := by
  unfold guessBrandDomainFromEnglishName
  cases truthy eng with
  | none => exact ⟨rfl, rfl⟩
  | some name =>
    simp only
    split
    · exact ⟨rfl, rfl⟩
    · exact guessLoop_accumulators rt C name _ 0 s

theorem searchNaver_accumulators {ω : Type} (C : Collab ω) (query : Str) (display : Nat)
    (s : Collector ω) :
    (searchNaver C query display s).2.results = s.results ∧
      (searchNaver C query display s).2.failed = s.failed := by
  by_cases h : s.dailyLimit ≤ s.requestCount
  · rw [searchNaver_exhausted C query display s h]
    exact ⟨rfl, rfl⟩
  · have hle : ¬ s.requestCount + 1 > s.dailyLimit := by omega
    cases ho : (C.search s.world query display).1 with
    | response status items =>
      by_cases hs : status = 200 <;>
        simp [searchNaver, searchNaverTry, if_neg hle, ho, hs]
    | rejectedWithResponse status em msg =>
      simp [searchNaver, searchNaverTry, if_neg hle, ho]
    | rejected msg =>
      simp [searchNaver, searchNaverTry, if_neg hle, ho]

theorem searchLoop_accumulators {ω : Type} (rt : Platform) (C : Collab ω) (brandName : Str)
    (brandNameEnglish : Option Str) :
    ∀ (queries : List Str) (result : BrandResult) (s : Collector ω),
      (searchLoop rt C brandName brandNameEnglish queries result s).2.results = s.results ∧
        (searchLoop rt C brandName brandNameEnglish queries result s).2.failed = s.failed := by
  intro queries
  induction queries with
  | nil =>
    intro result s
    exact ⟨rfl, rfl⟩
  | cons q rest ih =>
    intro result s
    have hsn := searchNaver_accumulators C q 20 s
    rcases hsr : searchNaver C q 20 s with ⟨r, s1⟩
    rw [hsr] at hsn
    cases r with
    | error m =>
      rw [searchLoop_cons_error rt C _ _ q rest result s s1 m hsr]
      exact ⟨(ih _ _).1.trans hsn.1, (ih _ _).2.trans hsn.2⟩
    | ok items =>
      by_cases hnone : extractOfficialWebsites rt items brandName brandNameEnglish = []
      · rw [searchLoop_cons_empty rt C _ _ q rest result s s1 items hsr hnone]
        exact ⟨(ih _ _).1.trans hsn.1, (ih _ _).2.trans hsn.2⟩
      · rw [searchLoop_cons_found rt C _ _ q rest result s s1 items hsr hnone]
        exact hsn

theorem findProcedure_accumulators {ω : Type} (rt : Platform) (C : Collab ω) (brand : Brand)
    (s : Collector ω) :
    (findProcedure rt C brand s).2.results = s.results ∧
      (findProcedure rt C brand s).2.failed = s.failed := by
  have hguess := guessBrandDomain_accumulators rt C brand.brandNameEnglish
    (enterBrand brand.brandName s)
  show (findBrandWebsite rt C brand s).2.results = s.results ∧
    (findBrandWebsite rt C brand s).2.failed = s.failed
  cases hc : cacheGet s.cache (rt.toLowerCase brand.brandName) with
  | some cached =>
    rw [findBrandWebsite_cached rt C brand s cached hc]
    exact ⟨rfl, rfl⟩
  | none =>
    cases hg : (guessBrandDomainFromEnglishName rt C brand.brandNameEnglish
        (enterBrand brand.brandName s)).1 with
    | some g =>
      rw [findBrandWebsite_guessed rt C brand s g hc hg]
      exact hguess
    | none =>
      rw [findBrandWebsite_searched rt C brand s hc hg]
      have hloop := searchLoop_accumulators rt C brand.brandName brand.brandNameEnglish
        (generateSearchQueries brand.brandName brand.brandNameEnglish) (initialResult brand)
        (guessBrandDomainFromEnglishName rt C brand.brandNameEnglish
          (enterBrand brand.brandName s)).2
      exact ⟨hloop.1.trans hguess.1, hloop.2.trans hguess.2⟩

theorem faultyFind_accumulators (brand : Brand) (s : Collector Unit) :
    (faultyFind brand s).2.results = s.results ∧ (faultyFind brand s).2.failed = s.failed := by
  unfold faultyFind
  split
  · exact ⟨rfl, rfl⟩
  · exact findProcedure_accumulators asciiPlatform stubTestbrand brand s

theorem processBrand_accumulators {ω : Type}
    (find : Brand → Collector ω → Except Str BrandResult × Collector ω)
    (hfind : ∀ b s, (find b s).2.results = s.results ∧ (find b s).2.failed = s.failed)
    (brand : Brand) (s : Collector ω) :
    ResultFor find brand (processBrand find brand s).1 ∧
    (processBrand find brand s).2.results =
      s.results ++ [(processBrand find brand s).1].filter
        (fun r => decide (r.status = Status.found)) ∧
    (processBrand find brand s).2.failed =
      s.failed ++ [(processBrand find brand s).1].filter
        (fun r => !decide (r.status = Status.found)) := by
  obtain ⟨hr, hf⟩ := hfind brand s
  have hfst : ∀ r, (find brand s).1 = r → ResultFor find brand (match r with
      | Except.ok result => result
      | Except.error message => errorResult brand message) := by
    intro r hr
    cases r with
    | ok result => exact ⟨s, Or.inl hr⟩
    | error message => exact ⟨s, Or.inr ⟨message, hr, rfl⟩⟩
  unfold processBrand
  rcases hfs : find brand s with ⟨r, s1⟩
  rw [hfs] at hr hf
  have hfst1 := hfst r (by rw [hfs])
  simp only at hr hf
  cases r with
  | error message =>
    refine ⟨hfst1, ?_, ?_⟩
    · simp [errorResult, hr]
    · simp [errorResult, hf]
  | ok result =>
    simp only at hfst1 ⊢
    by_cases hs : result.status = Status.found
    · rw [if_pos hs]
      exact ⟨hfst1, by simp [hs, hr], by simp [hs, hf]⟩
    · rw [if_neg hs]
      exact ⟨hfst1, by simp [hs, hr], by simp [hs, hf]⟩

theorem processBatch_accumulators {ω : Type}
    (find : Brand → Collector ω → Except Str BrandResult × Collector ω)
    (hfind : ∀ b s, (find b s).2.results = s.results ∧ (find b s).2.failed = s.failed) :
    ∀ (batch : List Brand) (batchResults : List BrandResult) (s : Collector ω),
      ∃ rs, (processBatch find batch batchResults s).1 = batchResults ++ rs ∧
        List.Forall₂ (ResultFor find) batch rs ∧
        (processBatch find batch batchResults s).2.results =
          s.results ++ rs.filter (fun r => decide (r.status = Status.found)) ∧
        (processBatch find batch batchResults s).2.failed =
          s.failed ++ rs.filter (fun r => !decide (r.status = Status.found)) := by
  intro batch
  induction batch with
  | nil =>
    intro acc s
    exact ⟨[], by simp [processBatch], List.Forall₂.nil, by simp [processBatch],
      by simp [processBatch]⟩
  | cons brand rest ih =>
    intro acc s
    obtain ⟨h1, h2, h3⟩ := processBrand_accumulators find hfind brand s
    obtain ⟨rs, e1, e2, e3, e4⟩ :=
      ih (acc ++ [(processBrand find brand s).1]) (processBrand find brand s).2
    refine ⟨(processBrand find brand s).1 :: rs, ?_, List.Forall₂.cons h1 e2, ?_, ?_⟩
    · simp only [processBatch, e1, List.append_assoc, List.singleton_append]
    · simp only [processBatch, e3, h2]
      rw [List.append_assoc, ← List.filter_append]
      rfl
    · simp only [processBatch, e4, h3]
      rw [List.append_assoc, ← List.filter_append]
      rfl

theorem processBatches_accumulators {ω : Type}
    (find : Brand → Collector ω → Except Str BrandResult × Collector ω)
    (hfind : ∀ b s, (find b s).2.results = s.results ∧ (find b s).2.failed = s.failed) :
    ∀ (batches : List (List Brand)) (i : Nat) (allResults : List BrandResult)
      (s : Collector ω),
      ∃ rs, (processBatches find batches i allResults s).1 = allResults ++ rs ∧
        List.Forall₂ (ResultFor find) batches.flatten rs ∧
        (processBatches find batches i allResults s).2.results =
          s.results ++ rs.filter (fun r => decide (r.status = Status.found)) ∧
        (processBatches find batches i allResults s).2.failed =
          s.failed ++ rs.filter (fun r => !decide (r.status = Status.found)) := by
  intro batches
  induction batches with
  | nil =>
    intro i acc s
    exact ⟨[], by simp [processBatches], List.Forall₂.nil, by simp [processBatches],
      by simp [processBatches]⟩
  | cons batch rest ih =>
    intro i acc s
    obtain ⟨rs1, b1, b2, b3, b4⟩ := processBatch_accumulators find hfind batch [] s
    rw [List.nil_append] at b1
    simp only [processBatches]
    split
    · obtain ⟨rs, e1, e2, e3, e4⟩ := ih (i + 1) (acc ++ (processBatch find batch [] s).1)
        { (processBatch find batch [] s).2 with
          events := ((processBatch find batch [] s).2.events ++ [Event.saveBatch i]) ++
            [Event.saveIntermediate (i + 1)] }
      refine ⟨rs1 ++ rs, ?_, ?_, ?_, ?_⟩
      · rw [e1, b1, List.append_assoc]
      · rw [List.flatten_cons]
        exact List.rel_append b2 e2
      · rw [e3, List.filter_append, ← List.append_assoc]
        exact congrArg (· ++ _) b3
      · rw [e4, List.filter_append, ← List.append_assoc]
        exact congrArg (· ++ _) b4
    · obtain ⟨rs, e1, e2, e3, e4⟩ := ih (i + 1) (acc ++ (processBatch find batch [] s).1)
        { (processBatch find batch [] s).2 with
          events := (processBatch find batch [] s).2.events ++ [Event.saveBatch i] }
      refine ⟨rs1 ++ rs, ?_, ?_, ?_, ?_⟩
      · rw [e1, b1, List.append_assoc]
      · rw [List.flatten_cons]
        exact List.rel_append b2 e2
      · rw [e3, List.filter_append, ← List.append_assoc]
        exact congrArg (· ++ _) b3
      · rw [e4, List.filter_append, ← List.append_assoc]
        exact congrArg (· ++ _) b4

/-- C29: for every work list and every batch size of at least 1, and for every per-brand
procedure, also one that throws for some brands (it only has to leave the two accumulators alone,
as `findBrandWebsite` does), `processBrandsBatch` returns one result per input brand, in input
order: the result the procedure returned for that brand, or the error record of the fault it
raised.  Each of these results is appended to exactly one accumulator, in order: to the success
list when its status is `found`, to the failed list otherwise.  So the success list gains only
found results and the two lists together grow by the number of brands. -/
theorem one_result_per_brand {ω : Type}
    (find : Brand → Collector ω → Except Str BrandResult × Collector ω)
    (hfind : ∀ b s, (find b s).2.results = s.results ∧ (find b s).2.failed = s.failed)
    (brands : List Brand) (batchSize : Nat) (s : Collector ω) (hsize : 1 ≤ batchSize) :
    ∃ rs, (processBrandsBatchWith find brands batchSize s).1 = some rs ∧
      rs.length = brands.length ∧
      List.Forall₂ (ResultFor find) brands rs ∧
      (processBrandsBatchWith find brands batchSize s).2.results =
        s.results ++ rs.filter (fun r => decide (r.status = Status.found)) ∧
      (processBrandsBatchWith find brands batchSize s).2.failed =
        s.failed ++ rs.filter (fun r => !decide (r.status = Status.found)) ∧
      (processBrandsBatchWith find brands batchSize s).2.results.length +
          (processBrandsBatchWith find brands batchSize s).2.failed.length =
        s.results.length + s.failed.length + brands.length := by
  obtain ⟨batches, hb, hflat⟩ := chunkArray_flatten brands batchSize hsize
  obtain ⟨rs, h1, h2, h3, h4⟩ := processBatches_accumulators find hfind batches 0 [] s
  rw [hflat] at h2
  rw [List.nil_append] at h1
  have hlen : rs.length = brands.length := h2.length_eq.symm
  have hout : processBrandsBatchWith find brands batchSize s =
      (some (processBatches find batches 0 [] s).1, (processBatches find batches 0 [] s).2) := by
    simp only [processBrandsBatchWith, hb]
  rw [hout]
  refine ⟨rs, by rw [h1], hlen, h2, h3, h4, ?_⟩
  simp only
  have hsplit : rs.length =
      (rs.filter (fun r => decide (r.status = Status.found))).length +
        (rs.filter (fun r => !decide (r.status = Status.found))).length :=
    List.length_eq_length_filter_add _
  rw [h3, h4, List.length_append, List.length_append, ← hlen]
  omega

/-- An instance: three brands in batches of two, the second of which makes the procedure throw;
the first is found, the third is not. -/
theorem one_result_per_brand_witness :
    (1 ≤ 2) ∧
    ∃ rs, (processBrandsBatchWith faultyFind
        [testBrand, plainBrand "b".toList, blankBrand] 2 (Collector.fresh ())).1 = some rs ∧
      rs.length = [testBrand, plainBrand "b".toList, blankBrand].length ∧
      List.Forall₂ (ResultFor faultyFind) [testBrand, plainBrand "b".toList, blankBrand] rs ∧
      (processBrandsBatchWith faultyFind
        [testBrand, plainBrand "b".toList, blankBrand] 2 (Collector.fresh ())).2.results =
        (Collector.fresh ()).results ++ rs.filter (fun r => decide (r.status = Status.found)) ∧
      (processBrandsBatchWith faultyFind
        [testBrand, plainBrand "b".toList, blankBrand] 2 (Collector.fresh ())).2.failed =
        (Collector.fresh ()).failed ++ rs.filter (fun r => !decide (r.status = Status.found)) ∧
      (processBrandsBatchWith faultyFind
          [testBrand, plainBrand "b".toList, blankBrand] 2 (Collector.fresh ())).2.results.length +
          (processBrandsBatchWith faultyFind
            [testBrand, plainBrand "b".toList, blankBrand] 2
            (Collector.fresh ())).2.failed.length =
        (Collector.fresh ()).results.length + (Collector.fresh ()).failed.length +
          [testBrand, plainBrand "b".toList, blankBrand].length :=
  ⟨by decide,
   one_result_per_brand faultyFind faultyFind_accumulators
     [testBrand, plainBrand "b".toList, blankBrand] 2 (Collector.fresh ()) (by decide)⟩

end BrandCollector
